import Mathlib

/-!
# ffmpeg-over-ip: wire protocol, authentication and server handshake

A shallow embedding of `pkg/protocol/protocol.go`, `pkg/common/common.go` and of
`handleConnection` in `cmd/server/main.go`, followed by theorems about them.

Conventions of the embedding.

* A Go `byte`/`uint8` is a `Fin 256`; a Go `string` and a Go `[]byte` are lists of
  bytes (Go strings are arbitrary byte sequences, and the conversions
  `[]byte(s)` and `string(b)` copy the bytes unchanged).
* A `nil` interface or slice that the source tests for is an `Option`.
* A connection is the finite sequence of bytes it will still deliver, the
  condition it reports once they are used up, the bytes written to it so far and
  the room left before a write fails.
* Calls to `log.Printf` have no effect on any value the functions return or
  write and are left out.
-/

namespace FfmpegOverIp

/-! ## Bytes, strings and errors -/

/-- A Go `byte` (`uint8`). -/
abbrev Byte := Fin 256

/-- A Go `string` or `[]byte`: a sequence of bytes. -/
abbrev GoString := List Byte

/-- The conversion `uint8(n)` / `byte(n)` of a non-negative integer: its low 8 bits. -/
def byteOf (n : Nat) : Byte := ⟨n % 256, Nat.mod_lt n (by decide)⟩

/-- The bytes (UTF-8) of a string literal of the source. -/
def lit (s : String) : GoString :=
  (s.data.flatMap String.utf8EncodeChar).map (fun b => byteOf b.toNat)

/-- The verb `%d` of package `fmt` applied to a non-negative integer. -/
def fmtNat (n : Nat) : GoString := lit (Nat.repr n)

/-- The verb `%d` of package `fmt` applied to an `int`. -/
def fmtInt (i : Int) : GoString :=
  if i < 0 then lit "-" ++ fmtNat i.natAbs else fmtNat i.natAbs

/-- Go `error` values, as far as the code under study builds or inspects them. -/
inductive GoError where
  /-- The sentinel `io.EOF`. -/
  | EOF : GoError
  /-- The sentinel `io.ErrUnexpectedEOF`. -/
  | ErrUnexpectedEOF : GoError
  /-- An error of the network layer (a `net.Error`); `timeout` is its `Timeout()`. -/
  | netError (timeout : Bool) (text : GoString) : GoError
  /-- An error of the operating system or of package `os/exec`. -/
  | osError (text : GoString) : GoError
  /-- The value of `fmt.Errorf(format, ...)` without the verb `%w`: a plain message. -/
  | errorf (text : GoString) : GoError
  /-- The value of `fmt.Errorf(context + ": %w", cause)`: a new error wrapping `cause`. -/
  | wrap (context : GoString) (cause : GoError) : GoError
  deriving DecidableEq, Repr

/-- The method `Error()`: the message of an error. -/
def GoError.Error : GoError → GoString
  | .EOF => lit "EOF"
  | .ErrUnexpectedEOF => lit "unexpected EOF"
  | .netError _ text => text
  | .osError text => text
  | .errorf text => text
  | .wrap context cause => context ++ lit ": " ++ cause.Error

/-! ## The keyed hash: `crypto/hmac` over `crypto/sha256` -/

/-- Reduction of an integer to a `uint32`. -/
def u32 (n : Nat) : Nat := n % 4294967296

/-- Rotation of a `uint32` to the right (`bits.RotateLeft32(x, -n)`). -/
def rotr32 (x n : Nat) : Nat := u32 ((x >>> n) ||| (x <<< (32 - n)))

/-- The 64 round constants of SHA-256 (FIPS 180-4, section 4.2.2). -/
def sha256K : List Nat :=
  [0x428a2f98, 0x71374491, 0xb5c0fbcf, 0xe9b5dba5, 0x3956c25b, 0x59f111f1, 0x923f82a4, 0xab1c5ed5,
   0xd807aa98, 0x12835b01, 0x243185be, 0x550c7dc3, 0x72be5d74, 0x80deb1fe, 0x9bdc06a7, 0xc19bf174,
   0xe49b69c1, 0xefbe4786, 0x0fc19dc6, 0x240ca1cc, 0x2de92c6f, 0x4a7484aa, 0x5cb0a9dc, 0x76f988da,
   0x983e5152, 0xa831c66d, 0xb00327c8, 0xbf597fc7, 0xc6e00bf3, 0xd5a79147, 0x06ca6351, 0x14292967,
   0x27b70a85, 0x2e1b2138, 0x4d2c6dfc, 0x53380d13, 0x650a7354, 0x766a0abb, 0x81c2c92e, 0x92722c85,
   0xa2bfe8a1, 0xa81a664b, 0xc24b8b70, 0xc76c51a3, 0xd192e819, 0xd6990624, 0xf40e3585, 0x106aa070,
   0x19a4c116, 0x1e376c08, 0x2748774c, 0x34b0bcb5, 0x391c0cb3, 0x4ed8aa4a, 0x5b9cca4f, 0x682e6ff3,
   0x748f82ee, 0x78a5636f, 0x84c87814, 0x8cc70208, 0x90befffa, 0xa4506ceb, 0xbef9a3f7, 0xc67178f2]

/-- The chaining value of SHA-256: eight `uint32` words. -/
structure Sha256State where
  a : Nat
  b : Nat
  c : Nat
  d : Nat
  e : Nat
  f : Nat
  g : Nat
  h : Nat
  deriving DecidableEq, Repr

/-- The initial chaining value of SHA-256 (FIPS 180-4, section 5.3.3). -/
def sha256Init : Sha256State :=
  ⟨0x6a09e667, 0xbb67ae85, 0x3c6ef372, 0xa54ff53a, 0x510e527f, 0x9b05688c, 0x1f83d9ab, 0x5be0cd19⟩

/-- The big-endian integer held in a sequence of bytes (`binary.BigEndian.Uint32` on four). -/
def beNat (bs : List Byte) : Nat := bs.foldl (fun acc b => acc * 256 + b.val) 0

/-- The four bytes of a `uint32`, most significant first (`binary.BigEndian.PutUint32`). -/
def be32 (n : Nat) : List Byte :=
  [byteOf (n >>> 24), byteOf (n >>> 16), byteOf (n >>> 8), byteOf n]

/-- The 64 words of the message schedule of one 64-byte block. -/
def sha256Schedule (block : List Byte) : List Nat :=
  let w0 := (List.range 16).map (fun i => beNat ((block.drop (4 * i)).take 4))
  (List.range 48).foldl (fun w _ =>
    let n := w.length
    let x := w.getD (n - 15) 0
    let y := w.getD (n - 2) 0
    let s0 := (rotr32 x 7 ^^^ rotr32 x 18) ^^^ (x >>> 3)
    let s1 := (rotr32 y 17 ^^^ rotr32 y 19) ^^^ (y >>> 10)
    w ++ [u32 (w.getD (n - 16) 0 + s0 + w.getD (n - 7) 0 + s1)]) w0

/-- One round of the SHA-256 compression function with constant `k` and schedule word `w`. -/
def sha256Round (s : Sha256State) (kw : Nat × Nat) : Sha256State :=
  let S1 := (rotr32 s.e 6 ^^^ rotr32 s.e 11) ^^^ rotr32 s.e 25
  let ch := (s.e &&& s.f) ^^^ ((s.e ^^^ 4294967295) &&& s.g)
  let t1 := u32 (s.h + S1 + ch + kw.1 + kw.2)
  let S0 := (rotr32 s.a 2 ^^^ rotr32 s.a 13) ^^^ rotr32 s.a 22
  let maj := ((s.a &&& s.b) ^^^ (s.a &&& s.c)) ^^^ (s.b &&& s.c)
  let t2 := u32 (S0 + maj)
  ⟨u32 (t1 + t2), s.a, s.b, s.c, u32 (s.d + t1), s.e, s.f, s.g⟩

/-- The SHA-256 compression of one 64-byte block into the chaining value. -/
def sha256Block (s : Sha256State) (block : List Byte) : Sha256State :=
  let r := (sha256K.zip (sha256Schedule block)).foldl sha256Round s
  ⟨u32 (s.a + r.a), u32 (s.b + r.b), u32 (s.c + r.c), u32 (s.d + r.d),
   u32 (s.e + r.e), u32 (s.f + r.f), u32 (s.g + r.g), u32 (s.h + r.h)⟩

/-- The padding of SHA-256: a byte `0x80`, zero bytes up to 56 modulo 64, then the
length of the message in bits as a 64-bit big-endian integer. -/
def sha256Pad (msg : List Byte) : List Byte :=
  let bits := (8 * msg.length) % 18446744073709551616
  msg ++ [byteOf 0x80] ++ List.replicate ((119 - msg.length % 64) % 64) (byteOf 0)
    ++ be32 (bits >>> 32) ++ be32 bits

/-- The function `sha256.Sum256`: the 32-byte SHA-256 digest of a message. -/
def sha256 (msg : List Byte) : List Byte :=
  let padded := sha256Pad msg
  let s := (List.range (padded.length / 64)).foldl
    (fun s i => sha256Block s ((padded.drop (64 * i)).take 64)) sha256Init
  be32 s.a ++ be32 s.b ++ be32 s.c ++ be32 s.d ++ be32 s.e ++ be32 s.f ++ be32 s.g ++ be32 s.h

/-- The value of `mac.Sum(nil)` for `mac := hmac.New(sha256.New, key)` after
`mac.Write(msg)`: HMAC (RFC 2104) with SHA-256, block size 64. -/
def hmacSHA256 (key msg : List Byte) : List Byte :=
  let k0 := if key.length > 64 then sha256 key else key
  let k := k0 ++ List.replicate (64 - k0.length) (byteOf 0)
  let ipad := k.map (fun b => byteOf (b.val ^^^ 0x36))
  let opad := k.map (fun b => byteOf (b.val ^^^ 0x5c))
  sha256 (opad ++ sha256 (ipad ++ msg))

/-- The digit table of package `encoding/hex`. -/
def hextable : List Byte := lit "0123456789abcdef"

/-- The function `hex.EncodeToString`: two digits of `hextable` for every byte. -/
def hexEncodeToString (src : List Byte) : GoString :=
  src.flatMap (fun v => [hextable.getD (v.val >>> 4) 0, hextable.getD (v.val &&& 0x0f) 0])

/-- Whether a byte is a lower-case hexadecimal digit, `0` to `9` or `a` to `f`. -/
def isLowerHexDigit (b : Byte) : Bool :=
  (48 ≤ b.val && b.val ≤ 57) || (97 ≤ b.val && b.val ≤ 102)

/-! ## `pkg/protocol`: constants and data -/

/-- Message type of the command frame. -/
def MessageTypeCommand : Byte := 1
/-- Message type of a chunk of standard output. -/
def MessageTypeStdout : Byte := 2
/-- Message type of a chunk of standard error. -/
def MessageTypeStderr : Byte := 3
/-- Message type of the exit-code frame. -/
def MessageTypeExitCode : Byte := 4
/-- Message type of an error report. -/
def MessageTypeError : Byte := 5
/-- Message type of a cancellation request. -/
def MessageTypeCancel : Byte := 6
/-- Message type of a chunk of standard input. -/
def MessageTypeStdin : Byte := 7
/-- Message type of the end of standard input. -/
def MessageTypeStdinClose : Byte := 8

/-- The protocol version. -/
def ProtocolVersion : Byte := 1
/-- The length of the signature field of a command payload. -/
def SignatureLength : Nat := 64

/-- The struct `ConnectionInfo`. -/
structure ConnectionInfo where
  Network : GoString
  Address : GoString
  deriving DecidableEq, Repr

/-- The struct `Message`; the field `Type` of the source is `MsgType` here. -/
structure Message where
  MsgType : Byte
  Payload : List Byte
  deriving DecidableEq, Repr

/-- The state of a `net.Conn`. -/
structure Conn where
  /-- The value of `RemoteAddr().String()`. -/
  remoteAddr : GoString
  /-- The bytes `Read` will still deliver, in order. -/
  incoming : List Byte
  /-- The error `Read` reports once `incoming` is used up (`io.EOF` when the peer closed). -/
  readEnd : GoError
  /-- The bytes `Write` has accepted so far, in order. -/
  sent : List Byte
  /-- The number of bytes `Write` still accepts before it fails; `none` is no limit. -/
  writeRoom : Option Nat
  /-- The error a failing `Write` reports. -/
  writeErr : GoError
  deriving DecidableEq, Repr

/-- The call `io.ReadFull(conn, buf)` with `len(buf) = n`: the `n` bytes read, or the error.
With fewer than `n` bytes left everything left is consumed and the error is that of the
connection, `io.EOF` turned into `io.ErrUnexpectedEOF` when some byte was read. -/
def readFull (c : Conn) (n : Nat) : Except GoError (List Byte) × Conn :=
  if n ≤ c.incoming.length then
    (.ok (c.incoming.take n), { c with incoming := c.incoming.drop n })
  else
    (.error (if 0 < c.incoming.length ∧ c.readEnd = GoError.EOF then GoError.ErrUnexpectedEOF
             else c.readEnd),
     { c with incoming := [] })

/-- The call `conn.Write(b)`: all of `b` is written, or as much as there is room for and the
write fails. -/
def Conn.Write (c : Conn) (b : List Byte) : Option GoError × Conn :=
  match c.writeRoom with
  | none => (none, { c with sent := c.sent ++ b })
  | some room =>
    if b.length ≤ room then
      (none, { c with sent := c.sent ++ b, writeRoom := some (room - b.length) })
    else
      (some c.writeErr, { c with sent := c.sent ++ b.take room, writeRoom := some 0 })

/-! ## `pkg/protocol`: functions -/

/-- The function `strings.Contains`. -/
def stringsContains (s substr : GoString) : Bool := decide (substr <:+: s)

/-- The function `filepath.IsAbs` of a Unix build: `strings.HasPrefix(path, "/")`. -/
def filepathIsAbs (path : GoString) : Bool := (lit "/").isPrefixOf path

/-- The function `ParseAddress`. -/
def ParseAddress (address : GoString) : Except GoError ConnectionInfo :=
  if stringsContains address (lit ":") then
    .ok { Network := lit "tcp", Address := address }
  else if filepathIsAbs address then
    .ok { Network := lit "unix", Address := address }
  else
    .error (.errorf (lit "invalid address format: " ++ address
      ++ lit " (must be host:port or /path/to/socket)"))

/-- The function `strings.Join`. -/
def stringsJoin (elems : List GoString) (sep : GoString) : GoString := sep.intercalate elems

/-- The function `CalculateSignature`. -/
def CalculateSignature (authSecret : GoString) (commandArgs : List GoString) : GoString :=
  let message := stringsJoin commandArgs [0]
  hexEncodeToString (hmacSHA256 authSecret message)

/-- The function `subtle.ConstantTimeByteEq`: `int((uint32(x^y) - 1) >> 31)`. -/
def ConstantTimeByteEq (x y : Byte) : Nat := u32 ((x.val ^^^ y.val) + 4294967295) >>> 31

/-- The function `subtle.ConstantTimeCompare`. -/
def ConstantTimeCompare (x y : List Byte) : Nat :=
  if x.length ≠ y.length then 0
  else
    let v := (x.zip y).foldl (fun (v : Byte) p => byteOf (v.val ||| (p.1.val ^^^ p.2.val))) 0
    ConstantTimeByteEq v 0

/-- The function `hmac.Equal`. -/
def hmacEqual (mac1 mac2 : List Byte) : Bool := ConstantTimeCompare mac1 mac2 == 1

/-- The function `VerifySignature`. -/
def VerifySignature (authSecret signature : GoString) (commandArgs : List GoString) : Bool :=
  let expected := CalculateSignature authSecret commandArgs
  hmacEqual signature expected

/-- The function `ReadMessage`: the message or the error, and the connection afterwards. -/
def ReadMessage (conn : Option Conn) : Except GoError Message × Option Conn :=
  match conn with
  | none => (.error (.errorf (lit "connection is nil")), none)
  | some c0 =>
    match readFull c0 1 with
    | (.error err, c1) =>
      if err = GoError.EOF then (.error err, some c1)
      else (.error (.wrap (lit "error reading message type") err), some c1)
    | (.ok typeBuf, c1) =>
      match readFull c1 4 with
      | (.error err, c2) => (.error (.wrap (lit "error reading payload length") err), some c2)
      | (.ok lenBuf, c2) =>
        let payloadLen := beNat lenBuf
        if payloadLen > 100 * 1024 * 1024 then
          (.error (.errorf (lit "payload length too large: " ++ fmtNat payloadLen
            ++ lit " bytes")), some c2)
        else if payloadLen > 0 then
          match readFull c2 payloadLen with
          | (.error err, c3) => (.error (.wrap (lit "error reading payload") err), some c3)
          | (.ok payload, c3) => (.ok { MsgType := typeBuf.getD 0 0, Payload := payload }, some c3)
        else
          (.ok { MsgType := typeBuf.getD 0 0, Payload := [] }, some c2)

/-- The function `WriteMessage`: the error, if any, and the connection afterwards. -/
def WriteMessage (conn : Option Conn) (msgType : Byte) (payload : List Byte) :
    Option GoError × Option Conn :=
  match conn with
  | none => (some (.errorf (lit "connection is nil")), none)
  | some c0 =>
    let header := [msgType] ++ be32 (u32 payload.length)
    match c0.Write header with
    | (some err, c1) => (some (.wrap (lit "error writing message header") err), some c1)
    | (none, c1) =>
      if payload.length > 0 then
        match c1.Write payload with
        | (some err, c2) => (some (.wrap (lit "error writing message payload") err), some c2)
        | (none, c2) => (none, some c2)
      else
        (none, some c1)

/-- The payload `WriteCommandMessage` builds for a non-empty argument vector: the version,
the signature, and the arguments with a null byte after each one but the last. -/
def commandPayload (authSecret : GoString) (args : List GoString) : List Byte :=
  let signature := CalculateSignature authSecret args
  let payload := [ProtocolVersion] ++ signature
  args.enum.foldl (fun payload ia =>
    let payload := payload ++ ia.2
    if ia.1 < args.length - 1 then payload ++ [0] else payload) payload

/-- The function `WriteCommandMessage`. -/
def WriteCommandMessage (conn : Option Conn) (authSecret : GoString) (args : List GoString) :
    Option GoError × Option Conn :=
  match conn with
  | none => (some (.errorf (lit "connection is nil")), none)
  | some c =>
    if args.length = 0 then
      (some (.errorf (lit "no arguments provided for command")), some c)
    else
      WriteMessage (some c) MessageTypeCommand (commandPayload authSecret args)

/-- The four results of `ParseCommandMessage`. -/
structure ParsedCommand where
  version : Byte
  signature : GoString
  args : List GoString
  err : Option GoError
  deriving DecidableEq, Repr

/-- The function `bytes.Split` with a separator of one byte. -/
def bytesSplit (s : List Byte) (sep : Byte) : List (List Byte) := s.splitOn sep

/-- The function `ParseCommandMessage`; a `nil` payload is `none`. -/
def ParseCommandMessage (payload : Option (List Byte)) : ParsedCommand :=
  match payload with
  | none => ⟨0, [], [], some (.errorf (lit "payload is nil"))⟩
  | some payload =>
    if payload.length < 1 + SignatureLength then
      ⟨0, [], [], some (.errorf (lit "invalid command message: payload length "
        ++ fmtNat payload.length ++ lit " is too short (minimum required: "
        ++ fmtNat (1 + SignatureLength) ++ lit ")"))⟩
    else
      let version := payload.getD 0 0
      let err :=
        if version ≠ ProtocolVersion then
          some (GoError.errorf (lit "protocol version mismatch: got " ++ fmtNat version.val
            ++ lit ", expected " ++ fmtNat ProtocolVersion.val))
        else none
      let signature := (payload.drop 1).take SignatureLength
      let argsPart := payload.drop (1 + SignatureLength)
      let args := if argsPart.length > 0 then bytesSplit argsPart 0 else []
      ⟨version, signature, args, err⟩

/-! ## `pkg/common` and `pkg/config` -/

/-- A value decoded from JSON into an `interface{}`, as far as the code tells the cases
apart: `nil`, a `bool`, a `string`, or a value of another type. -/
inductive JSONValue where
  | null : JSONValue
  | bool (b : Bool) : JSONValue
  | string (s : GoString) : JSONValue
  | other : JSONValue
  deriving DecidableEq, Repr

/-- The struct `ServerConfig`; a rewrite rule `[2]string` is a pair. -/
structure ServerConfig where
  Log : JSONValue
  Address : GoString
  AuthSecret : GoString
  FFmpegPath : GoString
  Rewrites : List (GoString × GoString)
  Debug : Bool

/-- The function `rewritePath`; `replaceAll s old new` stands for the library call
`strings.Replace(s, old, new, -1)`. -/
def rewritePath (replaceAll : GoString → GoString → GoString → GoString)
    (input : GoString) (rewrites : List (GoString × GoString)) : GoString :=
  rewrites.foldl (fun result rewrite => replaceAll result rewrite.1 rewrite.2) input

/-- The function `RewriteCommandArgs`. -/
def RewriteCommandArgs (replaceAll : GoString → GoString → GoString → GoString)
    (args : List GoString) (rewrites : List (GoString × GoString)) : List GoString :=
  if rewrites.length = 0 then args
  else args.map (fun arg => rewritePath replaceAll arg rewrites)

/-! ## `cmd/server`: the connection handler -/

/-- The outcome of `cmd.Wait()`. -/
inductive WaitResult where
  /-- The error is `nil`. -/
  | success : WaitResult
  /-- The error is an `*exec.ExitError` whose `ExitCode()` is `code`. -/
  | exitError (code : Int) : WaitResult
  /-- The error is of another type. -/
  | otherError (err : GoError) : WaitResult
  deriving DecidableEq, Repr

/-- What the libraries and the operating system answer during one run of
`handleConnection`. -/
structure Env where
  /-- The call `strings.Replace(s, old, new, -1)`. -/
  replaceAll : GoString → GoString → GoString → GoString
  /-- Whether `os.IsNotExist(err)` holds for the error of `os.Stat(path)`. -/
  statIsNotExist : GoString → Bool
  /-- The error of `cmd.StdinPipe()`. -/
  stdinPipeErr : Option GoError
  /-- The error of `cmd.StdoutPipe()`. -/
  stdoutPipeErr : Option GoError
  /-- The error of `cmd.StderrPipe()`. -/
  stderrPipeErr : Option GoError
  /-- The value of `time.Now().UnixNano()`. -/
  now : Int
  /-- The error of `cmd.Start()`. -/
  startErr : Option GoError
  /-- The outcome of `cmd.Wait()`. -/
  waitResult : WaitResult

/-- The goroutines `handleConnection` starts. -/
inductive Goroutine where
  /-- The function literal that waits for `cmdCtx.Done()` and kills the process. -/
  | killOnCancel : Goroutine
  /-- The call `handleStdin(cmdCtx, conn, stdin, cmdCancel)`. -/
  | handleStdin : Goroutine
  /-- The call `forwardOutput(cmdCtx, src, conn, msgType, cfg.Debug, streamType)`. -/
  | forwardOutput (msgType : Byte) (debug : Bool) (streamType : GoString) : Goroutine
  deriving DecidableEq, Repr

/-- The calls of `handleConnection` that act on the connection, on the subprocess or on
the registry of active processes, in the order of execution. -/
inductive Event where
  /-- The call `protocol.WriteMessage(conn, msgType, payload)`. -/
  | writeMessage (msgType : Byte) (payload : List Byte) : Event
  /-- The call `exec.CommandContext(ctx, name, args...)`: the subprocess handle is created. -/
  | commandContext (name : GoString) (args : List GoString) : Event
  /-- The call `cmd.StdinPipe()`. -/
  | stdinPipe : Event
  /-- The call `cmd.StdoutPipe()`. -/
  | stdoutPipe : Event
  /-- The call `cmd.StderrPipe()`. -/
  | stderrPipe : Event
  /-- The assignment `activeProcesses[processID] = cmd`. -/
  | registryInsert (processID : GoString) : Event
  /-- The deferred call `delete(activeProcesses, processID)`. -/
  | registryDelete (processID : GoString) : Event
  /-- The call `cmd.Start()`. -/
  | cmdStart : Event
  /-- A `go` statement. -/
  | go (g : Goroutine) : Event
  /-- The call `cmd.Wait()`. -/
  | cmdWait : Event
  /-- The deferred call `cmdCancel()`. -/
  | cmdCancel : Event
  deriving DecidableEq, Repr

/-- The connection as this goroutine leaves it and the calls made so far. -/
structure Session where
  conn : Option Conn
  trace : List Event
  deriving DecidableEq, Repr

/-- Appends a call to the trace. -/
def Session.record (s : Session) (e : Event) : Session :=
  { s with trace := s.trace ++ [e] }

/-- The call `protocol.WriteMessage(conn, msgType, payload)` with its error ignored. -/
def Session.send (s : Session) (msgType : Byte) (payload : List Byte) : Session :=
  { conn := (WriteMessage s.conn msgType payload).2,
    trace := s.trace ++ [Event.writeMessage msgType payload] }

/-- The conversion `byte(exitCode)` of an `int`. -/
def byteOfInt (i : Int) : Byte := byteOf (i % 256).toNat

/-- The function `handleConnection`, with the connection and the trace of calls it leaves.
The writes and reads of the goroutines it starts are not part of the result. -/
def handleConnection (conn : Option Conn) (cfg : ServerConfig) (env : Env) : Session :=
  match conn with
  | none => ⟨none, []⟩
  | some c =>
    let remoteAddr := c.remoteAddr
    match ReadMessage (some c) with
    | (.error _, conn) => ⟨conn, []⟩
    | (.ok msg, conn) =>
      let s : Session := ⟨conn, []⟩
      if msg.MsgType ≠ MessageTypeCommand then
        s.send MessageTypeError (lit "Expected command message")
      else
        let parsed := ParseCommandMessage (some msg.Payload)
        match parsed.err with
        | some err =>
          s.send MessageTypeError (lit "Invalid command message: " ++ err.Error)
        | none =>
          if parsed.version ≠ ProtocolVersion then
            s.send MessageTypeError
              (lit "Unsupported protocol version: " ++ fmtNat parsed.version.val)
          else if !VerifySignature cfg.AuthSecret parsed.signature parsed.args then
            s.send MessageTypeError (lit "Authentication failed: invalid signature")
          else
            let rewrittenArgs := RewriteCommandArgs env.replaceAll parsed.args cfg.Rewrites
            let ffmpegPath := cfg.FFmpegPath
            if env.statIsNotExist ffmpegPath then
              s.send MessageTypeError (lit "FFmpeg not found at " ++ ffmpegPath)
            else
              let s := s.record (.commandContext ffmpegPath rewrittenArgs)
              let s := s.record .stdinPipe
              match env.stdinPipeErr with
              | some err =>
                s.send MessageTypeError (lit "Error creating stdin pipe: " ++ err.Error)
              | none =>
                let s := s.record .stdoutPipe
                match env.stdoutPipeErr with
                | some err =>
                  s.send MessageTypeError (lit "Error creating stdout pipe: " ++ err.Error)
                | none =>
                  let s := s.record .stderrPipe
                  match env.stderrPipeErr with
                  | some err =>
                    s.send MessageTypeError (lit "Error creating stderr pipe: " ++ err.Error)
                  | none =>
                    let processID := remoteAddr ++ lit "-" ++ fmtInt env.now
                    let s := s.record (.registryInsert processID)
                    let s := s.record .cmdStart
                    match env.startErr with
                    | some err =>
                      let s := s.send MessageTypeError
                        (lit "Error starting FFmpeg: " ++ err.Error)
                      s.record (.registryDelete processID)
                    | none =>
                      let s := s.record (.go .killOnCancel)
                      let s := s.record (.go .handleStdin)
                      let s := s.record
                        (.go (.forwardOutput MessageTypeStdout cfg.Debug (lit "stdout")))
                      let s := s.record
                        (.go (.forwardOutput MessageTypeStderr cfg.Debug (lit "stderr")))
                      let s := s.record .cmdWait
                      let exitCode : Int :=
                        match env.waitResult with
                        | .success => 0
                        | .exitError code => code
                        | .otherError _ => 1
                      let s := s.send MessageTypeExitCode [byteOfInt exitCode]
                      let s := s.record .cmdCancel
                      s.record (.registryDelete processID)

/-- A server configuration for examples: secret "right", no rewrites. -/
def ServerConfig.sample : ServerConfig :=
  { Log := .string (lit "stdout"), Address := lit "0.0.0.0:5050", AuthSecret := lit "right",
    FFmpegPath := lit "/usr/bin/ffmpeg", Rewrites := [], Debug := false }

/-- An environment for examples: the binary exists, every pipe and the start succeed, the
subprocess exits with status 0. -/
def Env.sample : Env :=
  { replaceAll := fun s _ _ => s, statIsNotExist := fun _ => false, stdinPipeErr := none,
    stdoutPipeErr := none, stderrPipeErr := none, now := 1700000000000000000,
    startErr := none, waitResult := .success }

/-! ## Callers that repeat the codec -/

/-- Consecutive calls `WriteMessage(conn, m.Type, m.Payload)` for the messages of a list, in
order, up to the first error. -/
def writeMessages (conn : Option Conn) : List Message → Option GoError × Option Conn
  | [] => (none, conn)
  | m :: ms =>
    match WriteMessage conn m.MsgType m.Payload with
    | (none, conn') => writeMessages conn' ms
    | (some err, conn') => (some err, conn')

/-- At most `n` consecutive calls `ReadMessage(conn)`, up to the first error: the messages
read, in order, and the connection afterwards. -/
def readMessages (conn : Option Conn) : Nat → List Message × Option Conn
  | 0 => ([], conn)
  | n + 1 =>
    match ReadMessage conn with
    | (.ok m, conn') => ((m :: (readMessages conn' n).1), (readMessages conn' n).2)
    | (.error _, conn') => ([], conn')

/-- The error `ReadMessage` returns for an announced length above the limit. -/
def errPayloadTooLarge (payloadLen : Nat) : GoError :=
  .errorf (lit "payload length too large: " ++ fmtNat payloadLen ++ lit " bytes")

instance instDecidableEqExcept {ε α : Type} [DecidableEq ε] [DecidableEq α] :
    DecidableEq (Except ε α) := fun x y =>
  match x, y with
  | .ok a, .ok b => if h : a = b then isTrue (by rw [h]) else isFalse (by intro e; cases e; exact h rfl)
  | .error a, .error b =>
    if h : a = b then isTrue (by rw [h]) else isFalse (by intro e; cases e; exact h rfl)
  | .ok _, .error _ => isFalse (by intro e; cases e)
  | .error _, .ok _ => isFalse (by intro e; cases e)

/-- A connection with the given input that ends in `io.EOF`, nothing written and no limit
on writes. -/
def Conn.ofInput (incoming : List Byte) : Conn :=
  { remoteAddr := lit "192.0.2.1:40000", incoming := incoming, readEnd := .EOF, sent := [],
    writeRoom := none, writeErr := .netError false (lit "broken pipe") }

/-! ## Local files, pipes and contexts -/

/-- The pipe to the standard input of the subprocess (`cmd.StdinPipe()`): the
`io.WriteCloser` the stdin proxy of the server writes to and closes. -/
structure Pipe where
  /-- The bytes `Write` has accepted so far, in order. -/
  written : List Byte
  /-- The number of bytes `Write` still accepts before it fails; `none` is no limit. -/
  room : Option Nat
  /-- The error a failing `Write` reports. -/
  writeErr : GoError
  /-- The number of calls of `Close` so far. -/
  closes : Nat
  deriving DecidableEq, Repr

/-- The call `p.Write(b)`; only its error is modelled, the byte count is merely logged. A
write after `Close` fails. -/
def Pipe.Write (p : Pipe) (b : List Byte) : Option GoError × Pipe :=
  if p.closes > 0 then (some (.osError (lit "file already closed")), p)
  else
    match p.room with
    | none => (none, { p with written := p.written ++ b })
    | some room =>
      if b.length ≤ room then
        (none, { p with written := p.written ++ b, room := some (room - b.length) })
      else
        (some p.writeErr, { p with written := p.written ++ b.take room, room := some 0 })

/-- The call `p.Close()`. -/
def Pipe.Close (p : Pipe) : Pipe := { p with closes := p.closes + 1 }

/-- An open pipe that accepts every write. -/
def Pipe.unlimited : Pipe :=
  { written := [], room := none, writeErr := .osError (lit "broken pipe"), closes := 0 }

/-- How one call of `Write` on `os.Stdout` or `os.Stderr` ends. What the operating system
does with a write is not decided by the program, so the outcome of every call is given. -/
inductive WriteOutcome where
  /-- All bytes are written and the error is `nil`. -/
  | ok : WriteOutcome
  /-- The first `n` bytes are written and the call returns the error `err` (a closed
  descriptor, a full disk). -/
  | error (n : Nat) (err : GoError) : WriteOutcome
  /-- The write fails with `EPIPE`. On the file descriptors 1 and 2 the Go runtime then
  raises `SIGPIPE`, which the client does not catch: the process dies inside the call. -/
  | sigpipe : WriteOutcome
  deriving DecidableEq, Repr

/-- The standard output or the standard error of the client: the bytes written so far, and
the outcomes of the next calls of `Write`, in order; when the list is used up every call
succeeds. -/
structure StdFile where
  written : List Byte
  outcomes : List WriteOutcome
  deriving DecidableEq, Repr

/-- The call `f.Write(b)` on `os.Stdout` or `os.Stderr`. -/
def StdFile.Write (f : StdFile) (b : List Byte) : WriteOutcome × StdFile :=
  match f.outcomes with
  | [] => (.ok, { f with written := f.written ++ b })
  | .ok :: rest => (.ok, { written := f.written ++ b, outcomes := rest })
  | .error n err :: rest => (.error n err, { written := f.written ++ b.take n, outcomes := rest })
  | .sigpipe :: rest => (.sigpipe, { written := f.written, outcomes := rest })

/-- A file on which every write succeeds, with nothing written yet. -/
def StdFile.sink : StdFile := { written := [], outcomes := [] }

/-- A `context.Context` as a polling loop sees it: `openPolls = some n` means that the next
`n` checks of `ctx.Done()` find the context open and every later check finds it cancelled;
`none` means that it is never cancelled. -/
structure Context where
  openPolls : Option Nat
  deriving DecidableEq, Repr

/-- Whether the check `case <-ctx.Done()` made now finds the context cancelled. -/
def Context.isDone (ctx : Context) : Bool := ctx.openPolls == some 0

/-- The context after one check that found it open. -/
def Context.afterPoll (ctx : Context) : Context := { openPolls := ctx.openPolls.map (· - 1) }

/-! ## `cmd/client`: the message loop -/

/-- How `processServerMessages` ends: it returns an exit code and an error, or the process
is killed by `SIGPIPE` inside a write to the standard output or the standard error. -/
inductive ClientResult where
  | returned (exitCode : Int) (err : Option GoError) : ClientResult
  | killed : ClientResult
  deriving DecidableEq, Repr

/-- The state of `processServerMessages`: the connection, the context, the local standard
output and standard error, and how the function ended (`none` while the loop runs). -/
structure ClientLoop where
  conn : Option Conn
  ctx : Option Context
  stdout : StdFile
  stderr : StdFile
  result : Option ClientResult
  deriving DecidableEq, Repr

/-- The `for` loop of `processServerMessages`, for at most `fuel` iterations. -/
def processServerMessagesLoop : Nat → ClientLoop → ClientLoop
  | 0, s => s
  | fuel + 1, s =>
    if (s.ctx.map Context.isDone).getD false then
      { s with conn := (WriteMessage s.conn MessageTypeCancel []).2,
               result := some (.returned 1
                 (some (.errorf (lit "operation canceled by user or timeout")))) }
    else
      let s := { s with ctx := s.ctx.map Context.afterPoll }
      match ReadMessage s.conn with
      | (.error err, conn) =>
        if err = GoError.EOF then
          { s with conn := conn,
                   result := some (.returned 1 (some (.errorf
                     (lit "connection closed by server unexpectedly")))) }
        else
          { s with conn := conn,
                   result := some (.returned 1
                     (some (.wrap (lit "error reading server message") err))) }
      | (.ok msg, conn) =>
        let s := { s with conn := conn }
        if msg.MsgType = MessageTypeStdout then
          match s.stdout.Write msg.Payload with
          | (.error _ err, stdout) =>
            { s with stdout := stdout,
                     result := some (.returned 1
                       (some (.wrap (lit "error writing to stdout") err))) }
          | (.sigpipe, stdout) => { s with stdout := stdout, result := some .killed }
          | (.ok, stdout) => processServerMessagesLoop fuel { s with stdout := stdout }
        else if msg.MsgType = MessageTypeStderr then
          match s.stderr.Write msg.Payload with
          | (.error _ err, stderr) =>
            { s with stderr := stderr,
                     result := some (.returned 1
                       (some (.wrap (lit "error writing to stderr") err))) }
          | (.sigpipe, stderr) => { s with stderr := stderr, result := some .killed }
          | (.ok, stderr) => processServerMessagesLoop fuel { s with stderr := stderr }
        else if msg.MsgType = MessageTypeExitCode then
          if msg.Payload.length > 0 then
            { s with result := some (.returned (Int.ofNat (msg.Payload.getD 0 0).val) none) }
          else
            { s with result := some (.returned 0 none) }
        else if msg.MsgType = MessageTypeError then
          { s with result := some (.returned 1
              (some (.errorf (lit "server error: " ++ msg.Payload)))) }
        else
          processServerMessagesLoop fuel s

/-- The function `processServerMessages`. Every iteration that does not end the function
consumes a frame of at least 5 bytes, so the loop is run for one iteration more than the
connection holds bytes. -/
def processServerMessages (ctx : Option Context) (conn : Option Conn)
    (stdout stderr : StdFile) : ClientLoop :=
  match conn with
  | none =>
    ⟨none, ctx, stdout, stderr, some (.returned 1 (some (.errorf (lit "nil connection"))))⟩
  | some c =>
    match ctx with
    | none =>
      ⟨some c, none, stdout, stderr, some (.returned 1 (some (.errorf (lit "nil context"))))⟩
    | some x =>
      processServerMessagesLoop (c.incoming.length + 1) ⟨some c, some x, stdout, stderr, none⟩

/-- Whether a call is a write of an ExitCode frame. -/
def Event.isExitCodeWrite : Event → Bool
  | .writeMessage msgType _ => msgType == MessageTypeExitCode
  | _ => false

/-- Whether a call is a `protocol.WriteMessage`. -/
def Event.isWrite : Event → Bool
  | .writeMessage _ _ => true
  | _ => false

/-! ## `cmd/server`: the stdin proxy -/

/-- The calls of `handleStdin`, in the order of execution. -/
inductive StdinEvent where
  /-- A call `protocol.ReadMessage(conn)` and what it returned. -/
  | read (result : Except GoError Message) : StdinEvent
  /-- A call `canceled.Swap(true)` and the old value it returned. -/
  | swap (old : Bool) : StdinEvent
  /-- A call `cmdCancel()`. -/
  | cmdCancel : StdinEvent
  /-- A call `stdin.Write(payload)` and its error. -/
  | write (payload : List Byte) (err : Option GoError) : StdinEvent
  /-- A call `stdin.Close()`. -/
  | close : StdinEvent
  deriving DecidableEq, Repr

/-- Whether an event is the read of a Cancel frame. -/
def StdinEvent.isCancelRead : StdinEvent → Bool
  | .read (.ok msg) => msg.MsgType == MessageTypeCancel
  | _ => false

/-- The type assertion `err.(net.Error)` followed by `Timeout()`: true only for an error
that is itself a `net.Error` whose `Timeout()` is true. An error built by `fmt.Errorf` has
no method `Timeout`, also when it wraps a `net.Error`. -/
def GoError.isNetTimeout : GoError → Bool
  | .netError timeout _ => timeout
  | _ => false

/-- The state of `handleStdin`: the connection, the pipe behind the parameter `stdin`,
whether the variable `stdin` is `nil`, the flag `canceled`, the calls made so far, and
whether the function has returned. -/
structure StdinProxy where
  conn : Option Conn
  pipe : Pipe
  stdinIsNil : Bool
  canceled : Bool
  trace : List StdinEvent
  returned : Bool
  deriving DecidableEq, Repr

/-- The statement `if !canceled.Swap(true) { cmdCancel() }`. -/
def StdinProxy.cancelOnce (s : StdinProxy) : StdinProxy :=
  if !s.canceled then
    { s with canceled := true, trace := s.trace ++ [StdinEvent.swap false, StdinEvent.cmdCancel] }
  else
    { s with trace := s.trace ++ [StdinEvent.swap true] }

/-- A `return`: the deferred function closes `stdin` unless the variable is `nil`. -/
def StdinProxy.finish (s : StdinProxy) : StdinProxy :=
  if !s.stdinIsNil then
    { s with pipe := s.pipe.Close, trace := s.trace ++ [StdinEvent.close], returned := true }
  else
    { s with returned := true }

/-- The body of the `for` loop of `handleStdin`, given what `ReadMessage(conn)` returned. -/
def handleStdinStep (s : StdinProxy) (r : Except GoError Message × Option Conn) : StdinProxy :=
  let s := { s with conn := r.2, trace := s.trace ++ [StdinEvent.read r.1] }
  match r.1 with
  | .error err =>
    if err = GoError.EOF then s.cancelOnce.finish
    else if err.isNetTimeout then s.finish
    else s.cancelOnce.finish
  | .ok msg =>
    if msg.MsgType = MessageTypeStdin then
      if s.stdinIsNil then s
      else
        match s.pipe.Write msg.Payload with
        | (some err, pipe) =>
          StdinProxy.finish
            { s with pipe := pipe, trace := s.trace ++ [StdinEvent.write msg.Payload (some err)] }
        | (none, pipe) =>
          { s with pipe := pipe, trace := s.trace ++ [StdinEvent.write msg.Payload none] }
    else if msg.MsgType = MessageTypeStdinClose then
      if !s.stdinIsNil then
        { s with pipe := s.pipe.Close, stdinIsNil := true, trace := s.trace ++ [StdinEvent.close] }
      else s
    else if msg.MsgType = MessageTypeCancel then s.cancelOnce.finish
    else s

/-- The `for` loop of `handleStdin`, for at most `fuel` iterations. -/
def handleStdinLoop : Nat → StdinProxy → StdinProxy
  | 0, s => s
  | fuel + 1, s =>
    if (handleStdinStep s (ReadMessage s.conn)).returned then
      handleStdinStep s (ReadMessage s.conn)
    else
      handleStdinLoop fuel (handleStdinStep s (ReadMessage s.conn))

/-- The type `context.CancelFunc`. -/
abbrev CancelFunc := Unit

/-- The function `handleStdin`; `none` is the return at the check for `nil` parameters,
before anything is read, written, closed or cancelled. A cancellation of `ctx` reaches the
loop as the error of a read (the watching goroutine sets a deadline and closes the
connection). Every iteration that does not return consumes a frame of at least 5 bytes, so
the loop is run for one iteration more than the connection holds bytes. -/
def handleStdin (conn : Option Conn) (stdin : Option Pipe) (cmdCancel : Option CancelFunc) :
    Option StdinProxy :=
  match conn, stdin, cmdCancel with
  | some c, some p, some _ =>
    some (handleStdinLoop (c.incoming.length + 1)
      { conn := some c, pipe := p, stdinIsNil := false, canceled := false, trace := [],
        returned := false })
  | _, _, _ => none

/-- The bytes of the frame of a message: type, length, payload. -/
def frameBytes (m : Message) : List Byte :=
  [m.MsgType] ++ be32 (u32 m.Payload.length) ++ m.Payload

/-! ## `cmd/client`: forwarding the standard input -/

/-- The standard input of the client as `forwardStdin` uses it: what `os.Stdin.Stat()`
returns (an error, or a mode with or without the bit `os.ModeCharDevice`), the data that
successive reads find available, and the error the read after the last data returns (`io.EOF`
at the end of the input). -/
structure Stdin where
  statErr : Option GoError
  isCharDevice : Bool
  pending : List (List Byte)
  endErr : GoError
  deriving DecidableEq, Repr

/-- The call `os.Stdin.Read(buffer)` with `len(buffer) = size`: the bytes read (at most
`size` of the data available), the error, and the input afterwards. -/
def Stdin.Read (f : Stdin) (size : Nat) : List Byte × Option GoError × Stdin :=
  match f.pending with
  | [] => ([], some f.endErr, f)
  | burst :: more =>
    if burst.length ≤ size then (burst, none, { f with pending := more })
    else (burst.take size, none, { f with pending := burst.drop size :: more })

/-- A bound on the number of reads that reach the end of the input. -/
def Stdin.readsLeft (f : Stdin) : Nat := (f.pending.map (fun b => b.length + 1)).sum + 1

/-- The state of `forwardStdin`: the connection, the context, the standard input, and
whether the function has returned. -/
structure StdinPump where
  conn : Option Conn
  ctx : Option Context
  stdin : Stdin
  returned : Bool
  deriving DecidableEq, Repr

/-- The `for` loop of `forwardStdin` with its buffer of `4*1024` bytes, for at most `fuel`
iterations. -/
def forwardStdinLoop : Nat → StdinPump → StdinPump
  | 0, s => s
  | fuel + 1, s =>
    if (s.ctx.map Context.isDone).getD false then
      { s with conn := (WriteMessage s.conn MessageTypeStdinClose []).2, returned := true }
    else
      let s := { s with ctx := s.ctx.map Context.afterPoll }
      match s.stdin.Read (4 * 1024) with
      | (data, err, stdin) =>
        let s := { s with stdin := stdin }
        match (if data.length > 0 then WriteMessage s.conn MessageTypeStdin data
               else (none, s.conn)) with
        | (some _, conn) => { s with conn := conn, returned := true }
        | (none, conn) =>
          let s := { s with conn := conn }
          match err with
          | some _ =>
            { s with conn := (WriteMessage s.conn MessageTypeStdinClose []).2, returned := true }
          | none => forwardStdinLoop fuel s

/-- The function `forwardStdin`. Every read that returns no error takes data from the input,
so the loop ends within `stdin.readsLeft` iterations. -/
def forwardStdin (ctx : Option Context) (conn : Option Conn) (stdin : Stdin) : StdinPump :=
  match conn with
  | none => ⟨none, ctx, stdin, true⟩
  | some c =>
    match ctx with
    | none => ⟨some c, none, stdin, true⟩
    | some x =>
      match stdin.statErr with
      | some _ => ⟨(WriteMessage (some c) MessageTypeStdinClose []).2, some x, stdin, true⟩
      | none =>
        if stdin.isCharDevice then
          ⟨(WriteMessage (some c) MessageTypeStdinClose []).2, some x, stdin, true⟩
        else forwardStdinLoop stdin.readsLeft ⟨some c, some x, stdin, false⟩

/-! ## `pkg/config`: stripping comments -/

/-- The variables of the loop of `StripJSONCComments`: the buffer `result` and the five
flags. -/
structure StripState where
  result : List Byte
  inString : Bool
  escaped : Bool
  inSingleLineComment : Bool
  inMultiLineComment : Bool
  inMultiLineCommentDepth : Nat
  deriving DecidableEq, Repr

/-- The variables before the loop. -/
def StripState.init : StripState :=
  { result := [], inString := false, escaped := false, inSingleLineComment := false,
    inMultiLineComment := false, inMultiLineCommentDepth := 0 }

/-- The call `result.WriteByte(c)`. -/
def StripState.WriteByte (st : StripState) (c : Byte) : StripState :=
  { st with result := st.result ++ [c] }

/-- One iteration of the loop of `StripJSONCComments` at the byte `c = content[i]`, where
`next` is `content[i+1]` if `i+1 < len(content)`: the variables afterwards, and whether the
iteration executed `i++` to skip the next byte. -/
def stripStep (st : StripState) (c : Byte) (next : Option Byte) : StripState × Bool :=
  if st.inSingleLineComment then
    if c = 10 then ({ st with inSingleLineComment := false }.WriteByte c, false)
    else (st, false)
  else if st.inMultiLineComment then
    if c = 47 ∧ next = some 42 then
      ({ st with inMultiLineCommentDepth := st.inMultiLineCommentDepth + 1 }, true)
    else if c = 42 ∧ next = some 47 then
      if st.inMultiLineCommentDepth > 0 then
        ({ st with inMultiLineCommentDepth := st.inMultiLineCommentDepth - 1 }, true)
      else
        ({ st with inMultiLineComment := false }, true)
    else (st, false)
  else if st.escaped then
    ({ st.WriteByte c with escaped := false }, false)
  else if st.inString then
    if c = 92 then ({ st with escaped := true }.WriteByte c, false)
    else if c = 34 then ({ st with inString := false }.WriteByte c, false)
    else (st.WriteByte c, false)
  else if c = 34 then
    ({ st with inString := true }.WriteByte c, false)
  else if c = 47 ∧ next.isSome then
    if next = some 47 then ({ st with inSingleLineComment := true }, true)
    else if next = some 42 then ({ st with inMultiLineComment := true }, true)
    else (st.WriteByte c, false)
  else (st.WriteByte c, false)

/-- The loop of `StripJSONCComments` over the rest of the content; `skip` says that the
iteration before executed `i++`, so that the first byte of the rest is passed over. -/
def stripLoop (st : StripState) (skip : Bool) : List Byte → StripState
  | [] => st
  | c :: rest =>
    if skip then stripLoop st false rest
    else stripLoop (stripStep st c rest.head?).1 (stripStep st c rest.head?).2 rest

/-- The function `StripJSONCComments`. -/
def StripJSONCComments (content : List Byte) : List Byte :=
  (stripLoop StripState.init false content).result

/-- Whether the loop is outside every string and comment. -/
def StripState.outside (st : StripState) : Bool :=
  !st.inString && !st.escaped && !st.inSingleLineComment && !st.inMultiLineComment

/-- Whether the bytes are the inside of a complete string literal: bytes other than `"` and
`\`, and pairs of a `\` and any byte. -/
def isStringBody : List Byte → Bool
  | [] => true
  | [c] => c != 92 && c != 34
  | c :: d :: rest =>
    if c = 92 then isStringBody rest
    else c != 34 && isStringBody (d :: rest)

/-! ## The log destination -/

/-- The struct `ClientConfig`. -/
structure ClientConfig where
  Log : JSONValue
  Address : GoString
  AuthSecret : GoString

/-- The answers of the library calls made while the log destination is derived: `os.Getenv`,
`strings.Replace(s, old, new, -1)`, the name `%T` prints for a value that is neither `nil`
nor a `bool` nor a `string`, the error of `os.MkdirAll(filepath.Dir(path), 0755)` and the
error of `os.OpenFile(path, ...)`. -/
structure LogEnv where
  getenv : GoString → GoString
  replaceAll : GoString → GoString → GoString → GoString
  otherTypeName : GoString
  mkdirAllDir : GoString → Option GoError
  openFile : GoString → Option GoError

/-- The `*os.File` that `SetupLogger` returns when it is not `nil`. -/
inductive LogFile where
  | stdout : LogFile
  | stderr : LogFile
  | file (path : GoString) : LogFile
  deriving DecidableEq, Repr

/-- The variable `allowedEnvVars` of `ParseLogConfig`. -/
def allowedEnvVars : List GoString :=
  [lit "HOME", lit "TMPDIR", lit "TMP", lit "TEMP", lit "USER", lit "LOGDIR", lit "PWD",
   lit "XDG_DATA_HOME", lit "XDG_CONFIG_HOME", lit "XDG_STATE_HOME"]

/-- The function `ParseLogConfig`: the string and the error. -/
def ParseLogConfig (env : LogEnv) (logConfig : JSONValue) : GoString × Option GoError :=
  match logConfig with
  | .null => ([], none)
  | .bool false => ([], none)
  | .string logStr =>
    if logStr = lit "stdout" ∨ logStr = lit "stderr" then (logStr, none)
    else if stringsContains logStr (lit "$") then
      (allowedEnvVars.foldl (fun logStr envVar =>
        if stringsContains logStr (lit "$" ++ envVar)
            || stringsContains logStr (lit "$\x7b" ++ envVar ++ lit "\x7d") then
          env.replaceAll (env.replaceAll logStr (lit "$" ++ envVar) (env.getenv envVar))
            (lit "$\x7b" ++ envVar ++ lit "\x7d") (env.getenv envVar)
        else logStr) logStr, none)
    else (logStr, none)
  | .bool true => ([], some (.errorf (lit "invalid log configuration type: bool")))
  | .other => ([], some (.errorf (lit "invalid log configuration type: " ++ env.otherTypeName)))

/-- The function `SetupLogger`: the file (`none` for `nil`) and the error. -/
def SetupLogger (env : LogEnv) (logConfig : GoString) : Option LogFile × Option GoError :=
  if logConfig = [] then (none, none)
  else if logConfig = lit "stdout" then (some .stdout, none)
  else if logConfig = lit "stderr" then (some .stderr, none)
  else
    match env.mkdirAllDir logConfig with
    | some err => (none, some (.wrap (lit "failed to create log directory") err))
    | none =>
      match env.openFile logConfig with
      | some err => (none, some (.wrap (lit "failed to open log file") err))
      | none => (some (.file logConfig), none)

/-- How the part of `main` that sets up the logger ends: with a run-time panic, with
`log.Fatalf`, or with the log destination in `logDest`. -/
inductive LoggerSetup where
  | panic (message : GoString) : LoggerSetup
  | fatal (message : GoString) : LoggerSetup
  | logDest (file : Option LogFile) : LoggerSetup
  deriving DecidableEq, Repr

/-- The lines of `main` in `cmd/server` that set up the logger:
`common.SetupLogger(cfg.Log.(string))`. The type assertion has no `ok` result, so it panics
for a value that is no string. -/
def serverSetupLogger (env : LogEnv) (cfg : ServerConfig) : LoggerSetup :=
  match cfg.Log with
  | .string logConfig =>
    match SetupLogger env logConfig with
    | (_, some err) => .fatal (lit "Failed to setup logger: " ++ err.Error)
    | (logDest, none) => .logDest logDest
  | .null => .panic (lit "interface conversion: interface \x7b\x7d is nil, not string")
  | .bool _ => .panic (lit "interface conversion: interface \x7b\x7d is bool, not string")
  | .other =>
    .panic (lit "interface conversion: interface \x7b\x7d is " ++ env.otherTypeName
      ++ lit ", not string")

/-- The lines of `main` in `cmd/client` that set up the logger: `config.ParseLogConfig`, then
`common.SetupLogger`. -/
def clientSetupLogger (env : LogEnv) (cfg : ClientConfig) : LoggerSetup :=
  match ParseLogConfig env cfg.Log with
  | (_, some err) => .fatal (lit "Failed to parse log config: " ++ err.Error)
  | (logStr, none) =>
    match SetupLogger env logStr with
    | (_, some err) => .fatal (lit "Failed to setup logger: " ++ err.Error)
    | (logDest, none) => .logDest logDest

/-- An environment for examples: no variable is set, nothing is replaced, directories and
files can be created. -/
def LogEnv.sample : LogEnv :=
  { getenv := fun _ => [], replaceAll := fun s _ _ => s, otherTypeName := lit "float64",
    mkdirAllDir := fun _ => none, openFile := fun _ => none }

/-! ## Writers that share a connection -/

/-- The calls `conn.Write(b)` that one call `WriteMessage(conn, msgType, payload)` makes when
none of them fails: the header, then the payload if it is not empty. -/
def writeCalls (msgType : Byte) (payload : List Byte) : List (List Byte) :=
  [[msgType] ++ be32 (u32 payload.length)] ++ (if payload.length > 0 then [payload] else [])

/-- The order in which the `conn.Write` calls of two goroutines that hold no lock reach the
connection: `true` lets the first goroutine make its next call, `false` the second; a
goroutine that has no call left lets the other one run. -/
def interleave : List Bool → List (List Byte) → List (List Byte) → List (List Byte)
  | [], as, bs => as ++ bs
  | true :: _, [], bs => bs
  | true :: sched, a :: as, bs => a :: interleave sched as bs
  | false :: _, as, [] => as
  | false :: sched, as, b :: bs => b :: interleave sched as bs

/-! ## The shape of a block comment -/

/-- What the inside of a block comment is made of: an opener `/*`, a closer `*/`, or a
single byte. -/
inductive CommentItem where
  | opener : CommentItem
  | closer : CommentItem
  | byte (c : Byte) : CommentItem
  deriving DecidableEq, Repr

/-- The bytes of an item. -/
def CommentItem.bytes : CommentItem → List Byte
  | .opener => [47, 42]
  | .closer => [42, 47]
  | .byte c => [c]

/-- The text of a list of items. -/
def renderComment (items : List CommentItem) : List Byte := items.flatMap CommentItem.bytes

/-- The number of openers that are still unmatched after the items, starting from `depth`
unmatched openers; `none` when a closer comes with no opener left to match, which is where
the comment ends. -/
def commentDepth : Nat → List CommentItem → Option Nat
  | depth, [] => some depth
  | depth, .opener :: rest => commentDepth (depth + 1) rest
  | 0, .closer :: _ => none
  | depth + 1, .closer :: rest => commentDepth depth rest
  | depth, .byte _ :: rest => commentDepth depth rest

/-- Whether the items are read as they are written: no single `/` stands directly before a
`*` and no single `*` directly before a `/`, where `next` is the byte that follows the
items. -/
def itemsApart (next : Option Byte) : List CommentItem → Bool
  | [] => true
  | .byte c :: rest =>
    !(c == 47 && (renderComment rest ++ next.toList).head? == some 42)
      && !(c == 42 && (renderComment rest ++ next.toList).head? == some 47)
      && itemsApart next rest
  | _ :: rest => itemsApart next rest

/-- Whether a text holds a comment opener `//` or `/*` outside a string literal, when it is
scanned from a position that is inside a string (`inString`) or right after a backslash
(`escaped`): strings run from a `"` to the next `"` that no backslash escapes. -/
def hasCommentOpener (inString escaped : Bool) : List Byte → Bool
  | [] => false
  | c :: rest =>
    (!escaped && !inString && c == 47
        && (rest.head? == some 47 || rest.head? == some 42))
      || hasCommentOpener
          (if escaped then inString else if inString then c != 34 else c == 34)
          (!escaped && inString && c == 92) rest

/-- The variables after an iteration that writes its byte outside every comment: the byte
is in the buffer and the string flags have moved. -/
def StripState.afterText (st : StripState) (c : Byte) : StripState :=
  { st with
      result := st.result ++ [c],
      escaped := (!st.escaped && st.inString && c == 92),
      inString := (if st.escaped then st.inString
                   else if st.inString then c != 34 else c == 34) }

/-! ## The wire codec -/

theorem beNat_be32 (n : Nat) (h : n < 4294967296) : beNat (be32 n) = n := by
  simp only [beNat, be32, byteOf, List.foldl_cons, List.foldl_nil, Nat.shiftRight_eq_div_pow]
  omega

theorem be32_length (n : Nat) : (be32 n).length = 4 := rfl

theorem length_pos_or_nil {α : Type} (p : List α) (h : ¬ p.length > 0) : p = [] := by
  cases p with
  | nil => rfl
  | cons a l => simp at h

/-- A successful `Write` appends exactly its argument. -/
theorem Conn.Write_sent (c c' : Conn) (b : List Byte) (h : c.Write b = (none, c')) :
    c' = { c with sent := c.sent ++ b, writeRoom := c'.writeRoom } := by
  unfold Conn.Write at h
  cases hroom : c.writeRoom with
  | none => simp only [hroom] at h; simp at h; rw [← h]
  | some room =>
    simp only [hroom] at h
    split at h
    · simp at h; rw [← h]
    · simp at h

/-- The bytes a successful `WriteMessage` appends: the type, the length, the payload. -/
theorem WriteMessage_sent (t : Byte) (p : List Byte) (w w' : Conn)
    (hw : WriteMessage (some w) t p = (none, some w')) :
    w'.sent = w.sent ++ ([t] ++ be32 (u32 p.length) ++ p) := by
  unfold WriteMessage at hw
  simp only at hw
  split at hw
  · simp at hw
  · rename_i c1 h1
    have e1 := Conn.Write_sent _ _ _ h1
    split at hw
    · split at hw
      · simp at hw
      · rename_i c2 h2
        have e2 := Conn.Write_sent _ _ _ h2
        simp at hw
        rw [← hw, e2, e1]; simp
    · rename_i hlen
      have := length_pos_or_nil p hlen
      simp at hw; rw [← hw, e1, this]; simp

/-- Reading as many bytes as a prefix of the input holds returns that prefix. -/
theorem readFull_append (c : Conn) (a rest : List Byte) (h : c.incoming = a ++ rest) :
    readFull c a.length = (.ok a, { c with incoming := rest }) := by
  unfold readFull
  simp [h]

/-- Reading a frame followed by `rest` returns its message and leaves `rest`. -/
theorem ReadMessage_frame (t : Byte) (p rest : List Byte) (r : Conn)
    (hp : p.length ≤ 104857600)
    (hr : r.incoming = ([t] ++ be32 (u32 p.length) ++ p) ++ rest) :
    ReadMessage (some r) = (.ok ⟨t, p⟩, some { r with incoming := rest }) := by
  have hlen : u32 p.length = p.length := by unfold u32; omega
  have h1 : readFull r 1
      = (.ok [t], { r with incoming := be32 (u32 p.length) ++ p ++ rest }) := by
    have := readFull_append r [t] (be32 (u32 p.length) ++ p ++ rest) (by simp [hr])
    simpa using this
  have h2 : readFull { r with incoming := be32 (u32 p.length) ++ p ++ rest } 4
      = (.ok (be32 (u32 p.length)), { r with incoming := p ++ rest }) := by
    have := readFull_append { r with incoming := be32 (u32 p.length) ++ p ++ rest }
      (be32 (u32 p.length)) (p ++ rest) (by simp)
    simpa using this
  have h3 : readFull { r with incoming := p ++ rest } p.length
      = (.ok p, { r with incoming := rest }) := by
    have := readFull_append { r with incoming := p ++ rest } p rest rfl
    simpa using this
  have hbe : beNat (be32 (u32 p.length)) = p.length := by
    rw [hlen]; exact beNat_be32 _ (by omega)
  unfold ReadMessage
  simp only [h1, h2, hbe]
  have hnot : ¬ p.length > 100 * 1024 * 1024 := by omega
  simp only [hnot, if_false]
  by_cases h0 : p.length > 0
  · simp only [h0, if_true, h3]; rfl
  · simp only [h0, if_false]
    have := length_pos_or_nil p h0
    subst this
    simp

/-- A write on a connection leaves a connection. -/
theorem WriteMessage_conn_ne_none (t : Byte) (p : List Byte) (w : Conn) (e : Option GoError) :
    WriteMessage (some w) t p ≠ (e, none) := by
  intro h1
  unfold WriteMessage at h1
  simp only at h1
  split at h1
  · simp at h1
  · split at h1
    · split at h1 <;> simp at h1
    · simp at h1

/-- Successful consecutive writes only append to what was sent. -/
theorem writeMessages_sent (ms : List Message) :
    ∀ (w w' : Conn), writeMessages (some w) ms = (none, some w') →
      ∃ stream, w'.sent = w.sent ++ stream := by
  induction ms with
  | nil =>
    intro w w' hw
    simp [writeMessages] at hw
    exact ⟨[], by simp [hw]⟩
  | cons m ms ih =>
    intro w w' hw
    simp only [writeMessages] at hw
    split at hw
    · rename_i conn1 h1
      cases conn1 with
      | none => exact absurd h1 (WriteMessage_conn_ne_none _ _ _ _)
      | some w1 =>
        have e1 := WriteMessage_sent _ _ _ _ h1
        obtain ⟨s2, hs2⟩ := ih w1 w' hw
        exact ⟨_, by rw [hs2, e1, List.append_assoc]⟩
    · simp at hw

/-- Messages written one after the other are read back in write order. -/
theorem readMessages_writeMessages (ms : List Message) :
    ∀ (w w' r : Conn) (stream rest : List Byte),
      (∀ m ∈ ms, m.Payload.length ≤ 104857600) →
      writeMessages (some w) ms = (none, some w') →
      w'.sent = w.sent ++ stream →
      r.incoming = stream ++ rest →
      readMessages (some r) ms.length = (ms, some { r with incoming := rest }) := by
  induction ms with
  | nil =>
    intro w w' r stream rest _ hw hs hr
    simp [writeMessages] at hw
    subst hw
    have : stream = [] := by simpa using hs
    subst this
    simp at hr
    simp [readMessages, ← hr]
  | cons m ms ih =>
    intro w w' r stream rest hp hw hs hr
    simp only [writeMessages] at hw
    split at hw
    · rename_i conn1 h1
      cases conn1 with
      | none => exact absurd h1 (WriteMessage_conn_ne_none _ _ _ _)
      | some w1 =>
        have e1 := WriteMessage_sent _ _ _ _ h1
        obtain ⟨s2, hs2⟩ := writeMessages_sent ms w1 w' hw
        have hstream :
            stream = ([m.MsgType] ++ be32 (u32 m.Payload.length) ++ m.Payload) ++ s2 := by
          rw [hs2, e1, List.append_assoc] at hs
          exact (List.append_cancel_left hs).symm
        have hm := ReadMessage_frame m.MsgType m.Payload (s2 ++ rest) r
          (hp m (List.mem_cons_self _ _)) (by rw [hr, hstream, List.append_assoc])
        have hrest := ih w1 w' { r with incoming := s2 ++ rest } s2 rest
          (fun m' hm' => hp m' (List.mem_cons_of_mem _ hm')) hw hs2 rfl
        simp only [List.length_cons, readMessages, hm, hrest]
    · simp at hw

/-- What `ReadMessage` does on a stream that supplies a full header. -/
theorem ReadMessage_header (c : Conn) (t b0 b1 b2 b3 : Byte) (rest : List Byte)
    (h : c.incoming = t :: b0 :: b1 :: b2 :: b3 :: rest) :
    ReadMessage (some c) =
      if beNat [b0, b1, b2, b3] > 104857600 then
        (.error (errPayloadTooLarge (beNat [b0, b1, b2, b3])), some { c with incoming := rest })
      else if beNat [b0, b1, b2, b3] ≤ rest.length then
        (.ok ⟨t, rest.take (beNat [b0, b1, b2, b3])⟩,
         some { c with incoming := rest.drop (beNat [b0, b1, b2, b3]) })
      else
        (.error (.wrap (lit "error reading payload")
          (if 0 < rest.length ∧ c.readEnd = GoError.EOF then GoError.ErrUnexpectedEOF
           else c.readEnd)), some { c with incoming := [] }) := by
  have h1 : readFull c 1 = (.ok [t], { c with incoming := b0 :: b1 :: b2 :: b3 :: rest }) := by
    simp [readFull, h]
  have h2 : readFull { c with incoming := b0 :: b1 :: b2 :: b3 :: rest } 4
      = (.ok [b0, b1, b2, b3], { c with incoming := rest }) := by
    simp [readFull]
  unfold ReadMessage
  simp only [h1, h2]
  have e : (100 * 1024 * 1024 : Nat) = 104857600 := by norm_num
  rw [e]
  by_cases hbig : beNat [b0, b1, b2, b3] > 104857600
  · simp only [hbig, if_true, errPayloadTooLarge]
  · simp only [hbig, if_false]
    by_cases h0 : beNat [b0, b1, b2, b3] > 0
    · simp only [h0, if_true]
      by_cases hfit : beNat [b0, b1, b2, b3] ≤ rest.length
      · simp [readFull, hfit]
      · simp [readFull, hfit]
    · have hz : beNat [b0, b1, b2, b3] = 0 := by omega
      simp [hz]

/-- The bare `io.EOF` comes out exactly when the stream ends before the first byte. -/
theorem ReadMessage_eof (c : Conn) :
    (ReadMessage (some c)).1 = .error GoError.EOF
      ↔ (c.incoming = [] ∧ c.readEnd = GoError.EOF) := by
  constructor
  · intro h
    unfold ReadMessage at h
    simp only at h
    split at h
    · rename_i err c1 h1
      split at h
      · rename_i he
        unfold readFull at h1
        split at h1
        · simp at h1
        · rename_i hlen
          simp only [Prod.mk.injEq, Except.error.injEq] at h1
          have hnil : c.incoming = [] := by
            cases hc : c.incoming with
            | nil => rfl
            | cons a l => simp [hc] at hlen
          refine ⟨hnil, ?_⟩
          have := h1.1
          rw [he] at this
          simp [hnil] at this
          exact this
      · simp at h
    · split at h
      · simp at h
      · split at h
        · simp at h
        · split at h
          · split at h <;> simp at h
          · simp at h
  · rintro ⟨h1, h2⟩
    simp [ReadMessage, readFull, h1, h2]

/-- A stream that ends after one to four header bytes. -/
theorem ReadMessage_short_header (c : Conn) (t : Byte) (l : List Byte)
    (h : c.incoming = t :: l) (hl : l.length < 4) :
    ReadMessage (some c) =
      (.error (.wrap (lit "error reading payload length")
        (if 0 < l.length ∧ c.readEnd = GoError.EOF then GoError.ErrUnexpectedEOF
         else c.readEnd)), some { c with incoming := [] }) := by
  have h1 : readFull c 1 = (.ok [t], { c with incoming := l }) := by
    simp [readFull, h]
  have h2 : readFull { c with incoming := l } 4
      = (.error (if 0 < l.length ∧ c.readEnd = GoError.EOF then GoError.ErrUnexpectedEOF
         else c.readEnd), { c with incoming := [] }) := by
    have : ¬ 4 ≤ l.length := by omega
    simp [readFull, this]
  unfold ReadMessage
  simp only [h1, h2]

/-- C1. A frame written by `WriteMessage` is read back by `ReadMessage`: for every type tag
`t` (any 8-bit tag, in particular 1 to 8), every payload `p` of at most 104857600 bytes and
every byte sequence `rest`, when the write succeeds and the stream of the reader holds the
bytes the write emitted followed by `rest`, `ReadMessage` returns the message `(t, p)` and
leaves exactly `rest` unread. Hence messages written one after the other are read back one
by one in write order. -/
theorem readMessage_writeMessage_roundtrip :
    (∀ (t : Byte) (p frame rest : List Byte) (w w' r : Conn),
      p.length ≤ 104857600 →
      WriteMessage (some w) t p = (none, some w') →
      w'.sent = w.sent ++ frame →
      r.incoming = frame ++ rest →
      ReadMessage (some r) = (.ok ⟨t, p⟩, some { r with incoming := rest })) ∧
    (∀ (ms : List Message) (w w' r : Conn) (stream rest : List Byte),
      (∀ m ∈ ms, m.Payload.length ≤ 104857600) →
      writeMessages (some w) ms = (none, some w') →
      w'.sent = w.sent ++ stream →
      r.incoming = stream ++ rest →
      readMessages (some r) ms.length = (ms, some { r with incoming := rest })) := by
  refine ⟨?_, fun ms w w' r stream rest => readMessages_writeMessages ms w w' r stream rest⟩
  intro t p frame rest w w' r hp hw hf hr
  have e := WriteMessage_sent t p w w' hw
  rw [e] at hf
  have := List.append_cancel_left hf
  exact ReadMessage_frame t p rest r hp (by rw [hr, ← this])

/-- C1 at a Stdin frame with payload "hi" followed by two more bytes, and at a Stdin frame
followed by a StdinClose frame and one more byte. -/
theorem readMessage_writeMessage_roundtrip_witness :
    WriteMessage (some (Conn.ofInput [])) 7 [104, 105]
        = (none, some { Conn.ofInput [] with sent := [7, 0, 0, 0, 2, 104, 105] }) ∧
    ReadMessage (some (Conn.ofInput [7, 0, 0, 0, 2, 104, 105, 4, 0]))
        = (.ok ⟨7, [104, 105]⟩, some (Conn.ofInput [4, 0])) ∧
    readMessages (some (Conn.ofInput [7, 0, 0, 0, 2, 104, 105, 8, 0, 0, 0, 0, 9])) 2
        = ([⟨7, [104, 105]⟩, ⟨8, []⟩], some (Conn.ofInput [9])) :=
  ⟨by decide,
   readMessage_writeMessage_roundtrip.1 7 [104, 105] [7, 0, 0, 0, 2, 104, 105] [4, 0]
     (Conn.ofInput []) { Conn.ofInput [] with sent := [7, 0, 0, 0, 2, 104, 105] }
     (Conn.ofInput [7, 0, 0, 0, 2, 104, 105, 4, 0]) (by decide) (by decide) (by decide)
     (by decide),
   readMessage_writeMessage_roundtrip.2 [⟨7, [104, 105]⟩, ⟨8, []⟩]
     (Conn.ofInput []) { Conn.ofInput [] with sent := [7, 0, 0, 0, 2, 104, 105, 8, 0, 0, 0, 0] }
     (Conn.ofInput [7, 0, 0, 0, 2, 104, 105, 8, 0, 0, 0, 0, 9])
     [7, 0, 0, 0, 2, 104, 105, 8, 0, 0, 0, 0] [9] (by decide) (by decide) (by decide)
     (by decide)⟩

/-- C2. On a stream that supplies a full 5-byte header, `ReadMessage` fails with the
payload-too-large error if and only if the big-endian length field is greater than 104857600;
a length within the limit is accepted (the message is returned once the stream supplies the
payload). The header bytes `06 40 00 00` announce 104857600 and `06 40 00 01` announce
104857601. Every message `ReadMessage` returns has a payload of at most 104857600 bytes. -/
theorem readMessage_payload_limit :
    (∀ (c : Conn) (t b0 b1 b2 b3 : Byte) (rest : List Byte),
      c.incoming = t :: b0 :: b1 :: b2 :: b3 :: rest →
      ((∃ n, (ReadMessage (some c)).1 = .error (errPayloadTooLarge n))
          ↔ beNat [b0, b1, b2, b3] > 104857600) ∧
      (beNat [b0, b1, b2, b3] > 104857600 →
        (ReadMessage (some c)).1 = .error (errPayloadTooLarge (beNat [b0, b1, b2, b3]))) ∧
      (beNat [b0, b1, b2, b3] ≤ 104857600 → beNat [b0, b1, b2, b3] ≤ rest.length →
        (ReadMessage (some c)).1 = .ok ⟨t, rest.take (beNat [b0, b1, b2, b3])⟩)) ∧
    (beNat [6, 64, 0, 0] = 104857600 ∧ beNat [6, 64, 0, 1] = 104857601) ∧
    (∀ (conn : Option Conn) (m : Message),
      (ReadMessage conn).1 = .ok m → m.Payload.length ≤ 104857600) := by
  refine ⟨?_, ⟨by decide, by decide⟩, ?_⟩
  · intro c t b0 b1 b2 b3 rest h
    have hh := ReadMessage_header c t b0 b1 b2 b3 rest h
    by_cases hbig : beNat [b0, b1, b2, b3] > 104857600
    · simp only [hbig, if_true] at hh
      refine ⟨⟨fun _ => hbig, fun _ => ⟨_, by rw [hh]⟩⟩, fun _ => by rw [hh], fun h1 => ?_⟩
      omega
    · simp only [hbig, if_false] at hh
      refine ⟨⟨?_, fun h1 => absurd h1 hbig⟩, fun h1 => absurd h1 hbig, fun _ hfit => ?_⟩
      · rintro ⟨n, hn⟩
        rw [hh] at hn
        split at hn <;> simp [errPayloadTooLarge] at hn
      · rw [hh]; simp [hfit]
  · intro conn m h
    cases conn with
    | none => simp [ReadMessage] at h
    | some c =>
      unfold ReadMessage at h
      simp only at h
      split at h
      · split at h <;> simp at h
      · split at h
        · simp at h
        · split at h
          · simp at h
          · rename_i hbig
            split at h
            · split at h
              · simp at h
              · rename_i c2 lenBuf c3 hlen payload c4 h3
                simp at h
                unfold readFull at h3
                split at h3
                · simp at h3
                  rw [← h, ← h3.1]
                  simp
                  omega
                · simp at h3
            · simp at h
              rw [← h]; simp

/-- C2 at the two boundary lengths: a frame announcing exactly 104857600 bytes, on a stream
that supplies them, is returned; a header announcing 104857601 is rejected. -/
theorem readMessage_payload_limit_witness :
    (ReadMessage (some (Conn.ofInput (7 :: 6 :: 64 :: 0 :: 0 :: List.replicate 104857600 0)))).1
        = .ok ⟨7, (List.replicate 104857600 0).take (beNat [6, 64, 0, 0])⟩ ∧
    (ReadMessage (some (Conn.ofInput [7, 6, 64, 0, 1, 5]))).1
        = .error (errPayloadTooLarge 104857601) :=
  ⟨(readMessage_payload_limit.1
      (Conn.ofInput (7 :: 6 :: 64 :: 0 :: 0 :: List.replicate 104857600 0)) 7 6 64 0 0
      (List.replicate 104857600 0) rfl).2.2 (by decide) (by rw [List.length_replicate]; decide),
   (readMessage_payload_limit.1 (Conn.ofInput [7, 6, 64, 0, 1, 5]) 7 6 64 0 1 [5] rfl).2.1
      (by decide)⟩

/-- C3. On a stream whose first 5 bytes announce a length greater than 104857600,
`ReadMessage` returns the payload-too-large error and has consumed exactly those 5 bytes:
everything after the header is still unread. -/
theorem readMessage_oversized_consumes_header (c : Conn) (t b0 b1 b2 b3 : Byte)
    (rest : List Byte) (h : c.incoming = t :: b0 :: b1 :: b2 :: b3 :: rest)
    (hbig : beNat [b0, b1, b2, b3] > 104857600) :
    ReadMessage (some c)
      = (.error (errPayloadTooLarge (beNat [b0, b1, b2, b3])),
         some { c with incoming := rest }) := by
  rw [ReadMessage_header c t b0 b1 b2 b3 rest h]
  simp only [hbig, if_true]

/-- C3 at a header that announces 200 MiB. -/
theorem readMessage_oversized_consumes_header_witness :
    beNat [12, 128, 0, 0] = 209715200 ∧
    ReadMessage (some (Conn.ofInput [2, 12, 128, 0, 0, 1, 2, 3]))
      = (.error (errPayloadTooLarge 209715200), some (Conn.ofInput [1, 2, 3])) :=
  ⟨by decide,
   readMessage_oversized_consumes_header (Conn.ofInput [2, 12, 128, 0, 0, 1, 2, 3])
     2 12 128 0 0 [1, 2, 3] rfl (by decide)⟩

/-- C4. `ReadMessage` returns the bare `io.EOF` if and only if the stream ended (with
`io.EOF`) before any header byte was read. A stream that ends after 1 to 4 header bytes
yields the error wrapped as "error reading payload length", and one that ends inside the
payload the error wrapped as "error reading payload"; a wrapped error is not `io.EOF`. -/
theorem readMessage_eof_iff :
    (∀ (c : Conn), (ReadMessage (some c)).1 = .error GoError.EOF
        ↔ (c.incoming = [] ∧ c.readEnd = GoError.EOF)) ∧
    (∀ (c : Conn) (t : Byte) (l : List Byte),
      c.incoming = t :: l → l.length < 4 → c.readEnd = GoError.EOF →
      (ReadMessage (some c)).1
        = .error (.wrap (lit "error reading payload length")
            (if l = [] then GoError.EOF else GoError.ErrUnexpectedEOF))) ∧
    (∀ (c : Conn) (t b0 b1 b2 b3 : Byte) (rest : List Byte),
      c.incoming = t :: b0 :: b1 :: b2 :: b3 :: rest → c.readEnd = GoError.EOF →
      beNat [b0, b1, b2, b3] ≤ 104857600 → rest.length < beNat [b0, b1, b2, b3] →
      (ReadMessage (some c)).1
        = .error (.wrap (lit "error reading payload")
            (if rest = [] then GoError.EOF else GoError.ErrUnexpectedEOF))) := by
  refine ⟨ReadMessage_eof, ?_, ?_⟩
  · intro c t l h hl he
    rw [ReadMessage_short_header c t l h hl, he]
    cases l <;> simp
  · intro c t b0 b1 b2 b3 rest h he hsmall hshort
    rw [ReadMessage_header c t b0 b1 b2 b3 rest h, he]
    have h1 : ¬ beNat [b0, b1, b2, b3] > 104857600 := by omega
    have h2 : ¬ beNat [b0, b1, b2, b3] ≤ rest.length := by omega
    simp only [h1, h2, if_false]
    cases rest <;> simp

/-- C4 at streams that end after 0, 1, 3 and 5 bytes and inside a payload of 2 bytes. -/
theorem readMessage_eof_iff_witness :
    (ReadMessage (some (Conn.ofInput []))).1 = .error GoError.EOF ∧
    (ReadMessage (some (Conn.ofInput [7]))).1
      = .error (.wrap (lit "error reading payload length") GoError.EOF) ∧
    (ReadMessage (some (Conn.ofInput [7, 0, 0]))).1
      = .error (.wrap (lit "error reading payload length") GoError.ErrUnexpectedEOF) ∧
    (ReadMessage (some (Conn.ofInput [7, 0, 0, 0, 2]))).1
      = .error (.wrap (lit "error reading payload") GoError.EOF) ∧
    (ReadMessage (some (Conn.ofInput [7, 0, 0, 0, 2, 104]))).1
      = .error (.wrap (lit "error reading payload") GoError.ErrUnexpectedEOF) :=
  ⟨(readMessage_eof_iff.1 (Conn.ofInput [])).2 ⟨rfl, rfl⟩,
   readMessage_eof_iff.2.1 (Conn.ofInput [7]) 7 [] rfl (by decide) rfl,
   readMessage_eof_iff.2.1 (Conn.ofInput [7, 0, 0]) 7 [0, 0] rfl (by decide) rfl,
   readMessage_eof_iff.2.2 (Conn.ofInput [7, 0, 0, 0, 2]) 7 0 0 0 2 [] rfl rfl
     (by decide) (by decide),
   readMessage_eof_iff.2.2 (Conn.ofInput [7, 0, 0, 0, 2, 104]) 7 0 0 0 2 [104] rfl rfl
     (by decide) (by decide)⟩

/-! ## The command payload -/

theorem intercalate_cons_cons (sep a b : List Byte) (l : List (List Byte)) :
    sep.intercalate (a :: b :: l) = a ++ sep ++ sep.intercalate (b :: l) := by
  simp [List.intercalate, List.intersperse]

/-- The loop of `WriteCommandMessage` over the arguments appends them joined by null bytes. -/
theorem commandPayload_loop (n : Nat) (l : List GoString) :
    ∀ (k : Nat) (acc : List Byte), k + l.length = n →
      (l.enumFrom k).foldl (fun payload ia =>
        let payload := payload ++ ia.2
        if ia.1 < n - 1 then payload ++ [0] else payload) acc
      = acc ++ stringsJoin l [0] := by
  induction l with
  | nil => intro k acc _; simp [stringsJoin, List.intercalate]
  | cons a l ih =>
    intro k acc hk
    rw [List.enumFrom_cons, List.foldl_cons]
    cases l with
    | nil =>
      have : ¬ k < n - 1 := by simp at hk; omega
      simp [this, stringsJoin, List.intercalate]
    | cons b l =>
      have hlt : k < n - 1 := by simp at hk; omega
      have := ih (k + 1) (acc ++ a ++ [0]) (by simp at hk ⊢; omega)
      simp only [hlt, if_true]
      rw [this]
      simp only [stringsJoin, intercalate_cons_cons, List.append_assoc]

/-- The payload of a command: version, signature, arguments joined by null bytes. -/
theorem commandPayload_eq (authSecret : GoString) (args : List GoString) :
    commandPayload authSecret args
      = [ProtocolVersion] ++ CalculateSignature authSecret args ++ stringsJoin args [0] := by
  unfold commandPayload
  exact commandPayload_loop args.length args 0 _ (by simp)

theorem sha256_length (msg : List Byte) : (sha256 msg).length = 32 := by
  simp [sha256, be32]

theorem hmacSHA256_length (key msg : List Byte) : (hmacSHA256 key msg).length = 32 := by
  simp [hmacSHA256, sha256_length]

theorem hexEncodeToString_length (src : List Byte) :
    (hexEncodeToString src).length = 2 * src.length := by
  induction src with
  | nil => rfl
  | cons a l ih =>
    simp only [hexEncodeToString, List.flatMap_cons, List.length_append, List.length_cons,
      List.length_nil] at ih ⊢
    omega

theorem CalculateSignature_length (authSecret : GoString) (commandArgs : List GoString) :
    (CalculateSignature authSecret commandArgs).length = 64 := by
  simp [CalculateSignature, hexEncodeToString_length, hmacSHA256_length]

/-- Parsing a payload laid out as version, 64 bytes of signature and the rest. -/
theorem ParseCommandMessage_layout (v : Byte) (sig rest : List Byte) (hs : sig.length = 64) :
    ParseCommandMessage (some ([v] ++ sig ++ rest))
      = ⟨v, sig, if rest.length > 0 then bytesSplit rest 0 else [],
         if v ≠ ProtocolVersion then
           some (GoError.errorf (lit "protocol version mismatch: got " ++ fmtNat v.val
             ++ lit ", expected " ++ fmtNat ProtocolVersion.val))
         else none⟩ := by
  unfold ParseCommandMessage
  have hlen : ¬ ([v] ++ sig ++ rest).length < 1 + SignatureLength := by
    simp [SignatureLength, hs]
  simp only [hlen, if_false]
  have h1 : ([v] ++ sig ++ rest).getD 0 0 = v := by simp
  have h2 : (([v] ++ sig ++ rest).drop 1).take SignatureLength = sig := by
    simp [SignatureLength, ← hs]
  have h3 : ([v] ++ sig ++ rest).drop (1 + SignatureLength) = rest := by
    have : 1 + SignatureLength = ([v] ++ sig).length := by simp [SignatureLength, hs]
    rw [this, List.drop_left]
  rw [h1, h2, h3]

theorem stringsJoin_ne_nil (args : List GoString) (h1 : args ≠ []) (h2 : args ≠ [[]]) :
    stringsJoin args [0] ≠ [] := by
  cases args with
  | nil => exact absurd rfl h1
  | cons a l =>
    cases l with
    | nil =>
      have : a ≠ [] := by
        intro h; apply h2; rw [h]
      simpa [stringsJoin, List.intercalate] using this
    | cons b l =>
      rw [stringsJoin, intercalate_cons_cons]
      simp

/-- Parsing the payload built for a vector without null bytes, other than `[""]`. -/
theorem parse_commandPayload (authSecret : GoString) (args : List GoString)
    (hne : args ≠ []) (hone : args ≠ [[]]) (hnul : ∀ a ∈ args, (0 : Byte) ∉ a) :
      ParseCommandMessage (some (commandPayload authSecret args))
        = ⟨ProtocolVersion, CalculateSignature authSecret args, args, none⟩ := by
  rw [commandPayload_eq, ParseCommandMessage_layout _ _ _ (CalculateSignature_length _ _)]
  have hpos : (stringsJoin args [0]).length > 0 :=
    List.length_pos.mpr (stringsJoin_ne_nil args hne hone)
  rw [if_pos hpos, if_neg (by simp)]
  simp only [bytesSplit, stringsJoin]
  rw [List.splitOn_intercalate args 0 hnul hne]

/-- Parsing the payload built for the single empty argument yields no argument. -/
theorem parse_commandPayload_single_empty (authSecret : GoString) :
      ParseCommandMessage (some (commandPayload authSecret [[]]))
        = ⟨ProtocolVersion, CalculateSignature authSecret [[]], [], none⟩ := by
  rw [commandPayload_eq, ParseCommandMessage_layout _ _ _ (CalculateSignature_length _ _)]
  simp [stringsJoin, List.intercalate]

/-- C5 as stated fails at the argument vector that holds one empty string: it contains no
null byte and `WriteCommandMessage` serialises it, yet `ParseCommandMessage` returns the
empty argument vector for the payload, not the vector that was sent. -/
theorem parseCommandMessage_roundtrip_counterexample :
    (∀ a ∈ ([[]] : List GoString), (0 : Byte) ∉ a) ∧
    WriteCommandMessage (some (Conn.ofInput [])) (lit "secret") [[]]
      = WriteMessage (some (Conn.ofInput [])) MessageTypeCommand
          (commandPayload (lit "secret") [[]]) ∧
    (ParseCommandMessage (some (commandPayload (lit "secret") [[]]))).args = [] ∧
    (ParseCommandMessage (some (commandPayload (lit "secret") [[]]))).args ≠ [[]] := by
  refine ⟨by simp, rfl, ?_, ?_⟩
  · rw [parse_commandPayload_single_empty]
  · rw [parse_commandPayload_single_empty]; simp

/-- C5, amended. For every non-empty argument vector whose arguments contain no null byte,
`WriteCommandMessage` sends the payload `commandPayload` in a Command frame, and
`ParseCommandMessage` applied to that payload returns version 1, the signature and no
error, with exactly the same argument vector in the same order, except for the vector that
holds one empty string, for which it returns the empty vector. -/
theorem parseCommandMessage_roundtrip (authSecret : GoString) (args : List GoString)
    (conn : Conn) (hne : args ≠ []) (hnul : ∀ a ∈ args, (0 : Byte) ∉ a) :
    WriteCommandMessage (some conn) authSecret args
      = WriteMessage (some conn) MessageTypeCommand (commandPayload authSecret args) ∧
    ParseCommandMessage (some (commandPayload authSecret args))
      = ⟨ProtocolVersion, CalculateSignature authSecret args,
         if args = [[]] then [] else args, none⟩ := by
  constructor
  · have : ¬ args.length = 0 := by simpa using hne
    simp [WriteCommandMessage, this]
  · by_cases h : args = [[]]
    · subst h
      rw [parse_commandPayload_single_empty]; simp
    · rw [parse_commandPayload authSecret args hne h hnul, if_neg h]

/-- C5, amended, at four arguments: "-i", the empty string, one with a space and a newline,
one with a two-byte UTF-8 character. -/
theorem parseCommandMessage_roundtrip_witness :
    (ParseCommandMessage (some (commandPayload (lit "secret")
        [lit "-i", [], lit "a b\n", lit "é"]))).args
      = [lit "-i", [], lit "a b\n", lit "é"] :=
  (congrArg ParsedCommand.args
    (parseCommandMessage_roundtrip (lit "secret") [lit "-i", [], lit "a b\n", lit "é"]
      (Conn.ofInput []) (by simp) (by decide)).2).trans (by decide)

/-- C6. `ParseCommandMessage` rejects every payload shorter than 65 bytes, and the `nil`
payload, with an error and zero values. For every payload of exactly 65 bytes it returns
the first byte as the version, the remaining 64 bytes as the signature and an empty
argument vector; the error it returns beside them is `nil` exactly when the version byte
is the protocol version 1, and the version-mismatch error otherwise. -/
theorem parseCommandMessage_length_boundary :
    (∀ (payload : List Byte), payload.length < 65 →
      ParseCommandMessage (some payload)
        = ⟨0, [], [], some (.errorf (lit "invalid command message: payload length "
            ++ fmtNat payload.length ++ lit " is too short (minimum required: "
            ++ fmtNat 65 ++ lit ")"))⟩) ∧
    ParseCommandMessage none = ⟨0, [], [], some (.errorf (lit "payload is nil"))⟩ ∧
    (∀ (payload : List Byte), payload.length = 65 →
      (ParseCommandMessage (some payload)).version = payload.getD 0 0 ∧
      (ParseCommandMessage (some payload)).signature = payload.drop 1 ∧
      (ParseCommandMessage (some payload)).signature.length = 64 ∧
      (ParseCommandMessage (some payload)).args = [] ∧
      ((ParseCommandMessage (some payload)).err = none ↔ payload.getD 0 0 = ProtocolVersion)) := by
  refine ⟨?_, rfl, ?_⟩
  · intro payload h
    have : payload.length < 1 + SignatureLength := by
      simp only [SignatureLength]; omega
    unfold ParseCommandMessage
    simp only [if_pos this]
    rfl
  · intro payload h
    cases payload with
    | nil => simp at h
    | cons v rest =>
      have hr : rest.length = 64 := by simpa using h
      have hl := ParseCommandMessage_layout v rest [] hr
      simp only [List.append_nil, List.singleton_append] at hl
      rw [hl]
      refine ⟨by simp, by simp, by simpa using hr, by simp, ?_⟩
      by_cases hv : v = ProtocolVersion <;> simp [hv]

/-- C6 at a payload of 64 bytes and at a payload of 65 bytes with version byte 2. -/
theorem parseCommandMessage_length_boundary_witness :
    (ParseCommandMessage (some (List.replicate 64 1))).err
      = some (.errorf (lit
          "invalid command message: payload length 64 is too short (minimum required: 65)")) ∧
    (ParseCommandMessage (some (2 :: List.replicate 64 97))).version = 2 ∧
    (ParseCommandMessage (some (2 :: List.replicate 64 97))).signature = List.replicate 64 97 ∧
    (ParseCommandMessage (some (2 :: List.replicate 64 97))).args = [] :=
  ⟨(congrArg ParsedCommand.err
      (parseCommandMessage_length_boundary.1 (List.replicate 64 1) (by decide))).trans
      (by decide),
   (parseCommandMessage_length_boundary.2.2 (2 :: List.replicate 64 97) (by decide)).1,
   (parseCommandMessage_length_boundary.2.2 (2 :: List.replicate 64 97) (by decide)).2.1,
   (parseCommandMessage_length_boundary.2.2 (2 :: List.replicate 64 97) (by decide)).2.2.2.1⟩

/-! ## The authenticator -/

theorem hextable_eq :
    hextable = [48, 49, 50, 51, 52, 53, 54, 55, 56, 57, 97, 98, 99, 100, 101, 102] := by
  decide

set_option maxRecDepth 100000 in
theorem hexEncodeToString_digits (src : List Byte) :
    ∀ b ∈ hexEncodeToString src, isLowerHexDigit b = true := by
  have key : ∀ v : Byte, isLowerHexDigit (hextable.getD (v.val >>> 4) 0) = true
      ∧ isLowerHexDigit (hextable.getD (v.val &&& 0x0f) 0) = true := by
    rw [hextable_eq]; decide
  intro b hb
  simp only [hexEncodeToString, List.mem_flatMap, List.mem_cons, List.mem_singleton,
    List.not_mem_nil, or_false] at hb
  obtain ⟨v, _, hv⟩ := hb
  rcases hv with h | h
  · rw [h]; exact (key v).1
  · rw [h]; exact (key v).2

set_option maxRecDepth 100000 in
theorem ConstantTimeByteEq_zero (v : Byte) : ConstantTimeByteEq v 0 = 1 ↔ v = 0 := by
  revert v; decide

/-- One step of the comparison loop leaves zero exactly when it was zero and the bytes agree. -/
theorem byteOf_or_xor_eq_zero (v a b : Byte) :
    byteOf (v.val ||| (a.val ^^^ b.val)) = 0 ↔ v = 0 ∧ a = b := by
  have hx : a.val ^^^ b.val < 2 ^ 8 := Nat.xor_lt_two_pow a.isLt b.isLt
  have ho : v.val ||| (a.val ^^^ b.val) < 2 ^ 8 := Nat.or_lt_two_pow v.isLt hx
  have hmod : (v.val ||| (a.val ^^^ b.val)) % 256 = v.val ||| (a.val ^^^ b.val) :=
    Nat.mod_eq_of_lt ho
  constructor
  · intro h
    have h0 : (v.val ||| (a.val ^^^ b.val)) = 0 := by
      have := congrArg Fin.val h
      simp only [byteOf] at this
      rw [hmod] at this
      exact this
    have h1 : v.val = 0 ∧ a.val ^^^ b.val = 0 := by
      constructor
      · apply Nat.eq_of_testBit_eq; intro i
        have := congrArg (fun n => Nat.testBit n i) h0
        simp only [Nat.testBit_or, Nat.zero_testBit, Bool.or_eq_false_iff] at this
        simp [this.1]
      · apply Nat.eq_of_testBit_eq; intro i
        have := congrArg (fun n => Nat.testBit n i) h0
        simp only [Nat.testBit_or, Nat.zero_testBit, Bool.or_eq_false_iff] at this
        simp [this.2]
    exact ⟨Fin.ext h1.1, Fin.ext (Nat.xor_eq_zero.mp h1.2)⟩
  · rintro ⟨h1, h2⟩
    subst h1 h2
    apply Fin.ext
    simp [byteOf]

theorem compare_fold (l : List (Byte × Byte)) :
    ∀ v : Byte, l.foldl (fun (v : Byte) p => byteOf (v.val ||| (p.1.val ^^^ p.2.val))) v = 0
      ↔ v = 0 ∧ ∀ p ∈ l, p.1 = p.2 := by
  induction l with
  | nil => intro v; simp
  | cons p l ih =>
    intro v
    rw [List.foldl_cons, ih, byteOf_or_xor_eq_zero]
    simp only [List.mem_cons, forall_eq_or_imp]
    tauto

theorem zip_eq_iff (x : List Byte) : ∀ y : List Byte, x.length = y.length →
    ((∀ p ∈ x.zip y, p.1 = p.2) ↔ x = y) := by
  induction x with
  | nil =>
    intro y h
    cases y with
    | nil => simp
    | cons b y => simp at h
  | cons a x ih =>
    intro y h
    cases y with
    | nil => simp at h
    | cons b y =>
      have hl : x.length = y.length := by simpa using h
      simp only [List.zip_cons_cons, List.mem_cons, forall_eq_or_imp, ih y hl, List.cons.injEq]

/-- The constant-time comparison returns 1 exactly on equal byte sequences. -/
theorem ConstantTimeCompare_eq_one (x y : List Byte) : ConstantTimeCompare x y = 1 ↔ x = y := by
  unfold ConstantTimeCompare
  by_cases h : x.length = y.length
  · simp only [ne_eq, h, not_true_eq_false, if_false]
    rw [ConstantTimeByteEq_zero, compare_fold, zip_eq_iff x y h]
    simp
  · simp only [ne_eq, h, not_false_eq_true, if_true]
    constructor
    · intro h0; simp at h0
    · intro he; exact absurd (congrArg List.length he) h

theorem hmacEqual_iff (x y : List Byte) : hmacEqual x y = true ↔ x = y := by
  simp [hmacEqual, ConstantTimeCompare_eq_one]

/-- C7. `VerifySignature(secret, signature, args)` is true if and only if `signature`
equals `CalculateSignature(secret, args)`. That value is the hexadecimal encoding of the
HMAC-SHA256 of the arguments joined by single null bytes (nothing for no argument, the
argument itself for one, no separator after the last); the hash has 32 bytes, the
signature 64 characters, each a digit `0`-`9` or a lower-case letter `a`-`f`. A signature of
any length other than 64 never verifies. -/
theorem verifySignature_iff (authSecret signature : GoString) (commandArgs : List GoString) :
    (VerifySignature authSecret signature commandArgs = true
        ↔ signature = CalculateSignature authSecret commandArgs) ∧
    CalculateSignature authSecret commandArgs
        = hexEncodeToString (hmacSHA256 authSecret (stringsJoin commandArgs [0])) ∧
    (stringsJoin [] [0] = [] ∧ (∀ a : GoString, stringsJoin [a] [0] = a) ∧
      ∀ (a b : GoString) (l : List GoString),
        stringsJoin (a :: b :: l) [0] = a ++ [0] ++ stringsJoin (b :: l) [0]) ∧
    (hmacSHA256 authSecret (stringsJoin commandArgs [0])).length = 32 ∧
    (CalculateSignature authSecret commandArgs).length = 64 ∧
    (∀ b ∈ CalculateSignature authSecret commandArgs, isLowerHexDigit b = true) ∧
    (signature.length ≠ 64 → VerifySignature authSecret signature commandArgs = false) := by
  have hiff : VerifySignature authSecret signature commandArgs = true
      ↔ signature = CalculateSignature authSecret commandArgs := by
    simp [VerifySignature, hmacEqual_iff]
  refine ⟨hiff, rfl, ⟨rfl, fun a => by simp [stringsJoin, List.intercalate],
    fun a b l => intercalate_cons_cons [0] a b l⟩, hmacSHA256_length _ _,
    CalculateSignature_length _ _, hexEncodeToString_digits _, ?_⟩
  intro hlen
  cases hv : VerifySignature authSecret signature commandArgs with
  | false => rfl
  | true =>
    have := hiff.mp hv
    rw [this, CalculateSignature_length] at hlen
    exact absurd rfl hlen

set_option maxRecDepth 1000000 in
/-- C7 at the secret "secret" and the arguments "-i", "in.mp4": the signature is the
HMAC-SHA256 known for that key and message, it verifies, it does not verify for the single
argument "-i in.mp4", and a signature of 3 characters does not verify. -/
theorem verifySignature_iff_witness :
    CalculateSignature (lit "secret") [lit "-i", lit "in.mp4"]
      = lit "e969e870e579b53f461add68725c04fdd1cbadb7263ba17eae30ec350526069b" ∧
    VerifySignature (lit "secret") (lit "e969e870e579b53f461add68725c04fdd1cbadb7263ba17eae30ec350526069b")
      [lit "-i", lit "in.mp4"] = true ∧
    VerifySignature (lit "secret") (lit "e969e870e579b53f461add68725c04fdd1cbadb7263ba17eae30ec350526069b")
      [lit "-i in.mp4"] = false ∧
    VerifySignature (lit "secret") (lit "abc") [lit "-i", lit "in.mp4"] = false :=
  ⟨by decide,
   (verifySignature_iff (lit "secret") (lit "e969e870e579b53f461add68725c04fdd1cbadb7263ba17eae30ec350526069b")
      [lit "-i", lit "in.mp4"]).1.mpr (by decide),
   by
     have h := (verifySignature_iff (lit "secret") (lit "e969e870e579b53f461add68725c04fdd1cbadb7263ba17eae30ec350526069b") [lit "-i in.mp4"]).1
     cases hv : VerifySignature (lit "secret") (lit "e969e870e579b53f461add68725c04fdd1cbadb7263ba17eae30ec350526069b") [lit "-i in.mp4"] with
     | false => rfl
     | true => exact absurd (h.mp hv) (by decide),
   (verifySignature_iff (lit "secret") (lit "abc") [lit "-i", lit "in.mp4"]).2.2.2.2.2.2
     (by decide)⟩

/-! ## The address parser -/

theorem stringsContains_singleton (s : GoString) (c : Byte) :
    stringsContains s [c] = true ↔ c ∈ s := by
  simp only [stringsContains, decide_eq_true_eq]
  constructor
  · rintro ⟨a, b, h⟩
    rw [← h]; simp
  · intro h
    obtain ⟨a, b, h⟩ := List.append_of_mem h
    exact ⟨a, b, by rw [h]; simp⟩

theorem lit_colon : lit ":" = [58] := by decide
theorem lit_slash : lit "/" = [47] := by decide

theorem filepathIsAbs_iff (path : GoString) :
    filepathIsAbs path = true ↔ ∃ rest, path = 47 :: rest := by
  rw [filepathIsAbs, lit_slash]
  cases path with
  | nil => simp [List.isPrefixOf]
  | cons a l => simp [List.isPrefixOf]; exact eq_comm

/-- C8. `ParseAddress` applies its rules in order. An address that contains `:` is a
stream-socket address (`tcp`) with the address verbatim, also when it is an absolute path.
Otherwise an absolute path (on a Unix build: one that starts with `/`) is a local-socket
address (`unix`) with the address verbatim. Otherwise `ParseAddress` fails. It fails exactly
for the addresses that contain no `:` and are not absolute paths, the empty string among
them. -/
theorem parseAddress_rules (address : GoString) :
    ((58 : Byte) ∈ address →
      ParseAddress address = .ok { Network := lit "tcp", Address := address }) ∧
    ((58 : Byte) ∉ address → filepathIsAbs address = true →
      ParseAddress address = .ok { Network := lit "unix", Address := address }) ∧
    ((58 : Byte) ∉ address → filepathIsAbs address = false →
      ParseAddress address = .error (.errorf (lit "invalid address format: " ++ address
        ++ lit " (must be host:port or /path/to/socket)"))) ∧
    ((∃ e, ParseAddress address = .error e)
      ↔ ((58 : Byte) ∉ address ∧ filepathIsAbs address = false)) ∧
    (filepathIsAbs address = true ↔ ∃ rest, address = 47 :: rest) ∧
    (∃ e, ParseAddress [] = .error e) := by
  have hc : stringsContains address (lit ":") = true ↔ (58 : Byte) ∈ address := by
    rw [lit_colon]; exact stringsContains_singleton address 58
  refine ⟨?_, ?_, ?_, ?_, filepathIsAbs_iff address, ⟨_, rfl⟩⟩
  · intro h
    simp [ParseAddress, hc.mpr h]
  · intro h habs
    have : ¬ stringsContains address (lit ":") = true := fun h' => h (hc.mp h')
    simp [ParseAddress, this, habs]
  · intro h habs
    have : ¬ stringsContains address (lit ":") = true := fun h' => h (hc.mp h')
    simp [ParseAddress, this, habs]
  · constructor
    · rintro ⟨e, he⟩
      unfold ParseAddress at he
      split at he
      · simp at he
      · rename_i h1
        split at he
        · simp at he
        · rename_i h2
          exact ⟨fun h' => h1 (hc.mpr h'), by simpa using h2⟩
    · rintro ⟨h, habs⟩
      have : ¬ stringsContains address (lit ":") = true := fun h' => h (hc.mp h')
      refine ⟨.errorf (lit "invalid address format: " ++ address
        ++ lit " (must be host:port or /path/to/socket)"), ?_⟩
      simp [ParseAddress, this, habs]

/-- C8 at a host and port, at an absolute path that contains a colon, at an absolute path
and at a relative path. -/
theorem parseAddress_rules_witness :
    ParseAddress (lit "localhost:5050") = .ok ⟨lit "tcp", lit "localhost:5050"⟩ ∧
    ParseAddress (lit "/tmp/a:b.sock") = .ok ⟨lit "tcp", lit "/tmp/a:b.sock"⟩ ∧
    ParseAddress (lit "/tmp/ffmpeg.sock") = .ok ⟨lit "unix", lit "/tmp/ffmpeg.sock"⟩ ∧
    ParseAddress (lit "tmp/ffmpeg.sock") = .error (.errorf (lit
      "invalid address format: tmp/ffmpeg.sock (must be host:port or /path/to/socket)")) :=
  ⟨(parseAddress_rules (lit "localhost:5050")).1 (by decide),
   (parseAddress_rules (lit "/tmp/a:b.sock")).1 (by decide),
   (parseAddress_rules (lit "/tmp/ffmpeg.sock")).2.1 (by decide) (by decide),
   ((parseAddress_rules (lit "tmp/ffmpeg.sock")).2.2.1 (by decide) (by decide)).trans
     (by decide)⟩

/-! ## The handshake of the server -/

/-- A write on a connection without a write limit appends the whole frame. -/
theorem WriteMessage_unlimited (t : Byte) (p : List Byte) (w : Conn) (h : w.writeRoom = none) :
    WriteMessage (some w) t p
      = (none, some { w with sent := w.sent ++ ([t] ++ be32 (u32 p.length) ++ p) }) := by
  unfold WriteMessage Conn.Write
  simp only [h]
  by_cases hp : p.length > 0
  · simp [hp]
  · have := length_pos_or_nil p hp
    subst this
    simp

/-- Parsing a payload of at least 65 bytes. -/
theorem ParseCommandMessage_long (payload : List Byte) (h : 65 ≤ payload.length) :
    ParseCommandMessage (some payload)
      = ⟨payload.getD 0 0, (payload.drop 1).take 64,
         if (payload.drop 65).length > 0 then bytesSplit (payload.drop 65) 0 else [],
         if payload.getD 0 0 ≠ ProtocolVersion then
           some (GoError.errorf (lit "protocol version mismatch: got "
             ++ fmtNat (payload.getD 0 0).val ++ lit ", expected " ++ fmtNat ProtocolVersion.val))
         else none⟩ := by
  have : ¬ payload.length < 1 + SignatureLength := by
    simp only [SignatureLength]; omega
  unfold ParseCommandMessage
  simp only [if_neg this]
  rfl

/-- A first frame of another type than Command is answered by one Error frame. -/
theorem handleConnection_not_command (c c' : Conn) (cfg : ServerConfig) (env : Env)
    (msg : Message) (hread : ReadMessage (some c) = (.ok msg, some c'))
    (ht : msg.MsgType ≠ MessageTypeCommand) :
    handleConnection (some c) cfg env
      = ⟨(WriteMessage (some c') MessageTypeError (lit "Expected command message")).2,
         [Event.writeMessage MessageTypeError (lit "Expected command message")]⟩ := by
  simp only [handleConnection, hread]
  rw [if_pos ht]
  rfl

/-- A command payload that does not parse is answered by one Error frame. -/
theorem handleConnection_parse_error (c c' : Conn) (cfg : ServerConfig) (env : Env)
    (msg : Message) (err : GoError) (hread : ReadMessage (some c) = (.ok msg, some c'))
    (ht : msg.MsgType = MessageTypeCommand)
    (herr : (ParseCommandMessage (some msg.Payload)).err = some err) :
    handleConnection (some c) cfg env
      = ⟨(WriteMessage (some c') MessageTypeError
            (lit "Invalid command message: " ++ err.Error)).2,
         [Event.writeMessage MessageTypeError
            (lit "Invalid command message: " ++ err.Error)]⟩ := by
  simp only [handleConnection, hread]
  rw [if_neg (by simpa using ht)]
  simp only [herr]
  rfl

/-- A command whose signature does not verify is answered by one Error frame. -/
theorem handleConnection_bad_sig (c c' : Conn) (cfg : ServerConfig) (env : Env)
    (msg : Message) (hread : ReadMessage (some c) = (.ok msg, some c'))
    (ht : msg.MsgType = MessageTypeCommand)
    (herr : (ParseCommandMessage (some msg.Payload)).err = none)
    (hver : (ParseCommandMessage (some msg.Payload)).version = ProtocolVersion)
    (hsig : VerifySignature cfg.AuthSecret (ParseCommandMessage (some msg.Payload)).signature
      (ParseCommandMessage (some msg.Payload)).args = false) :
    handleConnection (some c) cfg env
      = ⟨(WriteMessage (some c') MessageTypeError
            (lit "Authentication failed: invalid signature")).2,
         [Event.writeMessage MessageTypeError
            (lit "Authentication failed: invalid signature")]⟩ := by
  simp only [handleConnection, hread]
  rw [if_neg (by simpa using ht)]
  simp only [herr]
  rw [if_neg (by simpa using hver)]
  simp only [hsig]
  rfl

/-- C9. When the first frame is a Command frame with a payload of at least 65 bytes and
version 1 whose signature is not the one computed from the `AuthSecret` of the server and
the parsed arguments, `handleConnection` makes exactly one call that acts on the
connection, the subprocess or the registry: it writes one Error frame with payload
"Authentication failed: invalid signature" (on a connection that accepts the write, the
5-byte header and the 40 bytes of text). It creates and starts no subprocess and neither
inserts into nor deletes from the registry of active processes. -/
theorem handleConnection_invalid_signature (c c' : Conn) (cfg : ServerConfig) (env : Env)
    (payload : List Byte)
    (hread : ReadMessage (some c) = (.ok ⟨MessageTypeCommand, payload⟩, some c'))
    (hlen : 65 ≤ payload.length)
    (hver : payload.getD 0 0 = ProtocolVersion)
    (hsig : (ParseCommandMessage (some payload)).signature
      ≠ CalculateSignature cfg.AuthSecret (ParseCommandMessage (some payload)).args) :
    (handleConnection (some c) cfg env).trace
      = [Event.writeMessage MessageTypeError (lit "Authentication failed: invalid signature")] ∧
    (handleConnection (some c) cfg env).conn
      = (WriteMessage (some c') MessageTypeError
          (lit "Authentication failed: invalid signature")).2 ∧
    (c'.writeRoom = none →
      (handleConnection (some c) cfg env).conn
        = some { c' with sent := c'.sent ++ ([5, 0, 0, 0, 40]
            ++ lit "Authentication failed: invalid signature") }) ∧
    (∀ e ∈ (handleConnection (some c) cfg env).trace,
      (∀ name args, e ≠ Event.commandContext name args) ∧ e ≠ Event.cmdStart ∧
      (∀ id, e ≠ Event.registryInsert id) ∧ (∀ id, e ≠ Event.registryDelete id)) := by
  have hp := ParseCommandMessage_long payload hlen
  have herr : (ParseCommandMessage (some payload)).err = none := by
    rw [hp]; exact if_neg (not_not.mpr hver)
  have hv : (ParseCommandMessage (some payload)).version = ProtocolVersion := by
    rw [hp]; exact hver
  have hs : VerifySignature cfg.AuthSecret (ParseCommandMessage (some payload)).signature
      (ParseCommandMessage (some payload)).args = false := by
    cases hq : VerifySignature cfg.AuthSecret (ParseCommandMessage (some payload)).signature
      (ParseCommandMessage (some payload)).args with
    | false => rfl
    | true =>
      exact absurd ((by simpa [VerifySignature, hmacEqual_iff] using hq :
        (ParseCommandMessage (some payload)).signature
          = CalculateSignature cfg.AuthSecret (ParseCommandMessage (some payload)).args)) hsig
  have h := handleConnection_bad_sig c c' cfg env ⟨MessageTypeCommand, payload⟩ hread rfl
    herr hv hs
  rw [h]
  refine ⟨rfl, rfl, ?_, ?_⟩
  · intro hroom
    simp only [WriteMessage_unlimited _ _ _ hroom]
    rfl
  · intro e he
    simp only [List.mem_singleton] at he
    subst he
    simp

set_option maxRecDepth 1000000 in
/-- C9 at the command the client builds for the argument "-version" with the secret "wrong",
received by a server whose secret is "right". -/
theorem handleConnection_invalid_signature_witness :
    (handleConnection
      (some (Conn.ofInput ([1, 0, 0, 0, 73] ++ commandPayload (lit "wrong") [lit "-version"])))
      ServerConfig.sample Env.sample).trace
      = [Event.writeMessage 5 (lit "Authentication failed: invalid signature")] ∧
    (handleConnection
      (some (Conn.ofInput ([1, 0, 0, 0, 73] ++ commandPayload (lit "wrong") [lit "-version"])))
      ServerConfig.sample Env.sample).conn
      = some { Conn.ofInput [] with
          sent := [5, 0, 0, 0, 40] ++ lit "Authentication failed: invalid signature" } :=
  ⟨(handleConnection_invalid_signature
      (Conn.ofInput ([1, 0, 0, 0, 73] ++ commandPayload (lit "wrong") [lit "-version"]))
      (Conn.ofInput []) ServerConfig.sample Env.sample
      (commandPayload (lit "wrong") [lit "-version"])
      (by decide) (by decide) (by decide) (by decide)).1,
   (handleConnection_invalid_signature
      (Conn.ofInput ([1, 0, 0, 0, 73] ++ commandPayload (lit "wrong") [lit "-version"]))
      (Conn.ofInput []) ServerConfig.sample Env.sample
      (commandPayload (lit "wrong") [lit "-version"])
      (by decide) (by decide) (by decide) (by decide)).2.2.1 rfl⟩

/-- Parsing a payload of fewer than 65 bytes. -/
theorem parse_short (payload : List Byte) (h : payload.length < 65) :
    ParseCommandMessage (some payload)
      = ⟨0, [], [], some (.errorf (lit "invalid command message: payload length "
          ++ fmtNat payload.length ++ lit " is too short (minimum required: "
          ++ fmtNat 65 ++ lit ")"))⟩ := by
  have : payload.length < 1 + SignatureLength := by
    simp only [SignatureLength]; omega
  unfold ParseCommandMessage
  simp only [if_pos this]
  rfl

/-- C10. When the first frame fails a structural check of the handshake (its type is not
Command, or its payload is shorter than 65 bytes, or its version byte is not 1),
`handleConnection` makes exactly one call that acts on the connection, the subprocess or
the registry: it writes one Error frame, so no subprocess is created or started. The text
is "Expected command message" for another type, names the length for a short payload, and
for a version mismatch names the received and the expected version. -/
theorem handleConnection_structural_rejection (c c' : Conn) (cfg : ServerConfig) (env : Env)
    (msg : Message)
    (hread : ReadMessage (some c) = (.ok msg, some c'))
    (hbad : msg.MsgType ≠ MessageTypeCommand ∨ msg.Payload.length < 65
      ∨ msg.Payload.getD 0 0 ≠ ProtocolVersion) :
    ∃ text : GoString,
      handleConnection (some c) cfg env
        = ⟨(WriteMessage (some c') MessageTypeError text).2,
           [Event.writeMessage MessageTypeError text]⟩ ∧
      (c'.writeRoom = none →
        (handleConnection (some c) cfg env).conn
          = some { c' with sent := c'.sent ++ ([5] ++ be32 (u32 text.length) ++ text) }) ∧
      (msg.MsgType ≠ MessageTypeCommand → text = lit "Expected command message") ∧
      (msg.MsgType = MessageTypeCommand → msg.Payload.length < 65 →
        text = lit "Invalid command message: invalid command message: payload length "
          ++ fmtNat msg.Payload.length ++ lit " is too short (minimum required: 65)") ∧
      (msg.MsgType = MessageTypeCommand → 65 ≤ msg.Payload.length →
        msg.Payload.getD 0 0 ≠ ProtocolVersion →
        text = lit "Invalid command message: protocol version mismatch: got "
          ++ fmtNat (msg.Payload.getD 0 0).val ++ lit ", expected 1") := by
  have hwire : ∀ text : GoString, c'.writeRoom = none →
      (WriteMessage (some c') MessageTypeError text).2
        = some { c' with sent := c'.sent ++ ([5] ++ be32 (u32 text.length) ++ text) } := by
    intro text hroom
    rw [WriteMessage_unlimited _ _ _ hroom]
    rfl
  by_cases ht : msg.MsgType = MessageTypeCommand
  · by_cases hlen : msg.Payload.length < 65
    · have hp := parse_short msg.Payload hlen
      have h := handleConnection_parse_error c c' cfg env msg _ hread ht
        (congrArg ParsedCommand.err hp)
      refine ⟨_, h, fun hroom => by rw [h]; exact hwire _ hroom, fun h' => absurd ht h',
        fun _ _ => ?_, fun _ h' => absurd hlen (by omega)⟩
      simp only [GoError.Error, List.append_assoc]
      rfl
    · have hv : msg.Payload.getD 0 0 ≠ ProtocolVersion := by
        rcases hbad with h | h | h
        · exact absurd ht h
        · exact absurd h hlen
        · exact h
      have hp := ParseCommandMessage_long msg.Payload (by omega)
      have h := handleConnection_parse_error c c' cfg env msg _ hread ht
        ((congrArg ParsedCommand.err hp).trans (if_pos hv))
      refine ⟨_, h, fun hroom => by rw [h]; exact hwire _ hroom, fun h' => absurd ht h',
        fun _ h' => absurd h' hlen, fun _ _ _ => ?_⟩
      simp only [GoError.Error, List.append_assoc]
      rfl
  · have h := handleConnection_not_command c c' cfg env msg hread ht
    exact ⟨_, h, fun hroom => by rw [h]; exact hwire _ hroom, fun _ => rfl,
      fun h' => absurd h' ht, fun h' => absurd h' ht⟩

set_option maxRecDepth 1000000 in
/-- C10 at a Stdin frame, at a Command frame of 64 bytes and at a Command frame of 65 bytes
with version 2. -/
theorem handleConnection_structural_rejection_witness :
    (handleConnection (some (Conn.ofInput [7, 0, 0, 0, 0])) ServerConfig.sample
        Env.sample).trace
      = [Event.writeMessage 5 (lit "Expected command message")] ∧
    (handleConnection (some (Conn.ofInput ([1, 0, 0, 0, 64] ++ List.replicate 64 1)))
        ServerConfig.sample Env.sample).trace
      = [Event.writeMessage 5 (lit ("Invalid command message: invalid command message: "
          ++ "payload length 64 is too short (minimum required: 65)"))] ∧
    (handleConnection (some (Conn.ofInput ([1, 0, 0, 0, 65, 2] ++ List.replicate 64 97)))
        ServerConfig.sample Env.sample).trace
      = [Event.writeMessage 5
          (lit "Invalid command message: protocol version mismatch: got 2, expected 1")] := by
  refine ⟨?_, ?_, ?_⟩
  · obtain ⟨text, h, _, h1, _, _⟩ := handleConnection_structural_rejection
      (Conn.ofInput [7, 0, 0, 0, 0]) (Conn.ofInput []) ServerConfig.sample Env.sample
      ⟨7, []⟩ (by decide) (Or.inl (by decide))
    rw [h, h1 (by decide)]
    rfl
  · obtain ⟨text, h, _, _, h2, _⟩ := handleConnection_structural_rejection
      (Conn.ofInput ([1, 0, 0, 0, 64] ++ List.replicate 64 1)) (Conn.ofInput [])
      ServerConfig.sample Env.sample ⟨1, List.replicate 64 1⟩ (by decide)
      (Or.inr (Or.inl (by decide)))
    rw [h, h2 (by decide) (by decide)]
    decide
  · obtain ⟨text, h, _, _, _, h3⟩ := handleConnection_structural_rejection
      (Conn.ofInput ([1, 0, 0, 0, 65, 2] ++ List.replicate 64 97)) (Conn.ofInput [])
      ServerConfig.sample Env.sample ⟨1, 2 :: List.replicate 64 97⟩ (by decide)
      (Or.inr (Or.inr (by decide)))
    rw [h, h3 (by decide) (by decide) (by decide)]
    decide

/-! ## The stdin proxy of the server -/

/-- A read on a connection leaves a connection. -/
theorem ReadMessage_conn_some (c : Conn) :
    ∃ c', (ReadMessage (some c)).2 = some c' := by
  unfold ReadMessage
  simp only
  split
  · split <;> exact ⟨_, rfl⟩
  · split
    · exact ⟨_, rfl⟩
    · split
      · exact ⟨_, rfl⟩
      · split
        · split <;> exact ⟨_, rfl⟩
        · exact ⟨_, rfl⟩

/-- Reading `n` bytes from a connection leaves `n` bytes fewer. -/
theorem readFull_ok_length (c c' : Conn) (n : Nat) (b : List Byte)
    (h : readFull c n = (.ok b, c')) : c'.incoming.length + n = c.incoming.length := by
  unfold readFull at h
  split at h
  · simp only [Prod.mk.injEq, Except.ok.injEq] at h
    rw [← h.2]
    simp only [List.length_drop]
    omega
  · simp at h

/-- A message that was read took at least the 5 bytes of its header from the connection. -/
theorem ReadMessage_ok_length (c c' : Conn) (m : Message)
    (h : ReadMessage (some c) = (.ok m, some c')) :
    c'.incoming.length + 5 ≤ c.incoming.length := by
  unfold ReadMessage at h
  simp only at h
  split at h
  · split at h <;> simp at h
  · rename_i typeBuf c1 h1
    have l1 := readFull_ok_length _ _ _ _ h1
    split at h
    · simp at h
    · rename_i lenBuf c2 h2
      have l2 := readFull_ok_length _ _ _ _ h2
      split at h
      · simp at h
      · split at h
        · split at h
          · simp at h
          · rename_i payload c3 h3
            have l3 := readFull_ok_length _ _ _ _ h3
            simp only [Prod.mk.injEq, Option.some.injEq] at h
            rw [← h.2]
            omega
        · simp only [Prod.mk.injEq, Option.some.injEq] at h
          rw [← h.2]
          omega

/-- The errors of `ReadMessage` are `io.EOF`, plain messages and wrapped errors; none of them
is a `net.Error`. -/
theorem ReadMessage_error_not_timeout (conn conn' : Option Conn) (err : GoError)
    (h : ReadMessage conn = (.error err, conn')) : err.isNetTimeout = false := by
  unfold ReadMessage at h
  split at h
  · simp only [Prod.mk.injEq, Except.error.injEq] at h
    rw [← h.1]; rfl
  · simp only at h
    split at h
    · split at h
      · rename_i he
        simp only [Prod.mk.injEq, Except.error.injEq] at h
        rw [← h.1, he]; rfl
      · simp only [Prod.mk.injEq, Except.error.injEq] at h
        rw [← h.1]; rfl
    · split at h
      · simp only [Prod.mk.injEq, Except.error.injEq] at h
        rw [← h.1]; rfl
      · split at h
        · simp only [Prod.mk.injEq, Except.error.injEq] at h
          rw [← h.1]; rfl
        · split at h
          · split at h
            · simp only [Prod.mk.injEq, Except.error.injEq] at h
              rw [← h.1]; rfl
            · simp at h
          · simp at h

/-- The five outcomes of one iteration of the loop of `handleStdin`. -/
theorem handleStdinStep_cases (s : StdinProxy) (res : Except GoError Message)
    (conn' : Option Conn) (hnt : ∀ err, res = .error err → err.isNetTimeout = false) :
    (((∃ err, res = .error err) ∨ (∃ msg, res = .ok msg ∧ msg.MsgType = MessageTypeCancel)) ∧
      handleStdinStep s (res, conn')
        = StdinProxy.finish (StdinProxy.cancelOnce
            { s with conn := conn', trace := s.trace ++ [StdinEvent.read res] })) ∨
    ((∃ msg, res = .ok msg ∧ msg.MsgType ≠ MessageTypeCancel) ∧
      handleStdinStep s (res, conn')
        = { s with conn := conn', trace := s.trace ++ [StdinEvent.read res] }) ∨
    (∃ msg pipe', res = .ok msg ∧ msg.MsgType = MessageTypeStdin ∧ s.stdinIsNil = false ∧
      s.pipe.Write msg.Payload = (none, pipe') ∧
      handleStdinStep s (res, conn')
        = { s with conn := conn', pipe := pipe',
                   trace := s.trace ++ [StdinEvent.read res]
                     ++ [StdinEvent.write msg.Payload none] }) ∨
    (∃ msg err pipe', res = .ok msg ∧ msg.MsgType = MessageTypeStdin ∧ s.stdinIsNil = false ∧
      s.pipe.Write msg.Payload = (some err, pipe') ∧
      handleStdinStep s (res, conn')
        = StdinProxy.finish
            { s with conn := conn', pipe := pipe',
                     trace := s.trace ++ [StdinEvent.read res]
                       ++ [StdinEvent.write msg.Payload (some err)] }) ∨
    (∃ msg, res = .ok msg ∧ msg.MsgType = MessageTypeStdinClose ∧ s.stdinIsNil = false ∧
      handleStdinStep s (res, conn')
        = { s with conn := conn', pipe := s.pipe.Close, stdinIsNil := true,
                   trace := s.trace ++ [StdinEvent.read res] ++ [StdinEvent.close] }) := by
  cases res with
  | error err =>
    left
    refine ⟨Or.inl ⟨err, rfl⟩, ?_⟩
    have := hnt err rfl
    by_cases he : err = GoError.EOF
    · simp [handleStdinStep, he]
    · simp [handleStdinStep, he, this]
  | ok msg =>
    have d1 : MessageTypeStdinClose ≠ MessageTypeStdin := by decide
    have d2 : MessageTypeCancel ≠ MessageTypeStdin := by decide
    have d3 : MessageTypeCancel ≠ MessageTypeStdinClose := by decide
    by_cases h7 : msg.MsgType = MessageTypeStdin
    · cases hn : s.stdinIsNil with
      | true =>
        right; left
        refine ⟨⟨msg, rfl, by rw [h7]; decide⟩, ?_⟩
        simp [handleStdinStep, h7, hn]
      | false =>
        cases hw : s.pipe.Write msg.Payload with
        | mk e pipe' =>
        cases e with
        | none =>
          right; right; left
          exact ⟨msg, pipe', rfl, h7, rfl, hw, by simp [handleStdinStep, h7, hn, hw]⟩
        | some err =>
          right; right; right; left
          exact ⟨msg, err, pipe', rfl, h7, rfl, hw, by simp [handleStdinStep, h7, hn, hw]⟩
    · by_cases h8 : msg.MsgType = MessageTypeStdinClose
      · cases hn : s.stdinIsNil with
        | true =>
          right; left
          refine ⟨⟨msg, rfl, by rw [h8]; decide⟩, ?_⟩
          simp [handleStdinStep, h8, hn, d1]
        | false =>
          right; right; right; right
          exact ⟨msg, rfl, h8, rfl, by simp [handleStdinStep, h8, hn, d1]⟩
      · by_cases h6 : msg.MsgType = MessageTypeCancel
        · left
          exact ⟨Or.inr ⟨msg, rfl, h6⟩, by simp [handleStdinStep, h6, d2, d3]⟩
        · right; left
          exact ⟨⟨msg, rfl, h6⟩, by simp [handleStdinStep, h7, h8, h6]⟩


theorem StdinProxy.finish_returned (s : StdinProxy) : s.finish.returned = true := by
  unfold StdinProxy.finish
  split <;> rfl

theorem handleStdinLoop_succ_ret (n : Nat) (s : StdinProxy)
    (h : (handleStdinStep s (ReadMessage s.conn)).returned = true) :
    handleStdinLoop (n + 1) s = handleStdinStep s (ReadMessage s.conn) := by
  simp only [handleStdinLoop, h, if_true]

theorem handleStdinLoop_succ_go (n : Nat) (s : StdinProxy)
    (h : (handleStdinStep s (ReadMessage s.conn)).returned = false) :
    handleStdinLoop (n + 1) s = handleStdinLoop n (handleStdinStep s (ReadMessage s.conn)) := by
  simp only [handleStdinLoop, h, Bool.false_eq_true, if_false]

/-- Induction over the loop of `handleStdin`: a property `J` of the state that every
iteration that goes on preserves, and a property `Q` that every iteration that returns
establishes. -/
theorem handleStdinLoop_induction (J Q : StdinProxy → Prop)
    (hstep : ∀ s, J s → s.returned = false →
      ((handleStdinStep s (ReadMessage s.conn)).returned = true →
        Q (handleStdinStep s (ReadMessage s.conn))) ∧
      ((handleStdinStep s (ReadMessage s.conn)).returned = false →
        J (handleStdinStep s (ReadMessage s.conn)))) :
    ∀ (fuel : Nat) (s : StdinProxy), J s → s.returned = false →
      ((handleStdinLoop fuel s).returned = true → Q (handleStdinLoop fuel s)) ∧
      ((handleStdinLoop fuel s).returned = false → J (handleStdinLoop fuel s)) := by
  intro fuel
  induction fuel with
  | zero =>
    intro s hJ hr
    have e : handleStdinLoop 0 s = s := rfl
    rw [e]
    exact ⟨fun h => (by rw [hr] at h; cases h), fun _ => hJ⟩
  | succ n ih =>
    intro s hJ hr
    have hs := hstep s hJ hr
    cases hret : (handleStdinStep s (ReadMessage s.conn)).returned with
    | true =>
      rw [handleStdinLoop_succ_ret n s hret]
      exact ⟨fun _ => hs.1 hret, fun h => (by rw [hret] at h; cases h)⟩
    | false =>
      rw [handleStdinLoop_succ_go n s hret]
      exact ih _ (hs.2 hret) hret

/-- The loop of `handleStdin` returns within one iteration more than the connection holds
bytes. -/
theorem handleStdinLoop_returns :
    ∀ (fuel : Nat) (s : StdinProxy) (c : Conn), s.conn = some c → s.returned = false →
      c.incoming.length < fuel → (handleStdinLoop fuel s).returned = true := by
  intro fuel
  induction fuel with
  | zero => intro s c _ _ h; omega
  | succ n ih =>
    intro s c hc hr hlen
    cases hret : (handleStdinStep s (ReadMessage s.conn)).returned with
    | true => rw [handleStdinLoop_succ_ret n s hret]; exact hret
    | false =>
      rw [handleStdinLoop_succ_go n s hret]
      obtain ⟨c', hc'⟩ := ReadMessage_conn_some c
      cases hread : ReadMessage (some c) with
      | mk res conn' =>
      rw [hread] at hc'
      simp only at hc'
      subst hc'
      rw [hc, hread] at hret ⊢
      have hstepconn : (handleStdinStep s (res, some c')).conn = some c' ∧
          ∃ msg, res = .ok msg := by
        rcases handleStdinStep_cases s res (some c')
          (fun err he => ReadMessage_error_not_timeout _ _ err (he ▸ hread)) with
          ⟨_, h⟩ | ⟨⟨m, hm, _⟩, h⟩ | ⟨m, p, hm, _, _, _, h⟩ | ⟨m, e, p, _, _, _, _, h⟩
            | ⟨m, hm, _, _, h⟩
        · rw [h, StdinProxy.finish_returned] at hret; cases hret
        · rw [h]; exact ⟨rfl, m, hm⟩
        · rw [h]; exact ⟨rfl, m, hm⟩
        · rw [h, StdinProxy.finish_returned] at hret; cases hret
        · rw [h]; exact ⟨rfl, m, hm⟩
      obtain ⟨hconn, msg, hmsg⟩ := hstepconn
      subst hmsg
      have := ReadMessage_ok_length c c' msg hread
      exact ih _ c' hconn hret (by omega)

/-- While the loop of `handleStdin` runs, nothing has been cancelled; once it has returned,
`cmdCancel` was called at most once, with the first change of `canceled`, and exactly once
when a Cancel frame was read. -/
theorem handleStdinLoop_cancel (fuel : Nat) (s : StdinProxy)
    (hJ : s.canceled = false ∧ s.trace.count StdinEvent.cmdCancel = 0 ∧
      s.trace.count (StdinEvent.swap false) = 0 ∧ s.trace.any StdinEvent.isCancelRead = false)
    (hr : s.returned = false) :
    ((handleStdinLoop fuel s).returned = true →
      (handleStdinLoop fuel s).trace.count StdinEvent.cmdCancel ≤ 1 ∧
      (handleStdinLoop fuel s).trace.count (StdinEvent.swap false)
        = (handleStdinLoop fuel s).trace.count StdinEvent.cmdCancel ∧
      ((handleStdinLoop fuel s).canceled = true
        ↔ (handleStdinLoop fuel s).trace.count StdinEvent.cmdCancel = 1) ∧
      ((handleStdinLoop fuel s).trace.any StdinEvent.isCancelRead = true →
        (handleStdinLoop fuel s).trace.count StdinEvent.cmdCancel = 1)) ∧
    ((handleStdinLoop fuel s).returned = false →
      (handleStdinLoop fuel s).canceled = false ∧
      (handleStdinLoop fuel s).trace.count StdinEvent.cmdCancel = 0 ∧
      (handleStdinLoop fuel s).trace.count (StdinEvent.swap false) = 0 ∧
      (handleStdinLoop fuel s).trace.any StdinEvent.isCancelRead = false) := by
  refine handleStdinLoop_induction
    (fun s => s.canceled = false ∧ s.trace.count StdinEvent.cmdCancel = 0 ∧
      s.trace.count (StdinEvent.swap false) = 0 ∧ s.trace.any StdinEvent.isCancelRead = false)
    (fun r => r.trace.count StdinEvent.cmdCancel ≤ 1 ∧
      r.trace.count (StdinEvent.swap false) = r.trace.count StdinEvent.cmdCancel ∧
      (r.canceled = true ↔ r.trace.count StdinEvent.cmdCancel = 1) ∧
      (r.trace.any StdinEvent.isCancelRead = true → r.trace.count StdinEvent.cmdCancel = 1))
    ?_ fuel s hJ hr
  intro s ⟨hc, h1, h2, h3⟩ hr
  cases hread : ReadMessage s.conn with
  | mk res conn' =>
  rcases handleStdinStep_cases s res conn'
    (fun err he => ReadMessage_error_not_timeout _ _ err (he ▸ hread)) with
    ⟨_, h⟩ | ⟨⟨m, hm, hty⟩, h⟩ | ⟨m, p, hm, hty, _, _, h⟩ | ⟨m, e, p, hm, hty, hn, _, h⟩
      | ⟨m, hm, hty, _, h⟩
  · rw [h]
    cases hn : s.stdinIsNil <;>
      simp [StdinProxy.cancelOnce, StdinProxy.finish, hc, hn, List.count_append, h1, h2,
        List.count_cons]
  · rw [h]
    subst hm
    have : (m.MsgType == MessageTypeCancel) = false := by simpa using hty
    simp [hr, hc, List.count_append, h1, h2, h3, List.count_cons, StdinEvent.isCancelRead, this]
  · rw [h]
    subst hm
    have : (m.MsgType == MessageTypeCancel) = false := by rw [hty]; decide
    simp [hr, hc, List.count_append, h1, h2, h3, List.count_cons, StdinEvent.isCancelRead, this]
  · rw [h]
    subst hm
    have : (m.MsgType == MessageTypeCancel) = false := by rw [hty]; decide
    simp [StdinProxy.finish, hn, hr, hc, List.count_append, h1, h2, h3, List.count_cons,
      StdinEvent.isCancelRead, this]
  · rw [h]
    subst hm
    have : (m.MsgType == MessageTypeCancel) = false := by rw [hty]; decide
    simp [hr, hc, List.count_append, h1, h2, h3, List.count_cons, StdinEvent.isCancelRead, this]


theorem Pipe.Write_closes (p : Pipe) (b : List Byte) : (p.Write b).2.closes = p.closes := by
  unfold Pipe.Write
  split
  · rfl
  · split
    · rfl
    · split <;> rfl

/-- While the loop of `handleStdin` runs, the pipe was closed exactly when the variable
`stdin` is `nil`; once it has returned, the pipe was closed exactly once. -/
theorem handleStdinLoop_close (k : Nat) (fuel : Nat) (s : StdinProxy)
    (hJ : s.pipe.closes = k + (if s.stdinIsNil then 1 else 0) ∧
      s.trace.count StdinEvent.close = (if s.stdinIsNil then 1 else 0))
    (hr : s.returned = false) :
    ((handleStdinLoop fuel s).returned = true →
      (handleStdinLoop fuel s).pipe.closes = k + 1 ∧
      (handleStdinLoop fuel s).trace.count StdinEvent.close = 1) ∧
    ((handleStdinLoop fuel s).returned = false →
      (handleStdinLoop fuel s).pipe.closes
        = k + (if (handleStdinLoop fuel s).stdinIsNil then 1 else 0) ∧
      (handleStdinLoop fuel s).trace.count StdinEvent.close
        = (if (handleStdinLoop fuel s).stdinIsNil then 1 else 0)) := by
  refine handleStdinLoop_induction
    (fun s => s.pipe.closes = k + (if s.stdinIsNil then 1 else 0) ∧
      s.trace.count StdinEvent.close = (if s.stdinIsNil then 1 else 0))
    (fun r => r.pipe.closes = k + 1 ∧ r.trace.count StdinEvent.close = 1)
    ?_ fuel s hJ hr
  intro s ⟨h1, h2⟩ hr
  cases hread : ReadMessage s.conn with
  | mk res conn' =>
  rcases handleStdinStep_cases s res conn'
    (fun err he => ReadMessage_error_not_timeout _ _ err (he ▸ hread)) with
    ⟨_, h⟩ | ⟨⟨m, hm, hty⟩, h⟩ | ⟨m, p, hm, hty, hn, hw, h⟩ | ⟨m, e, p, hm, hty, hn, hw, h⟩
      | ⟨m, hm, hty, hn, h⟩
  · rw [h]
    cases hn : s.stdinIsNil <;> cases hc : s.canceled <;>
      simp [StdinProxy.cancelOnce, StdinProxy.finish, hc, hn, List.count_append, h1, h2,
        List.count_cons, Pipe.Close]
  · rw [h]
    simp [hr, List.count_append, h1, h2, List.count_cons]
  · rw [h]
    have hp : p.closes = s.pipe.closes := by
      have := Pipe.Write_closes s.pipe m.Payload
      rw [hw] at this; exact this
    simp [hr, hn, hp, List.count_append, h1, h2, List.count_cons]
  · rw [h]
    have hp : p.closes = s.pipe.closes := by
      have := Pipe.Write_closes s.pipe m.Payload
      rw [hw] at this; exact this
    simp [StdinProxy.finish, hr, hn, hp, List.count_append, h1, h2, List.count_cons, Pipe.Close]
  · rw [h]
    simp [hr, hn, List.count_append, h1, h2, List.count_cons, Pipe.Close]


/-- A Stdin or StdinClose frame read while the variable `stdin` is `nil` changes nothing. -/
theorem handleStdinStep_ignored (s : StdinProxy) (m : Message) (conn' : Option Conn)
    (hn : s.stdinIsNil = true)
    (hty : m.MsgType = MessageTypeStdin ∨ m.MsgType = MessageTypeStdinClose) :
    handleStdinStep s (.ok m, conn')
      = { s with conn := conn', trace := s.trace ++ [StdinEvent.read (.ok m)] } := by
  have d1 : MessageTypeStdinClose ≠ MessageTypeStdin := by decide
  rcases hty with h | h
  · simp [handleStdinStep, h, hn]
  · simp [handleStdinStep, h, hn, d1]

/-- The first StdinClose frame closes the pipe and makes the variable `stdin` `nil`. -/
theorem handleStdinStep_close (s : StdinProxy) (m : Message) (conn' : Option Conn)
    (hn : s.stdinIsNil = false) (hty : m.MsgType = MessageTypeStdinClose) :
    handleStdinStep s (.ok m, conn')
      = { s with conn := conn', pipe := s.pipe.Close, stdinIsNil := true,
                 trace := s.trace ++ [StdinEvent.read (.ok m), StdinEvent.close] } := by
  have d1 : MessageTypeStdinClose ≠ MessageTypeStdin := by decide
  simp [handleStdinStep, hty, hn, d1]

/-- A Cancel frame cancels once and returns. -/
theorem handleStdinStep_cancel (s : StdinProxy) (m : Message) (conn' : Option Conn)
    (hty : m.MsgType = MessageTypeCancel) :
    handleStdinStep s (.ok m, conn')
      = StdinProxy.finish (StdinProxy.cancelOnce
          { s with conn := conn', trace := s.trace ++ [StdinEvent.read (.ok m)] }) := by
  have d2 : MessageTypeCancel ≠ MessageTypeStdin := by decide
  have d3 : MessageTypeCancel ≠ MessageTypeStdinClose := by decide
  simp [handleStdinStep, hty, d2, d3]

/-- A failed read cancels once and returns, whatever the error. -/
theorem handleStdinStep_error (s : StdinProxy) (err : GoError) (conn' : Option Conn)
    (hnt : err.isNetTimeout = false) :
    handleStdinStep s (.error err, conn')
      = StdinProxy.finish (StdinProxy.cancelOnce
          { s with conn := conn', trace := s.trace ++ [StdinEvent.read (.error err)] }) := by
  by_cases he : err = GoError.EOF
  · simp [handleStdinStep, he]
  · simp [handleStdinStep, he, hnt]

/-- With the variable `stdin` already `nil`, Stdin and StdinClose frames followed by a Cancel
frame: nothing is written or closed, and the Cancel frame cancels. -/
theorem handleStdinLoop_closed_then_cancel (ms : List Message) :
    ∀ (fuel : Nat) (s : StdinProxy) (c : Conn) (p rest : List Byte),
      s.conn = some c → s.stdinIsNil = true → s.canceled = false → s.returned = false →
      c.incoming = ms.flatMap frameBytes ++ frameBytes ⟨MessageTypeCancel, p⟩ ++ rest →
      (∀ m ∈ ms, m.MsgType = MessageTypeStdin ∨ m.MsgType = MessageTypeStdinClose) →
      (∀ m ∈ ms, m.Payload.length ≤ 104857600) → p.length ≤ 104857600 →
      ms.length + 1 ≤ fuel →
      handleStdinLoop fuel s
        = { s with conn := some { c with incoming := rest }, canceled := true, returned := true,
                   trace := s.trace ++ ms.map (fun m => StdinEvent.read (.ok m))
                     ++ [StdinEvent.read (.ok ⟨MessageTypeCancel, p⟩), StdinEvent.swap false,
                         StdinEvent.cmdCancel] } := by
  induction ms with
  | nil =>
    intro fuel s c p rest hc hn hcan _ hin _ _ hp hfuel
    obtain ⟨n, rfl⟩ : ∃ n, fuel = n + 1 := ⟨fuel - 1, by omega⟩
    have hread : ReadMessage (some c)
        = (.ok ⟨MessageTypeCancel, p⟩, some { c with incoming := rest }) :=
      ReadMessage_frame _ p rest c hp (by rw [hin]; rfl)
    have hstep := handleStdinStep_cancel s ⟨MessageTypeCancel, p⟩
      (some { c with incoming := rest }) rfl
    have hret : (handleStdinStep s (ReadMessage s.conn)).returned = true := by
      rw [hc, hread, hstep]; exact StdinProxy.finish_returned _
    rw [handleStdinLoop_succ_ret n s hret, hc, hread, hstep]
    simp [StdinProxy.cancelOnce, StdinProxy.finish, hcan, hn]
  | cons m ms ih =>
    intro fuel s c p rest hc hn hcan hr hin hty hlen hp hfuel
    obtain ⟨n, rfl⟩ : ∃ n, fuel = n + 1 := ⟨fuel - 1, by simp at hfuel; omega⟩
    have hread : ReadMessage (some c)
        = (.ok m, some { c with
            incoming := (ms.flatMap frameBytes ++ frameBytes ⟨MessageTypeCancel, p⟩ ++ rest) }) :=
      ReadMessage_frame m.MsgType m.Payload _ c (hlen m (List.mem_cons_self _ _))
        (by rw [hin]; simp [frameBytes, List.flatMap_cons])
    have hstep := handleStdinStep_ignored s m
      (some { c with
        incoming := (ms.flatMap frameBytes ++ frameBytes ⟨MessageTypeCancel, p⟩ ++ rest) }) hn
      (hty m (List.mem_cons_self _ _))
    have hret : (handleStdinStep s (ReadMessage s.conn)).returned = false := by
      rw [hc, hread, hstep]; exact hr
    rw [handleStdinLoop_succ_go n s hret, hc, hread, hstep]
    have hnext := ih n
      { s with
        conn := some { c with
          incoming := (ms.flatMap frameBytes ++ frameBytes ⟨MessageTypeCancel, p⟩ ++ rest) },
        trace := s.trace ++ [StdinEvent.read (.ok m)] }
      { c with incoming := (ms.flatMap frameBytes ++ frameBytes ⟨MessageTypeCancel, p⟩ ++ rest) }
      p rest rfl hn hcan hr rfl
      (fun m' hm' => hty m' (List.mem_cons_of_mem _ hm'))
      (fun m' hm' => hlen m' (List.mem_cons_of_mem _ hm')) hp
      (by simp at hfuel; omega)
    rw [hnext]
    simp

/-- The state in which `handleStdin` enters its loop. -/
theorem handleStdin_eq (c : Conn) (p : Pipe) (f : CancelFunc) :
    handleStdin (some c) (some p) (some f)
      = some (handleStdinLoop (c.incoming.length + 1)
          { conn := some c, pipe := p, stdinIsNil := false, canceled := false, trace := [],
            returned := false }) := rfl

/-- C13. Whatever the connection delivers to `handleStdin` (frames of any type, the end of
the stream, read errors), the proxy returns, and by then `cmdCancel` has been called at most
once and `canceled.Swap(true)` has returned `false` (the flag going from false to true) at
most once, namely exactly as often as `cmdCancel` was called; the flag is set if and only if
`cmdCancel` was called once. When one of the reads the proxy made returned a Cancel frame,
`cmdCancel` was called exactly once. -/
theorem handleStdin_cancel_once (conn : Option Conn) (stdin : Option Pipe)
    (cmdCancel : Option CancelFunc) (r : StdinProxy)
    (h : handleStdin conn stdin cmdCancel = some r) :
    r.returned = true ∧
    r.trace.count StdinEvent.cmdCancel ≤ 1 ∧
    r.trace.count (StdinEvent.swap false) ≤ 1 ∧
    r.trace.count (StdinEvent.swap false) = r.trace.count StdinEvent.cmdCancel ∧
    (r.canceled = true ↔ r.trace.count StdinEvent.cmdCancel = 1) ∧
    (r.trace.any StdinEvent.isCancelRead = true → r.trace.count StdinEvent.cmdCancel = 1) := by
  cases conn with
  | none => simp [handleStdin] at h
  | some c =>
  cases stdin with
  | none => simp [handleStdin] at h
  | some p =>
  cases cmdCancel with
  | none => simp [handleStdin] at h
  | some f =>
  rw [handleStdin_eq] at h
  simp only [Option.some.injEq] at h
  have hret := handleStdinLoop_returns (c.incoming.length + 1)
    { conn := some c, pipe := p, stdinIsNil := false, canceled := false, trace := [],
      returned := false } c rfl rfl (by omega)
  have hinv := (handleStdinLoop_cancel (c.incoming.length + 1)
    { conn := some c, pipe := p, stdinIsNil := false, canceled := false, trace := [],
      returned := false } ⟨rfl, rfl, rfl, rfl⟩ rfl).1 hret
  rw [h] at hret hinv
  obtain ⟨h1, h2, h3, h4⟩ := hinv
  exact ⟨hret, h1, by omega, h2, h3, h4⟩

/-- C13 at a Stdin frame followed by two Cancel frames: the proxy returns at the first Cancel
frame with one call of `cmdCancel`, and the second Cancel frame is left unread. -/
theorem handleStdin_cancel_once_witness :
    handleStdin (some (Conn.ofInput [7, 0, 0, 0, 1, 120, 6, 0, 0, 0, 0, 6, 0, 0, 0, 0]))
        (some Pipe.unlimited) (some ())
      = some { conn := some (Conn.ofInput [6, 0, 0, 0, 0]),
               pipe := { Pipe.unlimited with written := [120], closes := 1 },
               stdinIsNil := false, canceled := true,
               trace := [StdinEvent.read (.ok ⟨7, [120]⟩), StdinEvent.write [120] none,
                 StdinEvent.read (.ok ⟨6, []⟩), StdinEvent.swap false, StdinEvent.cmdCancel,
                 StdinEvent.close],
               returned := true } ∧
    List.count StdinEvent.cmdCancel
      [StdinEvent.read (.ok ⟨7, [120]⟩), StdinEvent.write [120] none,
       StdinEvent.read (.ok ⟨6, []⟩), StdinEvent.swap false, StdinEvent.cmdCancel,
       StdinEvent.close] = 1 :=
  ⟨by decide,
   (handleStdin_cancel_once
      (some (Conn.ofInput [7, 0, 0, 0, 1, 120, 6, 0, 0, 0, 0, 6, 0, 0, 0, 0]))
      (some Pipe.unlimited) (some ())
      { conn := some (Conn.ofInput [6, 0, 0, 0, 0]),
        pipe := { Pipe.unlimited with written := [120], closes := 1 },
        stdinIsNil := false, canceled := true,
        trace := [StdinEvent.read (.ok ⟨7, [120]⟩), StdinEvent.write [120] none,
          StdinEvent.read (.ok ⟨6, []⟩), StdinEvent.swap false, StdinEvent.cmdCancel,
          StdinEvent.close],
        returned := true } (by decide)).2.2.2.2.2 (by decide)⟩

/-- C14 fails at a Stdin frame whose write to the standard input of the subprocess fails,
followed by the end of the stream: `handleStdin` returns after the failed write (main.go
lines 394 to 397) with the flag `canceled` still false and without a call of `cmdCancel`;
the read that would have returned `io.EOF` is never made. -/
theorem handleStdin_failed_write_no_cancel :
    handleStdin (some (Conn.ofInput [7, 0, 0, 0, 1, 120]))
        (some { Pipe.unlimited with room := some 0 }) (some ())
      = some { conn := some (Conn.ofInput []),
               pipe := { Pipe.unlimited with room := some 0, closes := 1 },
               stdinIsNil := false, canceled := false,
               trace := [StdinEvent.read (.ok ⟨7, [120]⟩),
                 StdinEvent.write [120] (some (.osError (lit "broken pipe"))),
                 StdinEvent.close],
               returned := true } ∧
    (ReadMessage (some (Conn.ofInput []))).1 = .error GoError.EOF := by
  decide

/-- C15. Whatever the connection delivers to `handleStdin`, by the time the proxy has returned
the pipe to the standard input of the subprocess has been closed exactly once: its count of
`Close` calls is one more than at the start, and the calls made contain one `stdin.Close()`.
A StdinClose frame read when the variable `stdin` is already `nil` changes nothing but the
connection and the record of the read, and the deferred cleanup closes the pipe if and only
if the variable `stdin` is not `nil`. -/
theorem handleStdin_closes_once (conn : Option Conn) (p : Pipe)
    (cmdCancel : Option CancelFunc) (r : StdinProxy)
    (h : handleStdin conn (some p) cmdCancel = some r) :
    r.returned = true ∧
    r.pipe.closes = p.closes + 1 ∧
    r.trace.count StdinEvent.close = 1 ∧
    (∀ (s : StdinProxy) (m : Message) (conn' : Option Conn),
      s.stdinIsNil = true → m.MsgType = MessageTypeStdinClose →
      handleStdinStep s (.ok m, conn')
        = { s with conn := conn', trace := s.trace ++ [StdinEvent.read (.ok m)] }) ∧
    (∀ (s : StdinProxy),
      s.finish.pipe = (if s.stdinIsNil then s.pipe else s.pipe.Close) ∧
      s.finish.trace = (if s.stdinIsNil then s.trace else s.trace ++ [StdinEvent.close])) := by
  cases conn with
  | none => simp [handleStdin] at h
  | some c =>
  cases cmdCancel with
  | none => simp [handleStdin] at h
  | some f =>
  rw [handleStdin_eq] at h
  simp only [Option.some.injEq] at h
  have hret := handleStdinLoop_returns (c.incoming.length + 1)
    { conn := some c, pipe := p, stdinIsNil := false, canceled := false, trace := [],
      returned := false } c rfl rfl (by omega)
  have hinv := (handleStdinLoop_close p.closes (c.incoming.length + 1)
    { conn := some c, pipe := p, stdinIsNil := false, canceled := false, trace := [],
      returned := false } ⟨by simp, by simp⟩ rfl).1 hret
  rw [h] at hret hinv
  refine ⟨hret, hinv.1, hinv.2, ?_, ?_⟩
  · intro s m conn' hn hty
    exact handleStdinStep_ignored s m conn' hn (Or.inr hty)
  · intro s
    cases hn : s.stdinIsNil <;> simp [StdinProxy.finish, hn]

/-- C15 at two StdinClose frames followed by the end of the stream: the first closes the
pipe, the second and the cleanup close nothing. -/
theorem handleStdin_closes_once_witness :
    handleStdin (some (Conn.ofInput [8, 0, 0, 0, 0, 8, 0, 0, 0, 0]))
        (some Pipe.unlimited) (some ())
      = some { conn := some (Conn.ofInput []),
               pipe := { Pipe.unlimited with closes := 1 },
               stdinIsNil := true, canceled := true,
               trace := [StdinEvent.read (.ok ⟨8, []⟩), StdinEvent.close,
                 StdinEvent.read (.ok ⟨8, []⟩), StdinEvent.read (.error GoError.EOF),
                 StdinEvent.swap false, StdinEvent.cmdCancel],
               returned := true } ∧
    ({ Pipe.unlimited with closes := 1 } : Pipe).closes = Pipe.unlimited.closes + 1 :=
  ⟨by decide,
   (handleStdin_closes_once (some (Conn.ofInput [8, 0, 0, 0, 0, 8, 0, 0, 0, 0]))
      Pipe.unlimited (some ())
      { conn := some (Conn.ofInput []),
        pipe := { Pipe.unlimited with closes := 1 },
        stdinIsNil := true, canceled := true,
        trace := [StdinEvent.read (.ok ⟨8, []⟩), StdinEvent.close,
          StdinEvent.read (.ok ⟨8, []⟩), StdinEvent.read (.error GoError.EOF),
          StdinEvent.swap false, StdinEvent.cmdCancel],
        returned := true } (by decide)).2.1⟩

/-- C16. From any running state of the proxy that has not cancelled yet, a StdinClose frame
followed by any number of Stdin and StdinClose frames and then a Cancel frame is processed
as follows: every frame is read, the pipe is closed by the first StdinClose (if it was not
closed before) and by nothing else, nothing is written to the pipe, and at the Cancel frame
`canceled.Swap(true)` returns false, `cmdCancel` is called and the proxy returns. -/
theorem handleStdinLoop_after_stdinClose (fuel : Nat) (s : StdinProxy) (c : Conn)
    (p0 p rest : List Byte) (ms : List Message)
    (hc : s.conn = some c) (hcan : s.canceled = false) (hr : s.returned = false)
    (hin : c.incoming = frameBytes ⟨MessageTypeStdinClose, p0⟩
        ++ (ms.flatMap frameBytes ++ frameBytes ⟨MessageTypeCancel, p⟩ ++ rest))
    (hty : ∀ m ∈ ms, m.MsgType = MessageTypeStdin ∨ m.MsgType = MessageTypeStdinClose)
    (hlen : ∀ m ∈ ms, m.Payload.length ≤ 104857600)
    (hp0 : p0.length ≤ 104857600) (hp : p.length ≤ 104857600)
    (hfuel : ms.length + 2 ≤ fuel) :
    handleStdinLoop fuel s
      = { conn := some { c with incoming := rest },
          pipe := (if s.stdinIsNil then s.pipe else s.pipe.Close),
          stdinIsNil := true, canceled := true, returned := true,
          trace := s.trace
            ++ (StdinEvent.read (.ok ⟨MessageTypeStdinClose, p0⟩)
                :: (if s.stdinIsNil then [] else [StdinEvent.close]))
            ++ ms.map (fun m => StdinEvent.read (.ok m))
            ++ [StdinEvent.read (.ok ⟨MessageTypeCancel, p⟩), StdinEvent.swap false,
                StdinEvent.cmdCancel] } ∧
    (handleStdinLoop fuel s).pipe.written = s.pipe.written := by
  obtain ⟨n, rfl⟩ : ∃ n, fuel = n + 1 := ⟨fuel - 1, by omega⟩
  have hread : ReadMessage (some c)
      = (.ok ⟨MessageTypeStdinClose, p0⟩, some { c with
          incoming := (ms.flatMap frameBytes ++ frameBytes ⟨MessageTypeCancel, p⟩ ++ rest) }) :=
    ReadMessage_frame MessageTypeStdinClose p0 _ c hp0 (by rw [hin]; rfl)
  have key : handleStdinLoop (n + 1) s
      = { conn := some { c with incoming := rest },
          pipe := (if s.stdinIsNil then s.pipe else s.pipe.Close),
          stdinIsNil := true, canceled := true, returned := true,
          trace := s.trace
            ++ (StdinEvent.read (.ok ⟨MessageTypeStdinClose, p0⟩)
                :: (if s.stdinIsNil then [] else [StdinEvent.close]))
            ++ ms.map (fun m => StdinEvent.read (.ok m))
            ++ [StdinEvent.read (.ok ⟨MessageTypeCancel, p⟩), StdinEvent.swap false,
                StdinEvent.cmdCancel] } := by
    cases hn : s.stdinIsNil with
    | true =>
      have hstep := handleStdinStep_ignored s ⟨MessageTypeStdinClose, p0⟩
        (some { c with
          incoming := (ms.flatMap frameBytes ++ frameBytes ⟨MessageTypeCancel, p⟩ ++ rest) })
        hn (Or.inr rfl)
      have hret : (handleStdinStep s (ReadMessage s.conn)).returned = false := by
        rw [hc, hread, hstep]; exact hr
      rw [handleStdinLoop_succ_go n s hret, hc, hread, hstep]
      have hnext := handleStdinLoop_closed_then_cancel ms n
        { s with
          conn := some { c with
            incoming := (ms.flatMap frameBytes ++ frameBytes ⟨MessageTypeCancel, p⟩ ++ rest) },
          trace := s.trace ++ [StdinEvent.read (.ok ⟨MessageTypeStdinClose, p0⟩)] }
        { c with
          incoming := (ms.flatMap frameBytes ++ frameBytes ⟨MessageTypeCancel, p⟩ ++ rest) }
        p rest rfl hn hcan hr rfl hty hlen hp (by omega)
      rw [hnext]
      simp [hn]
    | false =>
      have hstep := handleStdinStep_close s ⟨MessageTypeStdinClose, p0⟩
        (some { c with
          incoming := (ms.flatMap frameBytes ++ frameBytes ⟨MessageTypeCancel, p⟩ ++ rest) })
        hn rfl
      have hret : (handleStdinStep s (ReadMessage s.conn)).returned = false := by
        rw [hc, hread, hstep]; exact hr
      rw [handleStdinLoop_succ_go n s hret, hc, hread, hstep]
      have hnext := handleStdinLoop_closed_then_cancel ms n
        { s with
          conn := some { c with
            incoming := (ms.flatMap frameBytes ++ frameBytes ⟨MessageTypeCancel, p⟩ ++ rest) },
          pipe := s.pipe.Close, stdinIsNil := true,
          trace := s.trace
            ++ [StdinEvent.read (.ok ⟨MessageTypeStdinClose, p0⟩), StdinEvent.close] }
        { c with
          incoming := (ms.flatMap frameBytes ++ frameBytes ⟨MessageTypeCancel, p⟩ ++ rest) }
        p rest rfl rfl hcan hr rfl hty hlen hp (by omega)
      rw [hnext]
      simp
  refine ⟨key, ?_⟩
  rw [key]
  cases s.stdinIsNil <;> simp [Pipe.Close]

/-- C16 at the frames StdinClose, Stdin "hi", StdinClose, Cancel. -/
theorem handleStdinLoop_after_stdinClose_witness :
    handleStdin
        (some (Conn.ofInput ([8, 0, 0, 0, 0] ++ ([7, 0, 0, 0, 2, 104, 105, 8, 0, 0, 0, 0]
          ++ [6, 0, 0, 0, 0] ++ []))))
        (some Pipe.unlimited) (some ())
      = some { conn := some (Conn.ofInput []),
               pipe := { Pipe.unlimited with closes := 1 },
               stdinIsNil := true, canceled := true, returned := true,
               trace := [StdinEvent.read (.ok ⟨8, []⟩), StdinEvent.close,
                 StdinEvent.read (.ok ⟨7, [104, 105]⟩), StdinEvent.read (.ok ⟨8, []⟩),
                 StdinEvent.read (.ok ⟨6, []⟩), StdinEvent.swap false,
                 StdinEvent.cmdCancel] } :=
  congrArg some
    (handleStdinLoop_after_stdinClose 18
      { conn := some (Conn.ofInput ([8, 0, 0, 0, 0] ++ ([7, 0, 0, 0, 2, 104, 105, 8, 0, 0, 0, 0]
          ++ [6, 0, 0, 0, 0] ++ []))),
        pipe := Pipe.unlimited, stdinIsNil := false, canceled := false, trace := [],
        returned := false }
      (Conn.ofInput ([8, 0, 0, 0, 0] ++ ([7, 0, 0, 0, 2, 104, 105, 8, 0, 0, 0, 0]
          ++ [6, 0, 0, 0, 0] ++ [])))
      [] [] [] [⟨7, [104, 105]⟩, ⟨8, []⟩]
      rfl rfl rfl (by decide) (by decide) (by decide) (by decide) (by decide) (by decide)).1

/-- C17. When `ReadMessage` fails in the loop of `handleStdin` with any error, the proxy does
what it does for `io.EOF`: it swaps the flag `canceled`, calls `cmdCancel` if the flag was
false, runs the cleanup and returns. The branch for a timeout is never taken, because every
error of `ReadMessage` other than the bare `io.EOF` is wrapped by `fmt.Errorf` and so is no
`net.Error`. -/
theorem handleStdin_read_error_as_eof (fuel : Nat) (s : StdinProxy) (c : Conn)
    (err : GoError) (conn' : Option Conn)
    (hc : s.conn = some c)
    (hread : ReadMessage (some c) = (.error err, conn')) :
    handleStdinLoop (fuel + 1) s
      = StdinProxy.finish (StdinProxy.cancelOnce
          { s with conn := conn', trace := s.trace ++ [StdinEvent.read (.error err)] }) ∧
    handleStdinStep s (.error GoError.EOF, conn')
      = StdinProxy.finish (StdinProxy.cancelOnce
          { s with conn := conn', trace := s.trace ++ [StdinEvent.read (.error GoError.EOF)] }) ∧
    (handleStdinLoop (fuel + 1) s).returned = true ∧
    (handleStdinLoop (fuel + 1) s).canceled = true ∧
    (s.canceled = false →
      (handleStdinLoop (fuel + 1) s).trace
        = s.trace ++ [StdinEvent.read (.error err), StdinEvent.swap false, StdinEvent.cmdCancel]
          ++ (if s.stdinIsNil then [] else [StdinEvent.close])) ∧
    (s.canceled = true →
      (handleStdinLoop (fuel + 1) s).trace
        = s.trace ++ [StdinEvent.read (.error err), StdinEvent.swap true]
          ++ (if s.stdinIsNil then [] else [StdinEvent.close])) := by
  have hnt := ReadMessage_error_not_timeout (some c) conn' err hread
  have hstep := handleStdinStep_error s err conn' hnt
  have hret : (handleStdinStep s (ReadMessage s.conn)).returned = true := by
    rw [hc, hread, hstep]; exact StdinProxy.finish_returned _
  have key : handleStdinLoop (fuel + 1) s
      = StdinProxy.finish (StdinProxy.cancelOnce
          { s with conn := conn', trace := s.trace ++ [StdinEvent.read (.error err)] }) := by
    rw [handleStdinLoop_succ_ret fuel s hret, hc, hread, hstep]
  refine ⟨key, handleStdinStep_error s GoError.EOF conn' rfl, ?_, ?_, ?_, ?_⟩
  · rw [key]; exact StdinProxy.finish_returned _
  · rw [key]
    cases hcan : s.canceled <;> cases hn : s.stdinIsNil <;>
      simp [StdinProxy.finish, StdinProxy.cancelOnce, hcan, hn]
  · intro hcan
    rw [key]
    cases hn : s.stdinIsNil <;> simp [StdinProxy.finish, StdinProxy.cancelOnce, hcan, hn]
  · intro hcan
    rw [key]
    cases hn : s.stdinIsNil <;> simp [StdinProxy.finish, StdinProxy.cancelOnce, hcan, hn]

/-- C17 at a read that times out before the first byte, and at a header that announces
200 MiB read when the standard input is already closed. -/
theorem handleStdin_read_error_as_eof_witness :
    handleStdin
        (some { Conn.ofInput [] with readEnd := .netError true (lit "i/o timeout") })
        (some Pipe.unlimited) (some ())
      = some { conn := some { Conn.ofInput [] with
                 readEnd := .netError true (lit "i/o timeout") },
               pipe := { Pipe.unlimited with closes := 1 },
               stdinIsNil := false, canceled := true, returned := true,
               trace := [StdinEvent.read (.error (.wrap (lit "error reading message type")
                   (.netError true (lit "i/o timeout")))),
                 StdinEvent.swap false, StdinEvent.cmdCancel, StdinEvent.close] } ∧
    (handleStdinLoop 3
        { conn := some (Conn.ofInput [7, 12, 128, 0, 0]), pipe := Pipe.unlimited,
          stdinIsNil := true, canceled := false, trace := [], returned := false }).trace.count
      StdinEvent.cmdCancel = 1 :=
  ⟨(congrArg some
      (handleStdin_read_error_as_eof 0
        { conn := some { Conn.ofInput [] with readEnd := .netError true (lit "i/o timeout") },
          pipe := Pipe.unlimited, stdinIsNil := false, canceled := false, trace := [],
          returned := false }
        { Conn.ofInput [] with readEnd := .netError true (lit "i/o timeout") }
        (.wrap (lit "error reading message type") (.netError true (lit "i/o timeout")))
        (some { Conn.ofInput [] with readEnd := .netError true (lit "i/o timeout") })
        rfl (by decide)).1).trans (by decide),
   (congrArg (fun t => List.count StdinEvent.cmdCancel t)
      ((handleStdin_read_error_as_eof 2
        { conn := some (Conn.ofInput [7, 12, 128, 0, 0]), pipe := Pipe.unlimited,
          stdinIsNil := true, canceled := false, trace := [], returned := false }
        (Conn.ofInput [7, 12, 128, 0, 0])
        (errPayloadTooLarge 209715200)
        (some (Conn.ofInput []))
        rfl (by decide)).2.2.2.2.1 rfl)).trans (by decide)⟩

/-! ## The exit code -/

/-- Every path of `handleConnection`, with the connection it leaves. `R` is the connection as
the read of the first frame leaves it. Either the subprocess was not started: then the
handler made no write at all and leaves `R`, or its only write is one Error frame and it
leaves what that `WriteMessage` leaves of `R`. Or the subprocess was started: then the calls
are the fourteen listed, the only write is the ExitCode frame after `cmd.Wait()`, its payload
is the one byte derived from the result of `cmd.Wait()`, and the handler leaves what that
`WriteMessage` leaves of `R`. -/
theorem handleConnection_paths (conn : Option Conn) (cfg : ServerConfig) (env : Env) :
    (Event.cmdWait ∉ (handleConnection conn cfg env).trace ∧
      (Event.cmdStart ∈ (handleConnection conn cfg env).trace → env.startErr ≠ none) ∧
      (∀ t d n, Event.go (.forwardOutput t d n) ∉ (handleConnection conn cfg env).trace) ∧
      (((handleConnection conn cfg env).trace.filter Event.isWrite = [] ∧
          (handleConnection conn cfg env).conn = (ReadMessage conn).2) ∨
       ∃ p, (handleConnection conn cfg env).trace.filter Event.isWrite
            = [Event.writeMessage MessageTypeError p] ∧
          (handleConnection conn cfg env).conn
            = (WriteMessage (ReadMessage conn).2 MessageTypeError p).2)) ∨
    (env.startErr = none ∧ ∃ name args id c' b,
      (ReadMessage conn).2 = some c' ∧
      (env.waitResult = .success → b = byteOfInt 0) ∧
      (∀ e, env.waitResult = .exitError e → b = byteOfInt e) ∧
      (∀ err, env.waitResult = .otherError err → b = byteOfInt 1) ∧
      (handleConnection conn cfg env).trace =
        [Event.commandContext name args, Event.stdinPipe, Event.stdoutPipe, Event.stderrPipe,
         Event.registryInsert id, Event.cmdStart, Event.go .killOnCancel,
         Event.go .handleStdin,
         Event.go (.forwardOutput MessageTypeStdout cfg.Debug (lit "stdout")),
         Event.go (.forwardOutput MessageTypeStderr cfg.Debug (lit "stderr")),
         Event.cmdWait,
         Event.writeMessage MessageTypeExitCode [b],
         Event.cmdCancel, Event.registryDelete id] ∧
      (handleConnection conn cfg env).conn
        = (WriteMessage (some c') MessageTypeExitCode [b]).2) := by
  cases conn with
  | none => left; simp [handleConnection, ReadMessage]
  | some c =>
    cases hr : ReadMessage (some c) with
    | mk r conn' =>
    cases r with
    | error e => left; simp [handleConnection, hr]
    | ok msg =>
    by_cases ht : msg.MsgType ≠ MessageTypeCommand
    · left; simp [handleConnection, hr, ht, Session.send, Event.isWrite]
    cases he : (ParseCommandMessage (some msg.Payload)).err with
    | some err =>
      left; simp [handleConnection, hr, ht, he, Session.send, Event.isWrite]
    | none =>
    by_cases hv : (ParseCommandMessage (some msg.Payload)).version ≠ ProtocolVersion
    · left; simp [handleConnection, hr, ht, he, hv, Session.send, Event.isWrite]
    cases hs : VerifySignature cfg.AuthSecret (ParseCommandMessage (some msg.Payload)).signature
      (ParseCommandMessage (some msg.Payload)).args with
    | false =>
      left; simp [handleConnection, hr, ht, he, hv, hs, Session.send, Event.isWrite]
    | true =>
    cases hst : env.statIsNotExist cfg.FFmpegPath with
    | true =>
      left
      simp [handleConnection, hr, ht, he, hv, hs, hst, Session.send, Event.isWrite]
    | false =>
    cases h1 : env.stdinPipeErr with
    | some e1 =>
      left
      simp [handleConnection, hr, ht, he, hv, hs, hst, h1, Session.send, Session.record,
        Event.isWrite]
    | none =>
    cases h2 : env.stdoutPipeErr with
    | some e2 =>
      left
      simp [handleConnection, hr, ht, he, hv, hs, hst, h1, h2, Session.send, Session.record,
        Event.isWrite]
    | none =>
    cases h3 : env.stderrPipeErr with
    | some e3 =>
      left
      simp [handleConnection, hr, ht, he, hv, hs, hst, h1, h2, h3, Session.send,
        Session.record, Event.isWrite]
    | none =>
    cases h4 : env.startErr with
    | some e4 =>
      left
      simp [handleConnection, hr, ht, he, hv, hs, hst, h1, h2, h3, h4, Session.send,
        Session.record, Event.isWrite]
    | none =>
      right
      obtain ⟨c', hc'⟩ : ∃ c', conn' = some c' := by
        have := ReadMessage_conn_some c
        rw [hr] at this
        exact this
      subst hc'
      refine ⟨rfl, cfg.FFmpegPath,
        RewriteCommandArgs env.replaceAll (ParseCommandMessage (some msg.Payload)).args
          cfg.Rewrites, c.remoteAddr ++ lit "-" ++ fmtInt env.now, c',
        byteOfInt (match env.waitResult with
          | .success => 0
          | .exitError code => code
          | .otherError _ => 1), rfl, ?_, ?_, ?_, ?_, ?_⟩
      · intro h; rw [h]
      · intro e h; rw [h]
      · intro err h; rw [h]
      · simp only [handleConnection, hr, ht, he, hv, hs, hst, h1, h2, h3, h4, Session.send,
          Session.record]
        cases env.waitResult <;> simp
      · simp only [handleConnection, hr, ht, he, hv, hs, hst, h1, h2, h3, h4, Session.send,
          Session.record]
        cases env.waitResult <;> rfl

/-- A write of an ExitCode frame is a write. -/
theorem filter_isExitCodeWrite (l : List Event) :
    l.filter Event.isExitCodeWrite = (l.filter Event.isWrite).filter Event.isExitCodeWrite := by
  rw [List.filter_filter]
  congr 1
  funext ev
  cases ev <;> simp [Event.isExitCodeWrite, Event.isWrite]

/-- The bytes of a frame with a payload of one byte. -/
theorem frame_one_byte (t b : Byte) :
    [t] ++ be32 (u32 [b].length) ++ [b] = [t, 0, 0, 0, 1, b] := by
  have h1 : be32 (u32 1) = [0, 0, 0, 1] := by decide
  show [t] ++ be32 (u32 1) ++ [b] = _
  rw [h1]; rfl

/-- On a connection that accepts every write, the ExitCode frame leaves its six bytes. -/
theorem WriteMessage_exitCode (c : Conn) (b : Byte) (h : c.writeRoom = none) :
    (WriteMessage (some c) MessageTypeExitCode [b]).2
      = some { c with sent := c.sent ++ [4, 0, 0, 0, 1, b] } := by
  rw [WriteMessage_unlimited _ _ _ h, frame_one_byte]
  rfl

/-- C11. Among the calls of `handleConnection`: when `cmd.Start()` was called and returned no
error, the handler makes exactly one `WriteMessage`, it is the write of an ExitCode frame with
a payload of one byte, it comes directly after `cmd.Wait()`, which comes after `cmd.Start()`,
and the connection the handler leaves is what this `WriteMessage` leaves of the connection
after the first read: on a connection that accepts every write the six bytes 4, 0, 0, 0, 1
and the payload are appended to what was sent, and nothing else. When `cmd.Start()` was not
called or failed (no connection, a first frame that is unreadable or not a Command, a payload
that does not parse, a wrong signature, a missing binary, a pipe that cannot be created), no
ExitCode frame is written: the handler writes nothing and leaves the connection as the first
read left it, or its only write is one Error frame and it leaves what that write leaves. The
goroutines that forward output are started for the types Stdout and Stderr, never for
ExitCode. -/
theorem handleConnection_exit_code_once (conn : Option Conn) (cfg : ServerConfig) (env : Env) :
    ((Event.cmdStart ∈ (handleConnection conn cfg env).trace ∧ env.startErr = none) →
      ((handleConnection conn cfg env).trace.filter Event.isExitCodeWrite).length = 1 ∧
      ∃ pre post b c',
        (handleConnection conn cfg env).trace
          = pre ++ [Event.cmdWait, Event.writeMessage MessageTypeExitCode [b]] ++ post ∧
        Event.cmdStart ∈ pre ∧ pre.filter Event.isWrite = [] ∧
        post.filter Event.isWrite = [] ∧
        pre.filter Event.isExitCodeWrite = [] ∧ post.filter Event.isExitCodeWrite = [] ∧
        (ReadMessage conn).2 = some c' ∧
        (handleConnection conn cfg env).conn
          = (WriteMessage (some c') MessageTypeExitCode [b]).2 ∧
        (c'.writeRoom = none →
          (handleConnection conn cfg env).conn
            = some { c' with sent := c'.sent ++ [4, 0, 0, 0, 1, b] })) ∧
    (¬ (Event.cmdStart ∈ (handleConnection conn cfg env).trace ∧ env.startErr = none) →
      (handleConnection conn cfg env).trace.filter Event.isExitCodeWrite = [] ∧
      (((handleConnection conn cfg env).trace.filter Event.isWrite = [] ∧
          (handleConnection conn cfg env).conn = (ReadMessage conn).2) ∨
       ∃ p, (handleConnection conn cfg env).trace.filter Event.isWrite
            = [Event.writeMessage MessageTypeError p] ∧
          (handleConnection conn cfg env).conn
            = (WriteMessage (ReadMessage conn).2 MessageTypeError p).2)) ∧
    (∀ t d n, Event.go (.forwardOutput t d n) ∈ (handleConnection conn cfg env).trace →
      t ≠ MessageTypeExitCode) := by
  rcases handleConnection_paths conn cfg env with
    ⟨_, hs, hg, hw⟩ | ⟨hst, name, args, id, c', b, hR, _, _, _, htr, hconn⟩
  · refine ⟨fun h => absurd h.2 (hs h.1), fun _ => ⟨?_, hw⟩,
      fun t d n hmem => absurd hmem (hg t d n)⟩
    rw [filter_isExitCodeWrite]
    rcases hw with ⟨h, _⟩ | ⟨p, h, _⟩
    · rw [h]; rfl
    · rw [h]; rfl
  · refine ⟨fun _ => ⟨by rw [htr]; simp [Event.isExitCodeWrite, MessageTypeExitCode],
      [Event.commandContext name args, Event.stdinPipe, Event.stdoutPipe, Event.stderrPipe,
        Event.registryInsert id, Event.cmdStart, Event.go .killOnCancel,
        Event.go .handleStdin,
        Event.go (.forwardOutput MessageTypeStdout cfg.Debug (lit "stdout")),
        Event.go (.forwardOutput MessageTypeStderr cfg.Debug (lit "stderr"))],
      [Event.cmdCancel, Event.registryDelete id], b, c',
      by rw [htr]; rfl, by simp, by simp [Event.isWrite], by simp [Event.isWrite],
      by simp [Event.isExitCodeWrite], by simp [Event.isExitCodeWrite], hR, hconn,
      fun hroom => by rw [hconn, WriteMessage_exitCode c' b hroom]⟩, ?_, ?_⟩
    · intro h; exact absurd ⟨by rw [htr]; simp, hst⟩ h
    · intro t d n hmem
      rw [htr] at hmem
      simp at hmem
      rcases hmem with ⟨h, _, _⟩ | ⟨h, _, _⟩ <;> rw [h] <;> decide

set_option maxRecDepth 1000000 in
/-- C11 at the command for "-version" signed with the secret of the server, which starts the
subprocess: one ExitCode write, and the six bytes of the frame are all the handler has sent.
And at the same command signed with another secret, which is rejected: no ExitCode write, and
the bytes sent are those of the Error frame. -/
theorem handleConnection_exit_code_once_witness :
    ((handleConnection
        (some (Conn.ofInput ([1, 0, 0, 0, 73] ++ commandPayload (lit "right") [lit "-version"])))
        ServerConfig.sample Env.sample).trace.filter Event.isExitCodeWrite).length = 1 ∧
    (handleConnection
        (some (Conn.ofInput ([1, 0, 0, 0, 73] ++ commandPayload (lit "right") [lit "-version"])))
        ServerConfig.sample Env.sample).conn = some { Conn.ofInput [] with
          sent := [4, 0, 0, 0, 1, 0] } ∧
    (handleConnection
        (some (Conn.ofInput ([1, 0, 0, 0, 73] ++ commandPayload (lit "wrong") [lit "-version"])))
        ServerConfig.sample Env.sample).trace.filter Event.isExitCodeWrite = [] ∧
    (handleConnection
        (some (Conn.ofInput ([1, 0, 0, 0, 73] ++ commandPayload (lit "wrong") [lit "-version"])))
        ServerConfig.sample Env.sample).conn = some { Conn.ofInput [] with
          sent := [5, 0, 0, 0, 40] ++ lit "Authentication failed: invalid signature" } :=
  ⟨((handleConnection_exit_code_once
      (some (Conn.ofInput ([1, 0, 0, 0, 73] ++ commandPayload (lit "right") [lit "-version"])))
      ServerConfig.sample Env.sample).1 ⟨by decide, rfl⟩).1,
   by decide,
   ((handleConnection_exit_code_once
      (some (Conn.ofInput ([1, 0, 0, 0, 73] ++ commandPayload (lit "wrong") [lit "-version"])))
      ServerConfig.sample Env.sample).2.1 (by decide)).1,
   by decide⟩

theorem byteOfInt_val (e : Int) : ((byteOfInt e).val : Int) = e % 256 := by
  simp only [byteOfInt, byteOf]
  omega

/-- Reading an ExitCode frame of one byte ends the message loop with that byte and no error. -/
theorem processServerMessagesLoop_exitCode (fuel : Nat) (s : ClientLoop) (c : Conn)
    (ctx : Context) (b : Byte) (rest : List Byte)
    (hc : s.conn = some c) (hx : s.ctx = some ctx) (hd : ctx.isDone = false)
    (hin : c.incoming = [4, 0, 0, 0, 1, b] ++ rest) :
    processServerMessagesLoop (fuel + 1) s
      = { s with conn := some { c with incoming := rest }, ctx := some ctx.afterPoll,
                 result := some (.returned (Int.ofNat b.val) none) } := by
  have hread : ReadMessage (some c) = (.ok ⟨4, [b]⟩, some { c with incoming := rest }) :=
    ReadMessage_frame 4 [b] rest c (by simp) (by rw [hin, frame_one_byte])
  simp only [processServerMessagesLoop, hx, hc, Option.map_some', Option.getD_some, hd,
    Bool.false_eq_true, if_false, hread]
  simp [MessageTypeStdout, MessageTypeStderr, MessageTypeExitCode]

/-- The ExitCode frame of a handler that has waited for the subprocess: its payload is the
byte derived from the result of `cmd.Wait()`, it is the only write, and it is on the
connection. -/
theorem handleConnection_exit_frame (conn : Option Conn) (cfg : ServerConfig) (env : Env)
    (b : Byte)
    (hb : (env.waitResult = .success ∧ b = byteOfInt 0) ∨
      (∃ e, env.waitResult = .exitError e ∧ b = byteOfInt e) ∨
      (∃ err, env.waitResult = .otherError err ∧ b = byteOfInt 1))
    (hmem : Event.cmdWait ∈ (handleConnection conn cfg env).trace) :
    (handleConnection conn cfg env).trace.filter Event.isWrite
      = [Event.writeMessage MessageTypeExitCode [b]] ∧
    (handleConnection conn cfg env).trace.filter Event.isExitCodeWrite
      = [Event.writeMessage MessageTypeExitCode [b]] ∧
    ∃ c', (ReadMessage conn).2 = some c' ∧
      (handleConnection conn cfg env).conn
        = (WriteMessage (some c') MessageTypeExitCode [b]).2 ∧
      (c'.writeRoom = none →
        (handleConnection conn cfg env).conn
          = some { c' with sent := c'.sent ++ [4, 0, 0, 0, 1, b] }) := by
  rcases handleConnection_paths conn cfg env with
    ⟨hnot, _⟩ | ⟨_, name, args, id, c', b', hR, w1, w2, w3, htr, hconn⟩
  · exact absurd hmem hnot
  · have hbb : b' = b := by
      rcases hb with ⟨h, e⟩ | ⟨x, h, e⟩ | ⟨x, h, e⟩
      · rw [e]; exact w1 h
      · rw [e]; exact w2 x h
      · rw [e]; exact w3 x h
    subst hbb
    refine ⟨by rw [htr]; simp [Event.isWrite],
      by rw [htr]; simp [Event.isExitCodeWrite, MessageTypeExitCode], c', hR, hconn,
      fun hroom => by rw [hconn, WriteMessage_exitCode c' b' hroom]⟩

/-- C12. For every integer exit code `e` of the subprocess, reported by `cmd.Wait()` as an
`*exec.ExitError` with that code or, for `e = 0`, as `nil`: the only frame the handler
writes is an ExitCode frame with the one-byte payload `byte(e)`, whose value is `e mod 256`,
and the handler leaves its connection with that frame written: on a connection that accepts
every write, the six bytes 4, 0, 0, 0, 1, `byte(e)` appended to what was sent. When
`cmd.Wait()` fails with another error the payload is 1. The message loop of the client that
reads the six bytes (with a context that is not cancelled) returns the exit code `e mod 256`
and no error. That value lies in 0..255, equals `e` when `0 ≤ e ≤ 255`, and is 255 for
`e = -1`. -/
theorem exit_code_low_byte (e : Int) :
    (∀ (conn : Option Conn) (cfg : ServerConfig) (env : Env),
      (env.waitResult = .exitError e ∨ (e = 0 ∧ env.waitResult = .success)) →
      Event.cmdWait ∈ (handleConnection conn cfg env).trace →
      (handleConnection conn cfg env).trace.filter Event.isWrite
        = [Event.writeMessage MessageTypeExitCode [byteOfInt e]] ∧
      (handleConnection conn cfg env).trace.filter Event.isExitCodeWrite
        = [Event.writeMessage MessageTypeExitCode [byteOfInt e]] ∧
      ∃ c', (ReadMessage conn).2 = some c' ∧
        (handleConnection conn cfg env).conn
          = (WriteMessage (some c') MessageTypeExitCode [byteOfInt e]).2 ∧
        (c'.writeRoom = none →
          (handleConnection conn cfg env).conn
            = some { c' with sent := c'.sent ++ [4, 0, 0, 0, 1, byteOfInt e] })) ∧
    (∀ (conn : Option Conn) (cfg : ServerConfig) (env : Env) (err : GoError),
      env.waitResult = .otherError err →
      Event.cmdWait ∈ (handleConnection conn cfg env).trace →
      (handleConnection conn cfg env).trace.filter Event.isWrite
        = [Event.writeMessage MessageTypeExitCode [1]] ∧
      ∃ c', (ReadMessage conn).2 = some c' ∧
        (handleConnection conn cfg env).conn
          = (WriteMessage (some c') MessageTypeExitCode [1]).2) ∧
    ((byteOfInt e).val : Int) = e % 256 ∧
    (∀ (fuel : Nat) (s : ClientLoop) (c : Conn) (ctx : Context) (rest : List Byte),
      s.conn = some c → s.ctx = some ctx → ctx.isDone = false →
      c.incoming = [4, 0, 0, 0, 1, byteOfInt e] ++ rest →
      (processServerMessagesLoop (fuel + 1) s).result = some (.returned (e % 256) none)) ∧
    (∀ (c : Conn) (ctx : Context) (out err : StdFile) (rest : List Byte),
      ctx.isDone = false →
      c.incoming = [4, 0, 0, 0, 1, byteOfInt e] ++ rest →
      (processServerMessages (some ctx) (some c) out err).result
        = some (.returned (e % 256) none)) ∧
    (0 ≤ e % 256 ∧ e % 256 ≤ 255) ∧
    (0 ≤ e → e ≤ 255 → e % 256 = e) ∧
    (e = -1 → e % 256 = 255) := by
  have hloop : ∀ (fuel : Nat) (s : ClientLoop) (c : Conn) (ctx : Context) (rest : List Byte),
      s.conn = some c → s.ctx = some ctx → ctx.isDone = false →
      c.incoming = [4, 0, 0, 0, 1, byteOfInt e] ++ rest →
      (processServerMessagesLoop (fuel + 1) s).result = some (.returned (e % 256) none) := by
    intro fuel s c ctx rest hc hx hd hin
    rw [processServerMessagesLoop_exitCode fuel s c ctx (byteOfInt e) rest hc hx hd hin]
    simp only [Int.ofNat_eq_coe, byteOfInt_val]
  refine ⟨?_, ?_, byteOfInt_val e, hloop, ?_, ⟨by omega, by omega⟩, fun _ _ => by omega,
    fun h => by omega⟩
  · intro conn cfg env hw hmem
    refine handleConnection_exit_frame conn cfg env (byteOfInt e) ?_ hmem
    rcases hw with h | ⟨h0, h⟩
    · exact Or.inr (Or.inl ⟨e, h, rfl⟩)
    · exact Or.inl ⟨h, by rw [h0]⟩
  · intro conn cfg env err hw hmem
    obtain ⟨h1, _, c', h2, h3, _⟩ := handleConnection_exit_frame conn cfg env (byteOfInt 1)
      (Or.inr (Or.inr ⟨err, hw, rfl⟩)) hmem
    exact ⟨h1, c', h2, h3⟩
  · intro c ctx out err rest hd hin
    exact hloop _ _ c ctx rest rfl rfl hd hin

set_option maxRecDepth 1000000 in
/-- C12 at the exit code -1, where the handler sends the payload 255, and at the exit code
0, which `cmd.Wait()` reports as `nil`, where it sends the payload 0; and at a client that
reads the payload 255 and one that reads the payload 3. -/
theorem exit_code_low_byte_witness :
    (handleConnection
        (some (Conn.ofInput ([1, 0, 0, 0, 73] ++ commandPayload (lit "right") [lit "-version"])))
        ServerConfig.sample { Env.sample with waitResult := .exitError (-1) }).conn
      = some { Conn.ofInput [] with sent := [4, 0, 0, 0, 1, 255] } ∧
    (handleConnection
        (some (Conn.ofInput ([1, 0, 0, 0, 73] ++ commandPayload (lit "right") [lit "-version"])))
        ServerConfig.sample Env.sample).trace.filter Event.isWrite
      = [Event.writeMessage 4 [0]] ∧
    (processServerMessages (some ⟨none⟩) (some (Conn.ofInput [4, 0, 0, 0, 1, 255]))
        StdFile.sink StdFile.sink).result = some (.returned 255 none) ∧
    (processServerMessages (some ⟨none⟩) (some (Conn.ofInput [4, 0, 0, 0, 1, 3, 9]))
        StdFile.sink StdFile.sink).result = some (.returned 3 none) :=
  ⟨by decide,
   ((exit_code_low_byte 0).1
      (some (Conn.ofInput ([1, 0, 0, 0, 73] ++ commandPayload (lit "right") [lit "-version"])))
      ServerConfig.sample Env.sample (Or.inr ⟨rfl, rfl⟩) (by decide)).1,
   ((exit_code_low_byte (-1)).2.2.2.2.1 (Conn.ofInput [4, 0, 0, 0, 1, 255]) ⟨none⟩
      StdFile.sink StdFile.sink [] (by decide) (by decide)).trans (by decide),
   ((exit_code_low_byte 3).2.2.2.2.1 (Conn.ofInput [4, 0, 0, 0, 1, 3, 9]) ⟨none⟩
      StdFile.sink StdFile.sink [9] (by decide) (by decide)).trans (by decide)⟩

/-! ## The message loop of the client -/

/-- What a successful `io.ReadFull` took from the connection. -/
theorem readFull_ok_inv (c c' : Conn) (n : Nat) (b : List Byte)
    (h : readFull c n = (.ok b, c')) :
    c.incoming = b ++ c'.incoming ∧ b.length = n ∧ c' = { c with incoming := c'.incoming } := by
  unfold readFull at h
  split at h
  · rename_i hle
    simp only [Prod.mk.injEq, Except.ok.injEq] at h
    obtain ⟨hb, hc⟩ := h
    subst hb hc
    simp [List.length_take, hle]
  · simp at h

/-- Four bytes are the big-endian encoding of the number they decode to. -/
theorem be32_beNat (l : List Byte) (h : l.length = 4) : be32 (u32 (beNat l)) = l := by
  match l, h with
  | [b0, b1, b2, b3], _ =>
    have h0 := b0.isLt
    have h1 := b1.isLt
    have h2 := b2.isLt
    have h3 := b3.isLt
    simp only [beNat, be32, byteOf, u32, List.foldl_cons, List.foldl_nil,
      Nat.shiftRight_eq_div_pow, List.cons.injEq, and_true]
    refine ⟨?_, ?_, ?_, ?_⟩ <;> apply Fin.ext <;> simp only <;> omega

/-- A message that `ReadMessage` returned was on the connection as a frame. -/
theorem ReadMessage_ok_inv (c : Conn) (m : Message) (conn' : Option Conn)
    (h : ReadMessage (some c) = (.ok m, conn')) :
    ∃ c', conn' = some c' ∧ c.incoming = frameBytes m ++ c'.incoming ∧
      m.Payload.length ≤ 104857600 ∧ c' = { c with incoming := c'.incoming } := by
  unfold ReadMessage at h
  simp only at h
  split at h
  · split at h <;> simp at h
  · rename_i typeBuf c1 h1
    obtain ⟨i1, l1, e1⟩ := readFull_ok_inv _ _ _ _ h1
    split at h
    · simp at h
    · rename_i lenBuf c2 h2
      obtain ⟨i2, l2, e2⟩ := readFull_ok_inv _ _ _ _ h2
      have htb : typeBuf = [typeBuf.getD 0 0] := by
        match typeBuf, l1 with
        | [t], _ => rfl
      split at h
      · simp at h
      · rename_i hbig
        split at h
        · split at h
          · simp at h
          · rename_i payload c3 h3
            obtain ⟨i3, l3, e3⟩ := readFull_ok_inv _ _ _ _ h3
            simp only [Prod.mk.injEq, Except.ok.injEq] at h
            obtain ⟨hm, hc⟩ := h
            subst hm hc
            refine ⟨c3, rfl, ?_, ?_, ?_⟩
            · simp only [frameBytes]
              rw [l3, be32_beNat lenBuf l2, i1, i2, i3, ← htb]
              simp
            · simp only [l3]; omega
            · rw [e3, e2, e1]
        · rename_i hpos
          simp only [Prod.mk.injEq, Except.ok.injEq] at h
          obtain ⟨hm, hc⟩ := h
          subst hm hc
          refine ⟨c2, rfl, ?_, by simp, ?_⟩
          · have hz : beNat lenBuf = 0 := by omega
            have hb := be32_beNat lenBuf l2
            rw [hz] at hb
            simp only [frameBytes, List.length_nil]
            rw [hb, i1, i2, ← htb]
            simp
          · rw [e2, e1]

/-- A write to a file whose every write succeeds. -/
theorem StdFile.Write_ok (f : StdFile) (b : List Byte) (h : f.outcomes = []) :
    f.Write b = (.ok, { f with written := f.written ++ b }) := by
  simp [StdFile.Write, h]

/-- An iteration of the message loop that finds the context cancelled. -/
theorem processServerMessagesLoop_done (n : Nat) (s : ClientLoop)
    (hd : (s.ctx.map Context.isDone).getD false = true) :
    processServerMessagesLoop (n + 1) s
      = { s with conn := (WriteMessage s.conn MessageTypeCancel []).2,
                 result := some (.returned 1
                   (some (.errorf (lit "operation canceled by user or timeout")))) } := by
  simp [processServerMessagesLoop, hd]

/-- An iteration of the message loop whose read fails. -/
theorem processServerMessagesLoop_read_error (n : Nat) (s : ClientLoop) (e : GoError)
    (conn' : Option Conn)
    (hd : (s.ctx.map Context.isDone).getD false = false)
    (hread : ReadMessage s.conn = (.error e, conn')) :
    processServerMessagesLoop (n + 1) s
      = { s with ctx := s.ctx.map Context.afterPoll, conn := conn',
                 result := some (.returned 1 (some (if e = GoError.EOF
                   then .errorf (lit "connection closed by server unexpectedly")
                   else .wrap (lit "error reading server message") e))) } := by
  by_cases he : e = GoError.EOF
  · simp [processServerMessagesLoop, hd, hread, he]
  · simp [processServerMessagesLoop, hd, hread, he]

/-- An iteration of the message loop that reads a Stdout frame. -/
theorem processServerMessagesLoop_stdout (n : Nat) (s : ClientLoop) (msg : Message)
    (conn' : Option Conn)
    (hd : (s.ctx.map Context.isDone).getD false = false)
    (hread : ReadMessage s.conn = (.ok msg, conn'))
    (hty : msg.MsgType = MessageTypeStdout) :
    processServerMessagesLoop (n + 1) s
      = match s.stdout.Write msg.Payload with
        | (.error _ err, stdout) =>
          { s with ctx := s.ctx.map Context.afterPoll, conn := conn', stdout := stdout,
                   result := some (.returned 1
                     (some (.wrap (lit "error writing to stdout") err))) }
        | (.sigpipe, stdout) =>
          { s with ctx := s.ctx.map Context.afterPoll, conn := conn', stdout := stdout,
                   result := some .killed }
        | (.ok, stdout) =>
          processServerMessagesLoop n
            { s with ctx := s.ctx.map Context.afterPoll, conn := conn', stdout := stdout } := by
  simp only [processServerMessagesLoop, hd, hread, hty]
  simp only [Bool.false_eq_true, if_false, if_true]

/-- An iteration of the message loop that reads a Stderr frame. -/
theorem processServerMessagesLoop_stderr (n : Nat) (s : ClientLoop) (msg : Message)
    (conn' : Option Conn)
    (hd : (s.ctx.map Context.isDone).getD false = false)
    (hread : ReadMessage s.conn = (.ok msg, conn'))
    (hty : msg.MsgType = MessageTypeStderr) :
    processServerMessagesLoop (n + 1) s
      = match s.stderr.Write msg.Payload with
        | (.error _ err, stderr) =>
          { s with ctx := s.ctx.map Context.afterPoll, conn := conn', stderr := stderr,
                   result := some (.returned 1
                     (some (.wrap (lit "error writing to stderr") err))) }
        | (.sigpipe, stderr) =>
          { s with ctx := s.ctx.map Context.afterPoll, conn := conn', stderr := stderr,
                   result := some .killed }
        | (.ok, stderr) =>
          processServerMessagesLoop n
            { s with ctx := s.ctx.map Context.afterPoll, conn := conn', stderr := stderr } := by
  have d : MessageTypeStderr ≠ MessageTypeStdout := by decide
  simp only [processServerMessagesLoop, hd, hread, hty]
  simp only [Bool.false_eq_true, if_false, if_true, d]

/-- An iteration of the message loop that reads an ExitCode frame. -/
theorem processServerMessagesLoop_exit (n : Nat) (s : ClientLoop) (msg : Message)
    (conn' : Option Conn)
    (hd : (s.ctx.map Context.isDone).getD false = false)
    (hread : ReadMessage s.conn = (.ok msg, conn'))
    (hty : msg.MsgType = MessageTypeExitCode) :
    processServerMessagesLoop (n + 1) s
      = { s with ctx := s.ctx.map Context.afterPoll, conn := conn',
                 result := some (.returned (if msg.Payload.length > 0
                   then Int.ofNat (msg.Payload.getD 0 0).val else 0) none) } := by
  have d1 : MessageTypeExitCode ≠ MessageTypeStdout := by decide
  have d2 : MessageTypeExitCode ≠ MessageTypeStderr := by decide
  by_cases hp : msg.Payload.length > 0
  · simp [processServerMessagesLoop, hd, hread, hty, d1, d2, hp]
  · simp [processServerMessagesLoop, hd, hread, hty, d1, d2, hp]

/-- An iteration of the message loop that reads an Error frame. -/
theorem processServerMessagesLoop_error (n : Nat) (s : ClientLoop) (msg : Message)
    (conn' : Option Conn)
    (hd : (s.ctx.map Context.isDone).getD false = false)
    (hread : ReadMessage s.conn = (.ok msg, conn'))
    (hty : msg.MsgType = MessageTypeError) :
    processServerMessagesLoop (n + 1) s
      = { s with ctx := s.ctx.map Context.afterPoll, conn := conn',
                 result := some (.returned 1
                   (some (.errorf (lit "server error: " ++ msg.Payload)))) } := by
  have d1 : MessageTypeError ≠ MessageTypeStdout := by decide
  have d2 : MessageTypeError ≠ MessageTypeStderr := by decide
  have d3 : MessageTypeError ≠ MessageTypeExitCode := by decide
  simp [processServerMessagesLoop, hd, hread, hty, d1, d2, d3]

/-- An iteration of the message loop that reads a frame of any other type. -/
theorem processServerMessagesLoop_other (n : Nat) (s : ClientLoop) (msg : Message)
    (conn' : Option Conn)
    (hd : (s.ctx.map Context.isDone).getD false = false)
    (hread : ReadMessage s.conn = (.ok msg, conn'))
    (h1 : msg.MsgType ≠ MessageTypeStdout) (h2 : msg.MsgType ≠ MessageTypeStderr)
    (h3 : msg.MsgType ≠ MessageTypeExitCode) (h4 : msg.MsgType ≠ MessageTypeError) :
    processServerMessagesLoop (n + 1) s
      = processServerMessagesLoop n
          { s with ctx := s.ctx.map Context.afterPoll, conn := conn' } := by
  simp [processServerMessagesLoop, hd, hread, h1, h2, h3, h4]

/-- The message loop returns within one iteration more than the connection holds bytes. -/
theorem processServerMessagesLoop_returns :
    ∀ (fuel : Nat) (s : ClientLoop) (c : Conn), s.conn = some c → c.incoming.length < fuel →
      (processServerMessagesLoop fuel s).result ≠ none := by
  intro fuel
  induction fuel with
  | zero => intro s c _ h; omega
  | succ n ih =>
    intro s c hc hlen
    by_cases hd : (s.ctx.map Context.isDone).getD false = true
    · rw [processServerMessagesLoop_done n s hd]; simp
    · have hd' : (s.ctx.map Context.isDone).getD false = false := by simpa using hd
      cases hread : ReadMessage s.conn with
      | mk r conn' =>
      cases r with
      | error e => rw [processServerMessagesLoop_read_error n s e conn' hd' hread]; simp
      | ok msg =>
        obtain ⟨c', hc', hin, _, _⟩ := ReadMessage_ok_inv c msg conn' (by rw [← hc]; exact hread)
        have hl : c'.incoming.length < n := by
          have := congrArg List.length hin
          simp only [frameBytes, List.length_append, List.length_singleton, be32_length] at this
          omega
        by_cases h1 : msg.MsgType = MessageTypeStdout
        · rw [processServerMessagesLoop_stdout n s msg conn' hd' hread h1]
          cases hw : s.stdout.Write msg.Payload with
          | mk o out' =>
          cases o with
          | ok => exact ih _ c' hc' hl
          | error k err => simp
          | sigpipe => simp
        · by_cases h2 : msg.MsgType = MessageTypeStderr
          · rw [processServerMessagesLoop_stderr n s msg conn' hd' hread h2]
            cases hw : s.stderr.Write msg.Payload with
            | mk o out' =>
            cases o with
            | ok => exact ih _ c' hc' hl
            | error k err => simp
            | sigpipe => simp
          · by_cases h3 : msg.MsgType = MessageTypeExitCode
            · rw [processServerMessagesLoop_exit n s msg conn' hd' hread h3]; simp
            · by_cases h4 : msg.MsgType = MessageTypeError
              · rw [processServerMessagesLoop_error n s msg conn' hd' hread h4]; simp
              · rw [processServerMessagesLoop_other n s msg conn' hd' hread h1 h2 h3 h4]
                exact ih _ c' hc' hl

/-- A result without error comes from an ExitCode frame that follows frames which are
neither ExitCode nor Error frames. -/
theorem processServerMessagesLoop_no_error :
    ∀ (fuel : Nat) (s : ClientLoop) (c : Conn) (code : Int), s.conn = some c →
      s.result = none → (processServerMessagesLoop fuel s).result = some (.returned code none) →
      ∃ (ms : List Message) (p rest : List Byte),
        c.incoming = ms.flatMap frameBytes ++ (frameBytes ⟨MessageTypeExitCode, p⟩ ++ rest) ∧
        (∀ m ∈ ms, m.MsgType ≠ MessageTypeExitCode ∧ m.MsgType ≠ MessageTypeError) ∧
        code = (if p.length > 0 then Int.ofNat (p.getD 0 0).val else 0) := by
  intro fuel
  induction fuel with
  | zero =>
    intro s c code _ hres h
    simp [processServerMessagesLoop, hres] at h
  | succ n ih =>
    intro s c code hc hres h
    by_cases hd : (s.ctx.map Context.isDone).getD false = true
    · rw [processServerMessagesLoop_done n s hd] at h; simp at h
    · have hd' : (s.ctx.map Context.isDone).getD false = false := by simpa using hd
      cases hread : ReadMessage s.conn with
      | mk r conn' =>
      cases r with
      | error e =>
        rw [processServerMessagesLoop_read_error n s e conn' hd' hread] at h; simp at h
      | ok msg =>
        obtain ⟨c', hc', hin, _, _⟩ := ReadMessage_ok_inv c msg conn' (by rw [← hc]; exact hread)
        have d34 : MessageTypeExitCode ≠ MessageTypeError := by decide
        have step : ∀ (s' : ClientLoop), s'.conn = conn' → s'.result = none →
            (processServerMessagesLoop n s').result = some (.returned code none) →
            msg.MsgType ≠ MessageTypeExitCode → msg.MsgType ≠ MessageTypeError →
            ∃ (ms : List Message) (p rest : List Byte),
              c.incoming
                = ms.flatMap frameBytes ++ (frameBytes ⟨MessageTypeExitCode, p⟩ ++ rest) ∧
              (∀ m ∈ ms, m.MsgType ≠ MessageTypeExitCode ∧ m.MsgType ≠ MessageTypeError) ∧
              code = (if p.length > 0 then Int.ofNat (p.getD 0 0).val else 0) := by
          intro s' hs' hr' h' t3 t4
          obtain ⟨ms, p, rest, e1, e2, e3⟩ := ih s' c' code (by rw [hs', hc']) hr' h'
          refine ⟨msg :: ms, p, rest, ?_, ?_, e3⟩
          · rw [hin, e1]; simp [List.flatMap_cons]
          · intro m hm
            rcases List.mem_cons.mp hm with rfl | hm
            · exact ⟨t3, t4⟩
            · exact e2 m hm
        by_cases h1 : msg.MsgType = MessageTypeStdout
        · rw [processServerMessagesLoop_stdout n s msg conn' hd' hread h1] at h
          cases hw : s.stdout.Write msg.Payload with
          | mk o out' =>
          rw [hw] at h
          cases o with
          | error k err => simp at h
          | sigpipe => simp at h
          | ok =>
            exact step { s with ctx := s.ctx.map Context.afterPoll, conn := conn',
                                stdout := out' } rfl hres h (by rw [h1]; decide)
              (by rw [h1]; decide)
        · by_cases h2 : msg.MsgType = MessageTypeStderr
          · rw [processServerMessagesLoop_stderr n s msg conn' hd' hread h2] at h
            cases hw : s.stderr.Write msg.Payload with
            | mk o out' =>
            rw [hw] at h
            cases o with
            | error k err => simp at h
            | sigpipe => simp at h
            | ok =>
              exact step { s with ctx := s.ctx.map Context.afterPoll, conn := conn',
                                  stderr := out' } rfl hres h (by rw [h2]; decide)
                (by rw [h2]; decide)
          · by_cases h3 : msg.MsgType = MessageTypeExitCode
            · rw [processServerMessagesLoop_exit n s msg conn' hd' hread h3] at h
              simp only [Option.some.injEq, ClientResult.returned.injEq, and_true] at h
              refine ⟨[], msg.Payload, c'.incoming, ?_, by simp, h.symm⟩
              rw [hin, ← h3]
              simp
            · by_cases h4 : msg.MsgType = MessageTypeError
              · rw [processServerMessagesLoop_error n s msg conn' hd' hread h4] at h
                simp at h
              · rw [processServerMessagesLoop_other n s msg conn' hd' hread h1 h2 h3 h4] at h
                exact step { s with ctx := s.ctx.map Context.afterPoll, conn := conn' }
                  rfl hres h h3 h4

/-- Stdout, Stderr and unknown frames, read while the context is open and the local writes
succeed, are passed on and leave the loop running on what follows them. -/
theorem processServerMessagesLoop_frames (ms : List Message) :
    ∀ (k : Nat) (c : Conn) (ctx : Context) (out err : StdFile)
      (res : Option ClientResult) (tail : List Byte),
      (∀ n, ctx.openPolls = some n → ms.length ≤ n) →
      out.outcomes = [] → err.outcomes = [] →
      c.incoming = ms.flatMap frameBytes ++ tail →
      (∀ m ∈ ms, m.MsgType ≠ MessageTypeExitCode ∧ m.MsgType ≠ MessageTypeError) →
      (∀ m ∈ ms, m.Payload.length ≤ 104857600) →
      processServerMessagesLoop (ms.length + k) ⟨some c, some ctx, out, err, res⟩
        = processServerMessagesLoop k
            ⟨some { c with incoming := tail },
             some ⟨ctx.openPolls.map (· - ms.length)⟩,
             { out with written := (out.written
                 ++ (ms.filter (fun m => m.MsgType == MessageTypeStdout)).flatMap
                      Message.Payload) },
             { err with written := (err.written
                 ++ (ms.filter (fun m => m.MsgType == MessageTypeStderr)).flatMap
                      Message.Payload) },
             res⟩ := by
  induction ms with
  | nil =>
    intro k c ctx out err res tail _ _ _ hin _ _
    have hc : ({ c with incoming := tail } : Conn) = c := by
      cases c; simp at hin; simp [hin]
    have hx : (⟨ctx.openPolls.map (· - ([] : List Message).length)⟩ : Context) = ctx := by
      cases ctx with
      | mk op => cases op <;> simp
    rw [hc, hx]
    simp
  | cons m ms ih =>
    intro k c ctx out err res tail hctx ho he hin hty hlen
    have hfuel : (m :: ms).length + k = (ms.length + k) + 1 := by
      simp only [List.length_cons]; omega
    have hd : ((some ctx).map Context.isDone).getD false = false := by
      cases ctx with
      | mk op =>
        cases op with
        | none => rfl
        | some n =>
          have := hctx n rfl
          simp only [List.length_cons] at this
          simp [Context.isDone]
          omega
    have hread : ReadMessage (some c)
        = (.ok m, some { c with incoming := (ms.flatMap frameBytes ++ tail) }) :=
      ReadMessage_frame m.MsgType m.Payload _ c (hlen m (List.mem_cons_self _ _))
        (by rw [hin]; simp [frameBytes, List.flatMap_cons])
    have hctx' : ∀ n, (Context.afterPoll ctx).openPolls = some n → ms.length ≤ n := by
      intro n hn
      cases ctx with
      | mk op =>
        cases op with
        | none => simp [Context.afterPoll] at hn
        | some n0 =>
          have := hctx n0 rfl
          simp only [List.length_cons] at this
          simp [Context.afterPoll] at hn
          omega
    have hpoll : (⟨(Context.afterPoll ctx).openPolls.map (· - ms.length)⟩ : Context)
        = ⟨ctx.openPolls.map (· - (m :: ms).length)⟩ := by
      cases ctx with
      | mk op =>
        cases op with
        | none => rfl
        | some n0 =>
          simp only [Context.afterPoll, Option.map_some', List.length_cons, Context.mk.injEq,
            Option.some.injEq]
          omega
    have ht3 := (hty m (List.mem_cons_self _ _)).1
    have ht4 := (hty m (List.mem_cons_self _ _)).2
    have hty' : ∀ m' ∈ ms, m'.MsgType ≠ MessageTypeExitCode ∧ m'.MsgType ≠ MessageTypeError :=
      fun m' hm' => hty m' (List.mem_cons_of_mem _ hm')
    have hlen' : ∀ m' ∈ ms, m'.Payload.length ≤ 104857600 :=
      fun m' hm' => hlen m' (List.mem_cons_of_mem _ hm')
    have d : MessageTypeStdout ≠ MessageTypeStderr := by decide
    rw [hfuel]
    by_cases h1 : m.MsgType = MessageTypeStdout
    · rw [processServerMessagesLoop_stdout _ _ m _ hd hread h1]
      simp only [StdFile.Write_ok out m.Payload ho, Option.map_some']
      rw [ih k { c with incoming := (ms.flatMap frameBytes ++ tail) } (Context.afterPoll ctx)
        { out with written := out.written ++ m.Payload } err res tail hctx' ho he rfl
        hty' hlen', hpoll]
      simp [List.filter_cons, h1, d, List.flatMap_cons]
    · by_cases h2 : m.MsgType = MessageTypeStderr
      · rw [processServerMessagesLoop_stderr _ _ m _ hd hread h2]
        simp only [StdFile.Write_ok err m.Payload he, Option.map_some']
        rw [ih k { c with incoming := (ms.flatMap frameBytes ++ tail) } (Context.afterPoll ctx)
          out { err with written := err.written ++ m.Payload } res tail hctx' ho he
          rfl hty' hlen', hpoll]
        simp [List.filter_cons, h2, d.symm, List.flatMap_cons]
      · rw [processServerMessagesLoop_other _ _ m _ hd hread h1 h2 ht3 ht4]
        simp only [Option.map_some']
        rw [ih k { c with incoming := (ms.flatMap frameBytes ++ tail) } (Context.afterPoll ctx)
          out err res tail hctx' ho he rfl hty' hlen', hpoll]
        simp [List.filter_cons, h1, h2]

/-- Every frame takes at least one byte. -/
theorem length_le_flatMap_frameBytes (ms : List Message) :
    ms.length ≤ (ms.flatMap frameBytes).length := by
  induction ms with
  | nil => simp
  | cons m ms ih =>
    simp only [List.flatMap_cons, List.length_append, List.length_cons, frameBytes,
      List.length_nil, be32_length]
    omega

/-- The function `processServerMessages` on a connection that starts with Stdout, Stderr and
unknown frames: the loop reaches what follows them. -/
theorem processServerMessages_frames (ctx : Context) (c : Conn) (out err : StdFile)
    (ms : List Message) (tail : List Byte)
    (hctx : ∀ n, ctx.openPolls = some n → ms.length < n)
    (ho : out.outcomes = []) (he : err.outcomes = [])
    (hin : c.incoming = ms.flatMap frameBytes ++ tail)
    (hty : ∀ m ∈ ms, m.MsgType ≠ MessageTypeExitCode ∧ m.MsgType ≠ MessageTypeError)
    (hlen : ∀ m ∈ ms, m.Payload.length ≤ 104857600) :
    (processServerMessages (some ctx) (some c) out err
      = processServerMessagesLoop (c.incoming.length - ms.length + 1)
          ⟨some { c with incoming := tail },
           some ⟨ctx.openPolls.map (· - ms.length)⟩,
           { out with written := (out.written
               ++ (ms.filter (fun m => m.MsgType == MessageTypeStdout)).flatMap
                    Message.Payload) },
           { err with written := (err.written
               ++ (ms.filter (fun m => m.MsgType == MessageTypeStderr)).flatMap
                    Message.Payload) },
           none⟩) ∧
    ((some (⟨ctx.openPolls.map (· - ms.length)⟩ : Context)).map Context.isDone).getD false
      = false := by
  have hl : ms.length ≤ c.incoming.length := by
    rw [hin, List.length_append]
    have := length_le_flatMap_frameBytes ms
    omega
  have hf : c.incoming.length + 1 = ms.length + (c.incoming.length - ms.length + 1) := by omega
  constructor
  · show processServerMessagesLoop (c.incoming.length + 1) ⟨some c, some ctx, out, err, none⟩ = _
    rw [hf]
    exact processServerMessagesLoop_frames ms _ c ctx out err none tail
      (fun n hn => Nat.le_of_lt (hctx n hn)) ho he hin hty hlen
  · cases ctx with
    | mk op =>
      cases op with
      | none => rfl
      | some n =>
        have := hctx n rfl
        simp [Context.isDone]
        omega

/-- A write ends with `SIGPIPE` only when that outcome is among the outcomes given, and it
leaves outcomes that were among them. -/
theorem StdFile.Write_outcomes (f : StdFile) (b : List Byte) :
    ((f.Write b).1 = WriteOutcome.sigpipe → WriteOutcome.sigpipe ∈ f.outcomes) ∧
    (∀ o ∈ (f.Write b).2.outcomes, o ∈ f.outcomes) := by
  unfold StdFile.Write
  cases h : f.outcomes with
  | nil => simp [h]
  | cons o rest =>
    cases o <;> simp <;> intro a ha <;> exact Or.inr ha

/-- The client is killed only inside a write whose outcome is `SIGPIPE`. -/
theorem processServerMessagesLoop_not_killed :
    ∀ (fuel : Nat) (s : ClientLoop), s.result ≠ some .killed →
      WriteOutcome.sigpipe ∉ s.stdout.outcomes → WriteOutcome.sigpipe ∉ s.stderr.outcomes →
      (processServerMessagesLoop fuel s).result ≠ some .killed := by
  intro fuel
  induction fuel with
  | zero => intro s h _ _; exact h
  | succ n ih =>
    intro s hres ho he
    by_cases hd : (s.ctx.map Context.isDone).getD false = true
    · rw [processServerMessagesLoop_done n s hd]; simp
    · have hd' : (s.ctx.map Context.isDone).getD false = false := by simpa using hd
      cases hread : ReadMessage s.conn with
      | mk r conn' =>
      cases r with
      | error e => rw [processServerMessagesLoop_read_error n s e conn' hd' hread]; simp
      | ok msg =>
        by_cases h1 : msg.MsgType = MessageTypeStdout
        · rw [processServerMessagesLoop_stdout n s msg conn' hd' hread h1]
          have hw := StdFile.Write_outcomes s.stdout msg.Payload
          cases hwr : s.stdout.Write msg.Payload with
          | mk o out' =>
          rw [hwr] at hw
          cases o with
          | ok => exact ih _ hres (fun h => ho (hw.2 _ h)) he
          | error k err => simp
          | sigpipe => exact absurd (hw.1 rfl) ho
        · by_cases h2 : msg.MsgType = MessageTypeStderr
          · rw [processServerMessagesLoop_stderr n s msg conn' hd' hread h2]
            have hw := StdFile.Write_outcomes s.stderr msg.Payload
            cases hwr : s.stderr.Write msg.Payload with
            | mk o out' =>
            rw [hwr] at hw
            cases o with
            | ok => exact ih _ hres ho (fun h => he (hw.2 _ h))
            | error k err => simp
            | sigpipe => exact absurd (hw.1 rfl) he
          · by_cases h3 : msg.MsgType = MessageTypeExitCode
            · rw [processServerMessagesLoop_exit n s msg conn' hd' hread h3]; simp
            · by_cases h4 : msg.MsgType = MessageTypeError
              · rw [processServerMessagesLoop_error n s msg conn' hd' hread h4]; simp
              · rw [processServerMessagesLoop_other n s msg conn' hd' hread h1 h2 h3 h4]
                exact ih _ hres ho he

/-- C18 as stated fails at a Stdout frame whose write to the standard output of the client
returns an error (a closed descriptor), followed by an ExitCode frame: the loop returns at
the Stdout frame with exit code 1 and an error, and the ExitCode frame stays unread. It fails
at a Stdout frame whose write meets a broken pipe: the client is killed there. It also fails
when the context is cancelled: the loop returns before reading any frame. -/
theorem processServerMessages_session_end_counterexample :
    processServerMessages (some ⟨none⟩)
        (some (Conn.ofInput [2, 0, 0, 0, 1, 120, 4, 0, 0, 0, 1, 0]))
        ⟨[], [.error 0 (.osError (lit "bad file descriptor"))]⟩ StdFile.sink
      = ⟨some (Conn.ofInput [4, 0, 0, 0, 1, 0]), some ⟨none⟩, StdFile.sink, StdFile.sink,
         some (.returned 1 (some (.wrap (lit "error writing to stdout")
           (.osError (lit "bad file descriptor")))))⟩ ∧
    processServerMessages (some ⟨none⟩)
        (some (Conn.ofInput [2, 0, 0, 0, 1, 120, 4, 0, 0, 0, 1, 0]))
        ⟨[], [.sigpipe]⟩ StdFile.sink
      = ⟨some (Conn.ofInput [4, 0, 0, 0, 1, 0]), some ⟨none⟩, StdFile.sink, StdFile.sink,
         some .killed⟩ ∧
    (processServerMessages (some ⟨some 0⟩)
        (some (Conn.ofInput [2, 0, 0, 0, 1, 120, 4, 0, 0, 0, 1, 0]))
        StdFile.sink StdFile.sink).result
      = some (.returned 1 (some (.errorf (lit "operation canceled by user or timeout")))) := by
  decide

/-- C18, amended. While the context is not cancelled and the writes to the standard output
and the standard error of the client succeed, Stdout, Stderr and unknown frames do not end
the session: after any such frames `ms`, whose payloads have been passed on to the standard
output and the standard error, `processServerMessages` ends at what follows them. At an
ExitCode frame it returns the first byte of the payload (0 for an empty payload) and no
error; at an Error frame with payload `m` it returns 1 and the error "server error: "
followed by `m`; at a failed read it returns 1 and an error ("connection closed by server
unexpectedly" for `io.EOF`, the wrapped error otherwise). In every state of the loop: a
Stdout or Stderr frame whose write succeeds lets the loop go on, and so does an unknown
frame; a Stdout or Stderr frame whose write returns an error makes the loop return 1 and
that error wrapped; a write that ends with `SIGPIPE` kills the client; a cancelled context
makes the loop send a Cancel frame and return 1 with the error "operation canceled by user or
timeout". On every input the function ends; it returns unless a write ends with `SIGPIPE`;
and a result without error comes only from an ExitCode frame that follows frames which are
neither ExitCode nor Error frames. -/
theorem processServerMessages_session_end (ctx : Context) (c : Conn) (out err : StdFile)
    (ms : List Message) (tail : List Byte)
    (hctx : ∀ n, ctx.openPolls = some n → ms.length < n)
    (ho : out.outcomes = []) (he : err.outcomes = [])
    (hin : c.incoming = ms.flatMap frameBytes ++ tail)
    (hty : ∀ m ∈ ms, m.MsgType ≠ MessageTypeExitCode ∧ m.MsgType ≠ MessageTypeError)
    (hlen : ∀ m ∈ ms, m.Payload.length ≤ 104857600) :
    (∀ (p rest : List Byte), p.length ≤ 104857600 →
      tail = frameBytes ⟨MessageTypeExitCode, p⟩ ++ rest →
      processServerMessages (some ctx) (some c) out err
        = ⟨some { c with incoming := rest },
           some (Context.afterPoll ⟨ctx.openPolls.map (· - ms.length)⟩),
           { out with written := (out.written
               ++ (ms.filter (fun m => m.MsgType == MessageTypeStdout)).flatMap
                    Message.Payload) },
           { err with written := (err.written
               ++ (ms.filter (fun m => m.MsgType == MessageTypeStderr)).flatMap
                    Message.Payload) },
           some (.returned (if p.length > 0 then Int.ofNat (p.getD 0 0).val else 0) none)⟩) ∧
    (∀ (m rest : List Byte), m.length ≤ 104857600 →
      tail = frameBytes ⟨MessageTypeError, m⟩ ++ rest →
      processServerMessages (some ctx) (some c) out err
        = ⟨some { c with incoming := rest },
           some (Context.afterPoll ⟨ctx.openPolls.map (· - ms.length)⟩),
           { out with written := (out.written
               ++ (ms.filter (fun m => m.MsgType == MessageTypeStdout)).flatMap
                    Message.Payload) },
           { err with written := (err.written
               ++ (ms.filter (fun m => m.MsgType == MessageTypeStderr)).flatMap
                    Message.Payload) },
           some (.returned 1 (some (.errorf (lit "server error: " ++ m))))⟩ ∧
      (GoError.errorf (lit "server error: " ++ m)).Error = lit "server error: " ++ m) ∧
    (∀ (e : GoError) (conn' : Option Conn),
      ReadMessage (some { c with incoming := tail }) = (.error e, conn') →
      (processServerMessages (some ctx) (some c) out err).result
        = some (.returned 1 (some (if e = GoError.EOF
            then .errorf (lit "connection closed by server unexpectedly")
            else .wrap (lit "error reading server message") e)))) ∧
    (∀ (n : Nat) (s : ClientLoop) (msg : Message) (conn' : Option Conn) (f : StdFile),
      (s.ctx.map Context.isDone).getD false = false →
      ReadMessage s.conn = (.ok msg, conn') →
      (msg.MsgType = MessageTypeStdout →
        (s.stdout.Write msg.Payload = (.ok, f) →
          processServerMessagesLoop (n + 1) s = processServerMessagesLoop n
            { s with ctx := s.ctx.map Context.afterPoll, conn := conn', stdout := f }) ∧
        (∀ k e, s.stdout.Write msg.Payload = (.error k e, f) →
          processServerMessagesLoop (n + 1) s
            = { s with ctx := s.ctx.map Context.afterPoll, conn := conn', stdout := f,
                       result := some (.returned 1
                         (some (.wrap (lit "error writing to stdout") e))) }) ∧
        (s.stdout.Write msg.Payload = (.sigpipe, f) →
          processServerMessagesLoop (n + 1) s
            = { s with ctx := s.ctx.map Context.afterPoll, conn := conn', stdout := f,
                       result := some .killed })) ∧
      (msg.MsgType = MessageTypeStderr →
        (s.stderr.Write msg.Payload = (.ok, f) →
          processServerMessagesLoop (n + 1) s = processServerMessagesLoop n
            { s with ctx := s.ctx.map Context.afterPoll, conn := conn', stderr := f }) ∧
        (∀ k e, s.stderr.Write msg.Payload = (.error k e, f) →
          processServerMessagesLoop (n + 1) s
            = { s with ctx := s.ctx.map Context.afterPoll, conn := conn', stderr := f,
                       result := some (.returned 1
                         (some (.wrap (lit "error writing to stderr") e))) }) ∧
        (s.stderr.Write msg.Payload = (.sigpipe, f) →
          processServerMessagesLoop (n + 1) s
            = { s with ctx := s.ctx.map Context.afterPoll, conn := conn', stderr := f,
                       result := some .killed })) ∧
      (msg.MsgType ≠ MessageTypeStdout → msg.MsgType ≠ MessageTypeStderr →
        msg.MsgType ≠ MessageTypeExitCode → msg.MsgType ≠ MessageTypeError →
        processServerMessagesLoop (n + 1) s = processServerMessagesLoop n
          { s with ctx := s.ctx.map Context.afterPoll, conn := conn' })) ∧
    (∀ (n : Nat) (s : ClientLoop), (s.ctx.map Context.isDone).getD false = true →
      processServerMessagesLoop (n + 1) s
        = { s with conn := (WriteMessage s.conn MessageTypeCancel []).2,
                   result := some (.returned 1
                     (some (.errorf (lit "operation canceled by user or timeout")))) }) ∧
    (∀ (ctx' : Option Context) (conn' : Option Conn) (out' err' : StdFile),
      (processServerMessages ctx' conn' out' err').result ≠ none ∧
      (WriteOutcome.sigpipe ∉ out'.outcomes → WriteOutcome.sigpipe ∉ err'.outcomes →
        (processServerMessages ctx' conn' out' err').result ≠ some .killed)) ∧
    (∀ (ctx' : Option Context) (conn' : Option Conn) (out' err' : StdFile) (code : Int),
      (processServerMessages ctx' conn' out' err').result = some (.returned code none) →
      ∃ (c' : Conn) (ms' : List Message) (p rest : List Byte),
        conn' = some c' ∧
        c'.incoming
          = ms'.flatMap frameBytes ++ (frameBytes ⟨MessageTypeExitCode, p⟩ ++ rest) ∧
        (∀ m ∈ ms', m.MsgType ≠ MessageTypeExitCode ∧ m.MsgType ≠ MessageTypeError) ∧
        code = (if p.length > 0 then Int.ofNat (p.getD 0 0).val else 0)) := by
  obtain ⟨hfr, hd⟩ := processServerMessages_frames ctx c out err ms tail hctx ho he hin hty hlen
  refine ⟨?_, ?_, ?_, ?_, ?_, ?_, ?_⟩
  · intro p rest hp ht
    rw [hfr, processServerMessagesLoop_exit _ _ ⟨MessageTypeExitCode, p⟩
      (some { c with incoming := rest }) hd
      (ReadMessage_frame MessageTypeExitCode p rest _ hp (by rw [ht]; rfl)) rfl]
    rfl
  · intro m rest hm ht
    refine ⟨?_, rfl⟩
    rw [hfr, processServerMessagesLoop_error _ _ ⟨MessageTypeError, m⟩
      (some { c with incoming := rest }) hd
      (ReadMessage_frame MessageTypeError m rest _ hm (by rw [ht]; rfl)) rfl]
    rfl
  · intro e conn' hread
    rw [hfr, processServerMessagesLoop_read_error _ _ e conn' hd hread]
  · intro n s msg conn' f hnd hread
    refine ⟨fun h1 => ⟨?_, ?_, ?_⟩, fun h2 => ⟨?_, ?_, ?_⟩, ?_⟩
    · intro hw; rw [processServerMessagesLoop_stdout n s msg conn' hnd hread h1, hw]
    · intro k e hw; rw [processServerMessagesLoop_stdout n s msg conn' hnd hread h1, hw]
    · intro hw; rw [processServerMessagesLoop_stdout n s msg conn' hnd hread h1, hw]
    · intro hw; rw [processServerMessagesLoop_stderr n s msg conn' hnd hread h2, hw]
    · intro k e hw; rw [processServerMessagesLoop_stderr n s msg conn' hnd hread h2, hw]
    · intro hw; rw [processServerMessagesLoop_stderr n s msg conn' hnd hread h2, hw]
    · intro h1 h2 h3 h4
      exact processServerMessagesLoop_other n s msg conn' hnd hread h1 h2 h3 h4
  · intro n s hdone
    exact processServerMessagesLoop_done n s hdone
  · intro ctx' conn' out' err'
    cases conn' with
    | none => simp [processServerMessages]
    | some c' =>
      cases ctx' with
      | none => simp [processServerMessages]
      | some x =>
        exact ⟨processServerMessagesLoop_returns _ _ c' rfl (Nat.lt_succ_self _),
          fun h1 h2 => processServerMessagesLoop_not_killed _ _ (by simp) h1 h2⟩
  · intro ctx' conn' out' err' code h
    cases conn' with
    | none => simp [processServerMessages] at h
    | some c' =>
      cases ctx' with
      | none => simp [processServerMessages] at h
      | some x =>
        obtain ⟨ms', p, rest, e1, e2, e3⟩ :=
          processServerMessagesLoop_no_error _ _ c' code rfl rfl h
        exact ⟨c', ms', p, rest, rfl, e1, e2, e3⟩

set_option maxRecDepth 1000000 in
/-- C18, amended, at a Stdout frame "o", a Stderr frame "e" and a frame of the unknown type 9
followed by an Error frame "no". -/
theorem processServerMessages_session_end_witness :
    processServerMessages (some ⟨none⟩)
        (some (Conn.ofInput ([2, 0, 0, 0, 1, 111, 3, 0, 0, 0, 1, 101, 9, 0, 0, 0, 0]
          ++ [5, 0, 0, 0, 2, 110, 111])))
        StdFile.sink StdFile.sink
      = ⟨some (Conn.ofInput []), some ⟨none⟩,
         { StdFile.sink with written := [111] }, { StdFile.sink with written := [101] },
         some (.returned 1 (some (.errorf (lit "server error: no"))))⟩ :=
  (((processServerMessages_session_end ⟨none⟩
      (Conn.ofInput ([2, 0, 0, 0, 1, 111, 3, 0, 0, 0, 1, 101, 9, 0, 0, 0, 0]
          ++ [5, 0, 0, 0, 2, 110, 111]))
      StdFile.sink StdFile.sink [⟨2, [111]⟩, ⟨3, [101]⟩, ⟨9, []⟩] [5, 0, 0, 0, 2, 110, 111]
      (by intro n h; cases h) rfl rfl (by decide) (by decide) (by decide)).2.1
      [110, 111] [] (by decide) (by decide)).1).trans (by decide)

/-! ## The input pump of the client -/

/-- The loop of `forwardStdin` with a context that is never cancelled and a connection that
accepts every write: the data read goes out in Stdin frames of 1 to 4096 bytes, followed by
one StdinClose frame, and the loop returns. -/
theorem forwardStdinLoop_frames :
    ∀ (fuel : Nat) (f : Stdin) (c : Conn) (ctx : Context) (r : Bool),
      c.writeRoom = none → ctx.openPolls = none → f.readsLeft ≤ fuel →
      ∃ chunks : List (List Byte),
        (∀ d ∈ chunks, 0 < d.length ∧ d.length ≤ 4096) ∧
        chunks.flatten = f.pending.flatten ∧
        forwardStdinLoop fuel ⟨some c, some ctx, f, r⟩
          = ⟨some { c with sent := (c.sent
                ++ chunks.flatMap (fun d => frameBytes ⟨MessageTypeStdin, d⟩)
                ++ frameBytes ⟨MessageTypeStdinClose, []⟩) },
             some ctx, { f with pending := [] }, true⟩ := by
  intro fuel
  induction fuel with
  | zero => intro f c ctx r _ _ h; simp [Stdin.readsLeft] at h
  | succ n ih =>
    intro f c ctx r hw hctx hfuel
    have hd : ctx.isDone = false := by
      cases ctx with
      | mk op => subst hctx; rfl
    have hap : Context.afterPoll ctx = ctx := by
      cases ctx with
      | mk op => subst hctx; rfl
    cases hp : f.pending with
    | nil =>
      refine ⟨[], by simp, by simp, ?_⟩
      have hf : ({ f with pending := [] } : Stdin) = f := by
        cases f; simp at hp; simp [hp]
      simp [forwardStdinLoop, hd, hap, Stdin.Read, hp, hf,
        WriteMessage_unlimited _ _ _ hw, frameBytes]
    | cons burst more =>
      by_cases hb : burst.length ≤ 4 * 1024
      · by_cases hz : burst.length > 0
        · obtain ⟨chunks, h1, h2, h3⟩ := ih { f with pending := more }
            { c with sent := c.sent ++ ([MessageTypeStdin] ++ be32 (u32 burst.length) ++ burst) }
            ctx r hw hctx (by simp [Stdin.readsLeft, hp] at hfuel ⊢; omega)
          refine ⟨burst :: chunks, ?_, by simp [h2], ?_⟩
          · intro d hd'
            rcases List.mem_cons.mp hd' with rfl | hd'
            · exact ⟨hz, by omega⟩
            · exact h1 d hd'
          · simp only [forwardStdinLoop, hd, hap, Stdin.Read, hp, hb, hz, if_true,
              Bool.false_eq_true, if_false, Option.map_some', Option.getD_some,
              WriteMessage_unlimited _ _ _ hw]
            rw [h3]
            simp [frameBytes, List.flatMap_cons]
        · have hnil := length_pos_or_nil burst hz
          subst hnil
          obtain ⟨chunks, h1, h2, h3⟩ := ih { f with pending := more } c ctx r hw hctx
            (by simp [Stdin.readsLeft, hp] at hfuel ⊢; omega)
          refine ⟨chunks, h1, by simp [h2], ?_⟩
          simp only [forwardStdinLoop, hd, hap, Stdin.Read, hp, List.length_nil,
            Nat.zero_le, if_true, gt_iff_lt, Nat.lt_irrefl, Bool.false_eq_true, if_false,
            Option.map_some', Option.getD_some]
          rw [h3]
      · have hlt : 4 * 1024 < burst.length := by omega
        have htl : (burst.take (4 * 1024)).length = 4 * 1024 := by
          rw [List.length_take]; omega
        obtain ⟨chunks, h1, h2, h3⟩ := ih
          { f with pending := burst.drop (4 * 1024) :: more }
          { c with sent := c.sent ++ ([MessageTypeStdin]
              ++ be32 (u32 (burst.take (4 * 1024)).length) ++ burst.take (4 * 1024)) }
          ctx r hw hctx
          (by simp [Stdin.readsLeft, hp, List.length_drop] at hfuel ⊢; omega)
        refine ⟨burst.take (4 * 1024) :: chunks, ?_, ?_, ?_⟩
        · intro d hd'
          rcases List.mem_cons.mp hd' with rfl | hd'
          · rw [htl]; omega
          · exact h1 d hd'
        · simp only [List.flatten_cons, h2]
          rw [← List.append_assoc, List.take_append_drop]
        · have hpos : (burst.take (4 * 1024)).length > 0 := by rw [htl]; omega
          simp only [forwardStdinLoop, hd, hap, Stdin.Read, hp, hb, hpos, if_true,
            Bool.false_eq_true, if_false, Option.map_some', Option.getD_some,
            WriteMessage_unlimited _ _ _ hw]
          rw [h3]
          simp [frameBytes, List.flatMap_cons]

/-- C19. With a standard input that is no terminal, a context that is never cancelled and a
connection on which no write fails, `forwardStdin` returns, and the bytes it has sent by then
are Stdin frames, one for each read that returned data, followed by one StdinClose frame with
an empty payload as the last frame. The payloads of the Stdin frames are non-empty, at most
4096 bytes long (the size of the buffer), and concatenate to exactly the content of the
input, whatever the sizes in which the reads deliver it. For an empty input the five bytes of
the StdinClose frame are all that is sent. -/
theorem forwardStdin_frames (ctx : Context) (c : Conn) (f : Stdin)
    (hctx : ctx.openPolls = none) (hw : c.writeRoom = none)
    (hstat : f.statErr = none) (hdev : f.isCharDevice = false) :
    ∃ chunks : List (List Byte),
      (∀ d ∈ chunks, 0 < d.length ∧ d.length ≤ 4096) ∧
      chunks.flatten = f.pending.flatten ∧
      forwardStdin (some ctx) (some c) f
        = ⟨some { c with sent := (c.sent
              ++ chunks.flatMap (fun d => frameBytes ⟨MessageTypeStdin, d⟩)
              ++ frameBytes ⟨MessageTypeStdinClose, []⟩) },
           some ctx, { f with pending := [] }, true⟩ ∧
      (f.pending.flatten = [] →
        chunks = [] ∧
        (forwardStdin (some ctx) (some c) f).conn
          = some { c with sent := c.sent ++ [8, 0, 0, 0, 0] }) := by
  obtain ⟨chunks, h1, h2, h3⟩ :=
    forwardStdinLoop_frames f.readsLeft f c ctx false hw hctx (Nat.le_refl _)
  have hfw : forwardStdin (some ctx) (some c) f
      = forwardStdinLoop f.readsLeft ⟨some c, some ctx, f, false⟩ := by
    simp [forwardStdin, hstat, hdev]
  refine ⟨chunks, h1, h2, hfw.trans h3, ?_⟩
  intro hempty
  have hnil : chunks = [] := by
    cases chunks with
    | nil => rfl
    | cons d ds =>
      have hd := (h1 d (List.mem_cons_self _ _)).1
      rw [hempty] at h2
      have := List.flatten_eq_nil_iff.mp h2 d (List.mem_cons_self _ _)
      rw [this] at hd
      simp at hd
  refine ⟨hnil, ?_⟩
  have hfr : frameBytes ⟨MessageTypeStdinClose, []⟩ = [8, 0, 0, 0, 0] := by decide
  rw [hfw, h3, hnil, hfr]
  simp

/-- C19 at the input "hello" delivered by three reads ("he", nothing, "llo"): the exact form
of the theorem there, and the bytes sent, which are the frames Stdin "he", Stdin "llo" and
StdinClose. -/
theorem forwardStdin_frames_witness :
    (∃ chunks : List (List Byte),
      (∀ d ∈ chunks, 0 < d.length ∧ d.length ≤ 4096) ∧
      chunks.flatten = ([[104, 101], [], [108, 108, 111]] : List (List Byte)).flatten ∧
      forwardStdin (some ⟨none⟩) (some (Conn.ofInput []))
          ⟨none, false, [[104, 101], [], [108, 108, 111]], GoError.EOF⟩
        = ⟨some { Conn.ofInput [] with sent := ((Conn.ofInput []).sent
              ++ chunks.flatMap (fun d => frameBytes ⟨MessageTypeStdin, d⟩)
              ++ frameBytes ⟨MessageTypeStdinClose, []⟩) },
           some ⟨none⟩, ⟨none, false, [], GoError.EOF⟩, true⟩ ∧
      (([[104, 101], [], [108, 108, 111]] : List (List Byte)).flatten = [] →
        chunks = [] ∧
        (forwardStdin (some ⟨none⟩) (some (Conn.ofInput []))
            ⟨none, false, [[104, 101], [], [108, 108, 111]], GoError.EOF⟩).conn
          = some { Conn.ofInput [] with sent := (Conn.ofInput []).sent ++ [8, 0, 0, 0, 0] })) ∧
    (forwardStdin (some ⟨none⟩) (some (Conn.ofInput []))
        ⟨none, false, [[104, 101], [], [108, 108, 111]], GoError.EOF⟩).conn
      = some { Conn.ofInput [] with
          sent := [7, 0, 0, 0, 2, 104, 101, 7, 0, 0, 0, 3, 108, 108, 111, 8, 0, 0, 0, 0] } ∧
    (forwardStdin (some ⟨none⟩) (some (Conn.ofInput [])) ⟨none, false, [], GoError.EOF⟩).conn
      = some { Conn.ofInput [] with sent := [8, 0, 0, 0, 0] } :=
  ⟨forwardStdin_frames ⟨none⟩ (Conn.ofInput [])
      ⟨none, false, [[104, 101], [], [108, 108, 111]], GoError.EOF⟩ rfl rfl rfl rfl,
   by decide, by decide⟩

/-! ## Comments and string literals -/

/-- A `"` as the next byte makes an iteration do what it does at the last byte. -/
theorem stripStep_next_quote (st : StripState) (c : Byte) :
    stripStep st c (some 34) = stripStep st c none := by
  unfold stripStep
  simp

/-- An iteration at the last byte skips nothing. -/
theorem stripStep_none_skip (st : StripState) (c : Byte) : (stripStep st c none).2 = false := by
  unfold stripStep
  simp only [reduceCtorEq, and_false, if_false, Option.isSome_none, Bool.false_eq_true]
  repeat' split
  all_goals rfl

/-- The loop over a content in which a `"` follows the bytes `xs` handles `xs` as it does when
the content ends after `xs`. -/
theorem stripLoop_append_quote (xs ys : List Byte) :
    ∀ (st : StripState) (sk : Bool), (sk = false ∨ xs ≠ []) →
      stripLoop st sk (xs ++ 34 :: ys) = stripLoop (stripLoop st sk xs) false (34 :: ys) := by
  induction xs with
  | nil =>
    intro st sk h
    rcases h with h | h
    · subst h; rfl
    · exact absurd rfl h
  | cons c xs ih =>
    intro st sk _
    cases sk with
    | true =>
      simp only [List.cons_append, stripLoop, if_true]
      exact ih st false (Or.inl rfl)
    | false =>
      cases xs with
      | nil =>
        show stripLoop st false (c :: 34 :: ys)
          = stripLoop (stripLoop st false [c]) false (34 :: ys)
        simp only [stripLoop, Bool.false_eq_true, if_false,
          List.head?_cons, List.head?_nil, stripStep_next_quote, stripStep_none_skip]
      | cons d xs =>
        have := ih (stripStep st c (some d)).1 (stripStep st c (some d)).2
          (Or.inr (List.cons_ne_nil _ _))
        simp only [List.cons_append, stripLoop, Bool.false_eq_true, if_false,
          List.head?_cons] at this ⊢
        exact this

/-- Outside a block comment the depth counter is 0: an iteration keeps that. -/
theorem stripStep_depth (st : StripState) (c : Byte) (next : Option Byte)
    (h : st.inMultiLineComment = false → st.inMultiLineCommentDepth = 0) :
    (stripStep st c next).1.inMultiLineComment = false →
      (stripStep st c next).1.inMultiLineCommentDepth = 0 := by
  unfold stripStep
  cases h1 : st.inSingleLineComment <;> cases h2 : st.inMultiLineComment <;>
    simp only [h2, Bool.false_eq_true, if_false, if_true, forall_const, reduceCtorEq,
      false_implies] at h ⊢
  all_goals (repeat' split)
  all_goals simp_all [StripState.WriteByte]

/-- Outside a block comment the depth counter is 0: the loop keeps that. -/
theorem stripLoop_depth (xs : List Byte) :
    ∀ (st : StripState) (sk : Bool),
      (st.inMultiLineComment = false → st.inMultiLineCommentDepth = 0) →
      (stripLoop st sk xs).inMultiLineComment = false →
        (stripLoop st sk xs).inMultiLineCommentDepth = 0 := by
  induction xs with
  | nil => intro st sk h; exact h
  | cons c xs ih =>
    intro st sk h
    cases sk with
    | true => simp only [stripLoop, if_true]; exact ih st false h
    | false =>
      simp only [stripLoop, Bool.false_eq_true, if_false]
      exact ih _ _ (stripStep_depth st c _ h)

/-- Bytes already in the buffer stay in front of what an iteration writes. -/
theorem stripStep_result_prefix (R : List Byte) (st : StripState) (c : Byte)
    (next : Option Byte) :
    stripStep { st with result := R ++ st.result } c next
      = ({ (stripStep st c next).1 with result := R ++ (stripStep st c next).1.result },
         (stripStep st c next).2) := by
  unfold stripStep
  simp only [StripState.WriteByte]
  repeat' split
  all_goals simp

/-- Bytes already in the buffer stay in front of what the loop writes. -/
theorem stripLoop_result_prefix (R : List Byte) (xs : List Byte) :
    ∀ (st : StripState) (sk : Bool),
      stripLoop { st with result := R ++ st.result } sk xs
        = { stripLoop st sk xs with result := R ++ (stripLoop st sk xs).result } := by
  induction xs with
  | nil => intro st sk; rfl
  | cons c xs ih =>
    intro st sk
    cases sk with
    | true => simp only [stripLoop, if_true]; exact ih st false
    | false =>
      simp only [stripLoop, Bool.false_eq_true, if_false, stripStep_result_prefix]
      exact ih _ _

/-- Inside a string the loop copies the rest of the literal, up to and including the closing
quote, and is outside the string afterwards. -/
theorem stripLoop_string_body (post : List Byte) :
    ∀ (n : Nat) (body : List Byte) (st : StripState), body.length ≤ n →
      isStringBody body = true →
      st.inString = true → st.escaped = false → st.inSingleLineComment = false →
      st.inMultiLineComment = false →
      stripLoop st false (body ++ 34 :: post)
        = stripLoop { st with inString := false, result := st.result ++ body ++ [34] }
            false post := by
  intro n
  induction n with
  | zero =>
    intro body st hlen _ h1 h2 h3 h4
    have hb : body = [] := List.length_eq_zero.mp (by omega)
    subst hb
    simp [stripLoop, stripStep, h1, h2, h3, h4, StripState.WriteByte]
  | succ n ih =>
    intro body st hlen hbody h1 h2 h3 h4
    match body, hlen, hbody with
    | [], _, _ => simp [stripLoop, stripStep, h1, h2, h3, h4, StripState.WriteByte]
    | [c], _, hbody =>
      simp only [isStringBody, Bool.and_eq_true, bne_iff_ne, ne_eq] at hbody
      have := ih [] (st.WriteByte c) (by simp) rfl h1 h2 h3 h4
      simp only [List.nil_append] at this
      show stripLoop st false (c :: 34 :: post) = _
      simp only [stripLoop, Bool.false_eq_true, if_false, List.head?_cons]
      have hs : stripStep st c (some 34) = (st.WriteByte c, false) := by
        simp [stripStep, h1, h2, h3, h4, hbody.1, hbody.2]
      rw [hs]
      simp only [stripLoop, Bool.false_eq_true, if_false, List.head?_cons] at this
      rw [this]
      simp [StripState.WriteByte]
    | c :: d :: rest, hlen, hbody =>
      simp only [List.length_cons] at hlen
      by_cases hc : c = 92
      · subst hc
        simp only [isStringBody, if_true] at hbody
        have := ih rest ({ { st with escaped := true }.WriteByte 92 with
            escaped := false }.WriteByte d) (by omega) hbody h1 rfl h3 h4
        show stripLoop st false (92 :: d :: (rest ++ 34 :: post)) = _
        simp only [stripLoop, Bool.false_eq_true, if_false, List.head?_cons]
        have hs1 : stripStep st 92 (some d) = ({ st with escaped := true }.WriteByte 92, false) := by
          simp [stripStep, h1, h2, h3, h4]
        rw [hs1]
        have hs2 : ∀ nx, stripStep ({ st with escaped := true }.WriteByte 92) d nx
            = ({ { st with escaped := true }.WriteByte 92 with escaped := false }.WriteByte d,
               false) := by
          intro nx
          simp [stripStep, h3, h4, StripState.WriteByte]
        simp only [hs2]
        rw [this]
        simp [StripState.WriteByte, h2]
      · simp only [isStringBody, hc, if_false, Bool.and_eq_true, bne_iff_ne, ne_eq] at hbody
        have := ih (d :: rest) (st.WriteByte c) (by simp only [List.length_cons]; omega)
          hbody.2 h1 h2 h3 h4
        show stripLoop st false (c :: (d :: rest ++ 34 :: post)) = _
        have hs : ∀ nx, stripStep st c nx = (st.WriteByte c, false) := by
          intro nx
          simp [stripStep, h1, h2, h3, h4, hc, hbody.1]
        rw [stripLoop]
        simp only [Bool.false_eq_true, if_false, hs]
        rw [this]
        simp [StripState.WriteByte]

/-- C20. `StripJSONCComments` keeps a string literal as it is: when the loop, run on `pre`
alone, ends outside every string and comment (all four flags false), and `body` is the
inside of a complete string literal (no unescaped `"`, every `\` followed by a byte, so it
may hold `\"`, `//`, `/*` and `*/`), then the output for `pre ++ "body" ++ post` is the
output for `pre`, then the literal with its quotes byte for byte, then the output for
`post`. -/
theorem stripJSONCComments_string_literal (pre body post : List Byte)
    (hpre : (stripLoop StripState.init false pre).outside = true)
    (hbody : isStringBody body = true) :
    StripJSONCComments (pre ++ (34 :: body ++ [34]) ++ post)
      = StripJSONCComments pre ++ (34 :: body ++ [34]) ++ StripJSONCComments post := by
  have hdepth := stripLoop_depth pre StripState.init false (fun _ => rfl)
  simp only [StripState.outside, Bool.and_eq_true, Bool.not_eq_true'] at hpre
  obtain ⟨⟨⟨p1, p2⟩, p3⟩, p4⟩ := hpre
  have hd := hdepth p4
  have hs : stripLoop StripState.init false pre
      = { StripState.init with result := StripJSONCComments pre } := by
    cases h : stripLoop StripState.init false pre with
    | mk r a b c d e =>
      rw [h] at p1 p2 p3 p4 hd
      simp only at p1 p2 p3 p4 hd
      subst p1 p2 p3 p4 hd
      unfold StripJSONCComments
      rw [h]
      rfl
  have happ : pre ++ (34 :: body ++ [34]) ++ post = pre ++ 34 :: (body ++ 34 :: post) := by
    simp
  have hq : ∀ nx, stripStep { StripState.init with result := StripJSONCComments pre } 34 nx
      = ({ StripState.init with result := StripJSONCComments pre ++ [34], inString := true },
         false) := by
    intro nx
    simp [stripStep, StripState.init, StripState.WriteByte]
  have hbodyLoop := stripLoop_string_body post body.length body
    { StripState.init with result := StripJSONCComments pre ++ [34], inString := true }
    (Nat.le_refl _) hbody rfl rfl rfl rfl
  have hprefix := stripLoop_result_prefix (StripJSONCComments pre ++ [34] ++ body ++ [34]) post
    StripState.init false
  unfold StripJSONCComments at *
  rw [happ, stripLoop_append_quote pre _ _ _ (Or.inl rfl), hs]
  rw [stripLoop]
  simp only [Bool.false_eq_true, if_false, hq]
  rw [hbodyLoop]
  have hst : ({ { StripState.init with
        result := (stripLoop StripState.init false pre).result ++ [34], inString := true } with
      inString := false,
      result := (stripLoop StripState.init false pre).result ++ [34] ++ body ++ [34] }
        : StripState)
      = { StripState.init with
          result := ((stripLoop StripState.init false pre).result ++ [34] ++ body ++ [34])
            ++ StripState.init.result } := by
    simp [StripState.init]
  rw [hst, hprefix]
  simp

set_option maxRecDepth 1000000 in
/-- C20 at a literal that holds `//`, an escaped quote and `/* */`, after a block comment and
before a line comment. -/
theorem stripJSONCComments_string_literal_witness :
    StripJSONCComments (lit "\x7b\"k\": /* c */ " ++ (34 :: lit "a // b \\\" /* c */" ++ [34])
        ++ lit "\x7d // end")
      = StripJSONCComments (lit "\x7b\"k\": /* c */ ")
        ++ (34 :: lit "a // b \\\" /* c */" ++ [34]) ++ StripJSONCComments (lit "\x7d // end") ∧
    StripJSONCComments (lit "\x7b\"k\": /* c */ \"a // b \\\" /* c */\"\x7d // end")
      = lit "\x7b\"k\":  \"a // b \\\" /* c */\"\x7d " :=
  ⟨stripJSONCComments_string_literal (lit "\x7b\"k\": /* c */ ") (lit "a // b \\\" /* c */")
      (lit "\x7d // end") (by decide) (by decide),
   by decide⟩

/-! ## Authentication with the right secret -/

/-- Joining the arguments that `ParseCommandMessage` splits off gives the bytes they were
split from. -/
theorem stringsJoin_parsed_args (s : List Byte) :
    stringsJoin (if s.length > 0 then bytesSplit s 0 else []) [0] = s := by
  by_cases h : s.length > 0
  · simp only [h, if_true, stringsJoin, bytesSplit]
    exact List.intercalate_splitOn s 0
  · have := length_pos_or_nil s h
    subst this
    simp [stringsJoin, List.intercalate]

/-- C25. For every secret and every non-empty argument vector, whatever bytes the arguments
hold: `WriteCommandMessage` sends the payload `commandPayload`, and `ParseCommandMessage`
returns for it no error, version 1, a signature of 64 bytes and an argument vector (not
always the one sent) for which `VerifySignature` with the same secret is true. For the empty
argument vector `WriteCommandMessage` returns the error "no arguments provided for command"
and leaves the connection as it was. -/
theorem authentication_complete (authSecret : GoString) (args : List GoString)
    (hne : args ≠ []) :
    (∀ (conn : Conn), WriteCommandMessage (some conn) authSecret args
      = WriteMessage (some conn) MessageTypeCommand (commandPayload authSecret args)) ∧
    (ParseCommandMessage (some (commandPayload authSecret args))).err = none ∧
    (ParseCommandMessage (some (commandPayload authSecret args))).version = ProtocolVersion ∧
    (ParseCommandMessage (some (commandPayload authSecret args))).version = 1 ∧
    (ParseCommandMessage (some (commandPayload authSecret args))).signature.length = 64 ∧
    VerifySignature authSecret
      (ParseCommandMessage (some (commandPayload authSecret args))).signature
      (ParseCommandMessage (some (commandPayload authSecret args))).args = true ∧
    (∀ (conn : Conn), WriteCommandMessage (some conn) authSecret []
      = (some (.errorf (lit "no arguments provided for command")), some conn)) := by
  have hparse := ParseCommandMessage_layout ProtocolVersion (CalculateSignature authSecret args)
    (stringsJoin args [0]) (CalculateSignature_length _ _)
  rw [← commandPayload_eq] at hparse
  rw [hparse]
  refine ⟨?_, by simp, rfl, rfl, CalculateSignature_length _ _, ?_, fun conn => rfl⟩
  · intro conn
    have : ¬ args.length = 0 := by simpa using hne
    simp [WriteCommandMessage, this]
  · simp only [VerifySignature]
    rw [hmacEqual_iff]
    simp only [CalculateSignature, stringsJoin_parsed_args]

set_option maxRecDepth 1000000 in
/-- C25 at the secret "s" and the two arguments "a", with a null byte inside, and the empty
string: three arguments are parsed, and the signature verifies for them. -/
theorem authentication_complete_witness :
    (ParseCommandMessage (some (commandPayload (lit "s") [[97, 0, 98], []]))).args
      = [[97], [98], []] ∧
    VerifySignature (lit "s")
      (ParseCommandMessage (some (commandPayload (lit "s") [[97, 0, 98], []]))).signature
      (ParseCommandMessage (some (commandPayload (lit "s") [[97, 0, 98], []]))).args = true :=
  ⟨by decide,
   (authentication_complete (lit "s") [[97, 0, 98], []] (by decide)).2.2.2.2.2.1⟩

/-! ## Start-up with logging turned off -/

/-- C22 fails in the server at a configuration whose "log" value is `false` or absent:
`ParseLogConfig` maps both to the empty destination, for which `SetupLogger` returns no file
and no error, and the client, which calls `ParseLogConfig`, starts with logging off. The
server does not call `ParseLogConfig`; it evaluates `cfg.Log.(string)`, which panics for
`false` and for `nil`. For the strings "stdout" and "stderr" and for a file path that can be
opened both programs derive the destination. -/
theorem serverSetupLogger_log_false (env : LogEnv) (cfg : ServerConfig)
    (ccfg : ClientConfig) :
    ParseLogConfig env (.bool false) = ([], none) ∧
    ParseLogConfig env .null = ([], none) ∧
    SetupLogger env [] = (none, none) ∧
    clientSetupLogger env { ccfg with Log := .bool false } = .logDest none ∧
    clientSetupLogger env { ccfg with Log := .null } = .logDest none ∧
    serverSetupLogger env { cfg with Log := .bool false }
      = .panic (lit "interface conversion: interface \x7b\x7d is bool, not string") ∧
    serverSetupLogger env { cfg with Log := .null }
      = .panic (lit "interface conversion: interface \x7b\x7d is nil, not string") ∧
    serverSetupLogger env { cfg with Log := .string (lit "stdout") }
      = .logDest (some .stdout) ∧
    serverSetupLogger env { cfg with Log := .string (lit "stderr") }
      = .logDest (some .stderr) ∧
    (∀ (path : GoString), path ≠ [] → path ≠ lit "stdout" → path ≠ lit "stderr" →
      env.mkdirAllDir path = none → env.openFile path = none →
      serverSetupLogger env { cfg with Log := .string path } = .logDest (some (.file path))) := by
  refine ⟨rfl, rfl, rfl, rfl, rfl, rfl, rfl, rfl, rfl, ?_⟩
  · intro path h1 h2 h3 h4 h5
    simp only [serverSetupLogger, SetupLogger, h1, h2, h3, h4, h5, if_false]

/-! ## Frames of writers that share a connection -/

/-- On a connection that accepts every write, `WriteMessage` leaves the bytes of its
`conn.Write` calls, in order. -/
theorem WriteMessage_writeCalls (t : Byte) (p : List Byte) (w : Conn)
    (h : w.writeRoom = none) :
    WriteMessage (some w) t p
      = (none, some { w with sent := w.sent ++ (writeCalls t p).flatten }) := by
  rw [WriteMessage_unlimited t p w h]
  by_cases hp : p.length > 0
  · simp [writeCalls, hp]
  · have := length_pos_or_nil p hp
    subst this
    simp [writeCalls]

set_option maxRecDepth 1000000 in
/-- C23 fails: `WriteMessage` makes two calls of `conn.Write` for a frame with a payload, and
the goroutines that share a connection hold no lock. On the server, with the stdout proxy
sending "ab" and the stderr proxy sending "cd", the order header, header, payload, payload
puts the bytes 02 00 00 00 02 03 00 00 00 02 "ab" "cd" on the connection, which the client
reads as a Stdout frame with the payload 03 00 followed by a frame of type 0 that announces
156002 bytes. On the client, the Cancel frame of the interrupt handler can fall between the
header and the payload of a Stdin frame of the input pump; the server then reads a Stdin frame
with the payload 06 00 and no Cancel frame. When each goroutine finishes its frame before the
other starts, the bytes are those of the two frames. -/
theorem writeMessage_frames_interleave :
    writeCalls MessageTypeStdout [97, 98] = [[2, 0, 0, 0, 2], [97, 98]] ∧
    writeCalls MessageTypeStderr [99, 100] = [[3, 0, 0, 0, 2], [99, 100]] ∧
    (interleave [true, false, true, false] (writeCalls MessageTypeStdout [97, 98])
        (writeCalls MessageTypeStderr [99, 100])).flatten
      = [2, 0, 0, 0, 2, 3, 0, 0, 0, 2, 97, 98, 99, 100] ∧
    (readMessages (some (Conn.ofInput
        (interleave [true, false, true, false] (writeCalls MessageTypeStdout [97, 98])
          (writeCalls MessageTypeStderr [99, 100])).flatten)) 2).1
      = [⟨MessageTypeStdout, [3, 0]⟩] ∧
    (interleave [true, false, true] (writeCalls MessageTypeStdin [97, 98])
        (writeCalls MessageTypeCancel [])).flatten
      = [7, 0, 0, 0, 2, 6, 0, 0, 0, 0, 97, 98] ∧
    (readMessages (some (Conn.ofInput
        (interleave [true, false, true] (writeCalls MessageTypeStdin [97, 98])
          (writeCalls MessageTypeCancel [])).flatten)) 2).1
      = [⟨MessageTypeStdin, [6, 0]⟩] ∧
    (readMessages (some (Conn.ofInput
        (interleave [true, true] (writeCalls MessageTypeStdout [97, 98])
          (writeCalls MessageTypeStderr [99, 100])).flatten)) 2).1
      = [⟨MessageTypeStdout, [97, 98]⟩, ⟨MessageTypeStderr, [99, 100]⟩] := by
  decide

/-! ## Comments -/

/-- A `/` as the next byte makes an iteration at a byte other than `/` do what it does at
the last byte, unless that leaves the loop inside a block comment. -/
theorem stripStep_next_slash (st : StripState) (c : Byte) (hc : c ≠ 47)
    (hm : (stripStep st c none).1.inMultiLineComment = false) :
    stripStep st c (some 47) = stripStep st c none := by
  unfold stripStep at hm ⊢
  cases h1 : st.inSingleLineComment
  · cases h2 : st.inMultiLineComment
    · simp [hc]
    · simp only [h1, h2, Bool.false_eq_true, if_false, if_true, reduceCtorEq, and_false]
        at hm ⊢
  · simp

/-- Whether the loop is outside every string and comment, flag by flag. -/
theorem StripState.outside_iff (st : StripState) :
    st.outside = true ↔ st.inString = false ∧ st.escaped = false ∧
      st.inSingleLineComment = false ∧ st.inMultiLineComment = false := by
  simp only [StripState.outside, Bool.and_eq_true, Bool.not_eq_true']
  tauto

/-- The loop over a content in which a `/` follows the bytes `xs` handles `xs` as it does when
the content ends after `xs`, when `xs` does not end in `/` and the loop is outside every
block comment after `xs`. -/
theorem stripLoop_append_slash (xs ys : List Byte) :
    ∀ (st : StripState) (sk : Bool), (sk = false ∨ xs ≠ []) → xs.getLast? ≠ some 47 →
      (stripLoop st sk xs).inMultiLineComment = false →
      stripLoop st sk (xs ++ 47 :: ys) = stripLoop (stripLoop st sk xs) false (47 :: ys) := by
  induction xs with
  | nil =>
    intro st sk h _ _
    rcases h with h | h
    · subst h; rfl
    · exact absurd rfl h
  | cons c xs ih =>
    intro st sk _ hlast hm
    cases sk with
    | true =>
      simp only [List.cons_append, stripLoop, if_true] at hm ⊢
      refine ih st false (Or.inl rfl) ?_ hm
      cases xs with
      | nil => simp
      | cons d xs => simpa using hlast
    | false =>
      cases xs with
      | nil =>
        have hc : c ≠ 47 := by simpa using hlast
        have hm' : (stripStep st c none).1.inMultiLineComment = false := by
          simpa [stripLoop] using hm
        show stripLoop st false (c :: 47 :: ys)
          = stripLoop (stripLoop st false [c]) false (47 :: ys)
        simp only [stripLoop, Bool.false_eq_true, if_false,
          List.head?_cons, List.head?_nil, stripStep_next_slash st c hc hm',
          stripStep_none_skip]
      | cons d xs =>
        have hm' : (stripLoop (stripStep st c (some d)).1 (stripStep st c (some d)).2
            (d :: xs)).inMultiLineComment = false := by
          simpa [stripLoop] using hm
        have := ih (stripStep st c (some d)).1 (stripStep st c (some d)).2
          (Or.inr (List.cons_ne_nil _ _)) (by simpa using hlast) hm'
        simp only [List.cons_append, stripLoop, Bool.false_eq_true, if_false,
          List.head?_cons] at this ⊢
        exact this

/-- The state after a content that ends outside every string and comment: the output so
far, all flags false and depth 0. -/
theorem stripLoop_outside_eq (pre : List Byte)
    (hpre : (stripLoop StripState.init false pre).outside = true) :
    stripLoop StripState.init false pre
      = { StripState.init with result := StripJSONCComments pre } := by
  have hdepth := stripLoop_depth pre StripState.init false (fun _ => rfl)
  obtain ⟨p1, p2, p3, p4⟩ := (StripState.outside_iff _).mp hpre
  have hd := hdepth p4
  cases h : stripLoop StripState.init false pre with
  | mk r a b c d e =>
    rw [h] at p1 p2 p3 p4 hd
    simp only at p1 p2 p3 p4 hd
    subst p1 p2 p3 p4 hd
    unfold StripJSONCComments
    rw [h]
    rfl

/-- The loop started with bytes in the buffer, outside every string and comment. -/
theorem stripLoop_from_outside (R xs : List Byte) :
    (stripLoop { StripState.init with result := R } false xs).result
      = R ++ StripJSONCComments xs := by
  have := stripLoop_result_prefix R xs StripState.init false
  have hst : ({ StripState.init with result := R } : StripState)
      = { StripState.init with result := R ++ StripState.init.result } := by
    simp [StripState.init]
  rw [hst, this]
  rfl

/-- Inside a line comment the loop passes over bytes other than the newline. -/
theorem stripLoop_line_comment (c ys : List Byte) :
    ∀ (st : StripState), st.inSingleLineComment = true → (10 : Byte) ∉ c →
      stripLoop st false (c ++ ys) = stripLoop st false ys := by
  induction c with
  | nil => intro st _ _; rfl
  | cons b c ih =>
    intro st hs hc
    have hb : b ≠ 10 := fun h => hc (by simp [h])
    have hstep : ∀ nx, stripStep st b nx = (st, false) := by
      intro nx
      simp [stripStep, hs, hb]
    simp only [List.cons_append, stripLoop, Bool.false_eq_true, if_false, hstep]
    exact ih st hs (fun h => hc (List.mem_cons_of_mem _ h))

/-- Outside every comment, an iteration that starts no comment writes its byte, skips
nothing and moves the string flags as a string scanner does. -/
theorem stripStep_text (st : StripState) (c : Byte) (nx : Option Byte)
    (h1 : st.inSingleLineComment = false) (h2 : st.inMultiLineComment = false)
    (h : st.escaped = true ∨ st.inString = true ∨ c ≠ 47 ∨ (nx ≠ some 47 ∧ nx ≠ some 42)) :
    stripStep st c nx
      = ({ st with
            result := st.result ++ [c],
            escaped := (!st.escaped && st.inString && c == 92),
            inString := (if st.escaped then st.inString
                         else if st.inString then c != 34 else c == 34) }, false) := by
  unfold stripStep
  simp only [h1, h2, Bool.false_eq_true, if_false, StripState.WriteByte]
  cases he : st.escaped
  · cases hs : st.inString
    · simp only [he, hs, Bool.false_eq_true, false_or] at h
      by_cases hq : c = 34
      · subst hq; simp
      · by_cases hc : c = 47
        · subst hc
          have hn := h.resolve_left (by simp)
          cases nx with
          | none => simp
          | some d =>
            have d1 : d ≠ 47 := fun e => hn.1 (by rw [e])
            have d2 : d ≠ 42 := fun e => hn.2 (by rw [e])
            simp [d1, d2]
        · simp [hq, hc]
    · by_cases hb : c = 92
      · subst hb; simp
      · by_cases hq : c = 34
        · subst hq; simp
        · simp [hb, hq]
  · simp

/-- A content without `/` is copied: the loop, started outside every comment, writes every
byte and stays outside every comment. -/
theorem stripLoop_no_slash (xs : List Byte) :
    ∀ (st : StripState), st.inSingleLineComment = false → st.inMultiLineComment = false →
      (47 : Byte) ∉ xs →
      (stripLoop st false xs).result = st.result ++ xs ∧
      (stripLoop st false xs).inSingleLineComment = false ∧
      (stripLoop st false xs).inMultiLineComment = false := by
  induction xs with
  | nil => intro st h1 h2 _; exact ⟨by simp [stripLoop], h1, h2⟩
  | cons c xs ih =>
    intro st h1 h2 hx
    have hc : c ≠ 47 := fun h => hx (by simp [h])
    have hstep := stripStep_text st c xs.head? h1 h2 (Or.inr (Or.inr (Or.inl hc)))
    have hsk : (stripStep st c xs.head?).2 = false := by rw [hstep]
    obtain ⟨r1, r2, r3⟩ := ih (stripStep st c xs.head?).1 (by rw [hstep]; exact h1)
      (by rw [hstep]; exact h2) (fun h => hx (List.mem_cons_of_mem _ h))
    simp only [stripLoop, Bool.false_eq_true, if_false, hsk]
    refine ⟨?_, r2, r3⟩
    rw [r1, hstep]
    simp

/-- C21. When the loop, run on `pre` alone, ends outside every string and comment, and `pre`
does not end in `/`, then for every text `c` without a newline and every `post`: the output
for `pre ++ "//" ++ c ++ "\n" ++ post` is the output for `pre`, the newline, and the output
for `post`; and the output for `pre ++ "//" ++ c` is the output for `pre`. A content with no
`/` is returned unchanged. -/
theorem stripJSONCComments_line_comment (pre c post : List Byte)
    (hpre : (stripLoop StripState.init false pre).outside = true)
    (hslash : pre.getLast? ≠ some 47) (hc : (10 : Byte) ∉ c) :
    StripJSONCComments (pre ++ [47, 47] ++ c ++ [10] ++ post)
      = StripJSONCComments pre ++ [10] ++ StripJSONCComments post ∧
    StripJSONCComments (pre ++ [47, 47] ++ c) = StripJSONCComments pre ∧
    (∀ (x : List Byte), (47 : Byte) ∉ x → StripJSONCComments x = x) := by
  have hs := stripLoop_outside_eq pre hpre
  have hm := ((StripState.outside_iff _).mp hpre).2.2.2
  have hopen : ∀ ys, stripLoop StripState.init false (pre ++ 47 :: 47 :: ys)
      = stripLoop { StripState.init with result := StripJSONCComments pre,
                                         inSingleLineComment := true } false ys := by
    intro ys
    rw [stripLoop_append_slash pre _ _ _ (Or.inl rfl) hslash hm, hs]
    simp [stripLoop, stripStep, StripState.init]
  refine ⟨?_, ?_, ?_⟩
  · have happ : pre ++ [47, 47] ++ c ++ [10] ++ post = pre ++ 47 :: 47 :: (c ++ 10 :: post) := by
      simp
    unfold StripJSONCComments
    rw [happ, hopen, stripLoop_line_comment c _ _ rfl hc]
    have hnl : ∀ nx,
        stripStep
          { StripState.init with result := StripJSONCComments pre,
                                 inSingleLineComment := true } 10 nx
        = ({ StripState.init with result := StripJSONCComments pre ++ [10] }, false) := by
      intro nx
      simp [stripStep, StripState.init, StripState.WriteByte]
    rw [stripLoop]
    simp only [Bool.false_eq_true, if_false, hnl]
    rw [stripLoop_from_outside]
    rfl
  · have happ : pre ++ [47, 47] ++ c = pre ++ 47 :: 47 :: (c ++ []) := by simp
    unfold StripJSONCComments
    rw [happ, hopen, stripLoop_line_comment c _ _ rfl hc]
    rfl
  · intro x hx
    have := (stripLoop_no_slash x StripState.init rfl rfl hx).1
    unfold StripJSONCComments
    rw [this]
    rfl

set_option maxRecDepth 1000000 in
/-- C21 at a comment after a value and before a next line, and at a comment that ends the
content. -/
theorem stripJSONCComments_line_comment_witness :
    StripJSONCComments (lit "[1, " ++ [47, 47] ++ lit " one" ++ [10] ++ lit "2]")
      = StripJSONCComments (lit "[1, ") ++ [10] ++ StripJSONCComments (lit "2]") ∧
    StripJSONCComments (lit "[1, // one\n2]") = lit "[1, \n2]" ∧
    StripJSONCComments (lit "[1, " ++ [47, 47] ++ lit " one") = StripJSONCComments (lit "[1, ") :=
  ⟨(stripJSONCComments_line_comment (lit "[1, ") (lit " one") (lit "2]") (by decide)
      (by decide) (by decide)).1,
   by decide,
   (stripJSONCComments_line_comment (lit "[1, ") (lit " one") (lit "2]") (by decide)
      (by decide) (by decide)).2.1⟩

/-- The next byte after a text is the first byte of what follows it. -/
theorem head?_append_toList (xs ys : List Byte) :
    (xs ++ ys.head?.toList).head? = (xs ++ ys).head? := by
  cases xs with
  | nil => cases ys <;> rfl
  | cons a xs => rfl

/-- Inside a block comment the loop passes over items that are read as written, counting
the openers and closers among them. -/
theorem stripLoop_comment_items (ys : List Byte) (items : List CommentItem) :
    ∀ (st : StripState) (depth : Nat), st.inSingleLineComment = false →
      st.inMultiLineComment = true → itemsApart ys.head? items = true →
      commentDepth st.inMultiLineCommentDepth items = some depth →
      stripLoop st false (renderComment items ++ ys)
        = stripLoop { st with inMultiLineCommentDepth := depth } false ys := by
  induction items with
  | nil =>
    intro st depth _ _ _ hd
    simp only [commentDepth, Option.some.injEq] at hd
    subst hd
    rfl
  | cons item items ih =>
    intro st depth h1 h2 ha hd
    cases item with
    | opener =>
      have hstep : stripStep st 47 (some 42)
          = ({ st with inMultiLineCommentDepth := st.inMultiLineCommentDepth + 1 }, true) := by
        simp [stripStep, h1, h2]
      have := ih { st with inMultiLineCommentDepth := st.inMultiLineCommentDepth + 1 } depth
        h1 h2 (by simpa [itemsApart] using ha) (by simpa [commentDepth] using hd)
      show stripLoop st false (47 :: 42 :: (renderComment items ++ ys)) = _
      simp only [stripLoop, Bool.false_eq_true, if_false, if_true, List.head?_cons, hstep]
      exact this
    | closer =>
      cases hdep : st.inMultiLineCommentDepth with
      | zero => rw [hdep] at hd; simp [commentDepth] at hd
      | succ n =>
        rw [hdep] at hd
        have hstep : stripStep st 42 (some 47)
            = ({ st with inMultiLineCommentDepth := n }, true) := by
          simp [stripStep, h1, h2, hdep]
        have := ih { st with inMultiLineCommentDepth := n } depth
          h1 h2 (by simpa [itemsApart] using ha) (by simpa [commentDepth] using hd)
        show stripLoop st false (42 :: 47 :: (renderComment items ++ ys)) = _
        simp only [stripLoop, Bool.false_eq_true, if_false, if_true, List.head?_cons, hstep]
        exact this
    | byte c =>
      simp only [itemsApart, Bool.and_eq_true, Bool.not_eq_true', Bool.and_eq_false_iff,
        beq_eq_false_iff_ne, ne_eq, head?_append_toList] at ha
      obtain ⟨⟨ha1, ha2⟩, ha3⟩ := ha
      have hstep : stripStep st c (renderComment items ++ ys).head? = (st, false) := by
        have e1 : ¬ (c = 47 ∧ (renderComment items ++ ys).head? = some 42) := by
          rintro ⟨x, y⟩; rcases ha1 with h | h
          · exact h x
          · exact h (by simp [y])
        have e2 : ¬ (c = 42 ∧ (renderComment items ++ ys).head? = some 47) := by
          rintro ⟨x, y⟩; rcases ha2 with h | h
          · exact h x
          · exact h (by simp [y])
        unfold stripStep
        rw [if_neg (by simp [h1]), if_pos h2, if_neg e1, if_neg e2]
      have := ih st depth h1 h2 ha3 (by simpa [commentDepth] using hd)
      show stripLoop st false (c :: (renderComment items ++ ys)) = _
      rw [stripLoop]
      simp only [Bool.false_eq_true, if_false, hstep]
      exact this

/-- Items that leave `depth'` openers unmatched hold as many closers as openers, up to the
difference of the depths. -/
theorem commentDepth_count (items : List CommentItem) :
    ∀ (depth depth' : Nat), commentDepth depth items = some depth' →
      depth + items.count CommentItem.opener = depth' + items.count CommentItem.closer := by
  induction items with
  | nil => intro d d' h; simp [commentDepth] at h; simp [h]
  | cons item items ih =>
    intro d d' h
    cases item with
    | opener =>
      have := ih (d + 1) d' (by simpa [commentDepth] using h)
      simp only [List.count_cons, beq_self_eq_true, if_true,
        show (CommentItem.opener == CommentItem.closer) = false from rfl, Bool.false_eq_true,
        if_false]
      omega
    | closer =>
      cases d with
      | zero => simp [commentDepth] at h
      | succ n =>
        have := ih n d' (by simpa [commentDepth] using h)
        simp only [List.count_cons, beq_self_eq_true, if_true,
          show (CommentItem.closer == CommentItem.opener) = false from rfl, Bool.false_eq_true,
          if_false]
        omega
    | byte c =>
      have := ih d d' (by simpa [commentDepth] using h)
      simp only [List.count_cons,
        show (CommentItem.byte c == CommentItem.opener) = false from rfl,
        show (CommentItem.byte c == CommentItem.closer) = false from rfl, Bool.false_eq_true,
        if_false]
      omega

/-- C24. When the loop, run on `pre` alone, ends outside every string and comment, and `pre`
does not end in `/`: a comment `/*`, items, `*/` whose items are read as written and are
balanced (every closer among them matches an opener before it, and none is left open) is
dropped as a whole, whatever bytes it holds, and the output is the output for `pre` followed
by the output for `post`. The items hold as many closers as openers, so with k openers the
comment ends at its (k+1)-th closer. It ends no earlier: after `/*` and any items that are
not yet closed the loop is still inside the comment and has written nothing more. -/
theorem stripJSONCComments_block_comment (pre post : List Byte) (items : List CommentItem)
    (hpre : (stripLoop StripState.init false pre).outside = true)
    (hslash : pre.getLast? ≠ some 47)
    (hitems : itemsApart (some 42) items = true)
    (hdepth : commentDepth 0 items = some 0) :
    StripJSONCComments (pre ++ [47, 42] ++ renderComment items ++ [42, 47] ++ post)
      = StripJSONCComments pre ++ StripJSONCComments post ∧
    items.count CommentItem.closer = items.count CommentItem.opener ∧
    (∀ (unclosed : List CommentItem) (depth : Nat), itemsApart none unclosed = true →
      commentDepth 0 unclosed = some depth →
      StripJSONCComments (pre ++ [47, 42] ++ renderComment unclosed) = StripJSONCComments pre ∧
      (stripLoop StripState.init false
        (pre ++ [47, 42] ++ renderComment unclosed)).inMultiLineComment = true) := by
  have hs := stripLoop_outside_eq pre hpre
  have hm := ((StripState.outside_iff _).mp hpre).2.2.2
  have hopen : ∀ ys, stripLoop StripState.init false (pre ++ 47 :: 42 :: ys)
      = stripLoop { StripState.init with result := StripJSONCComments pre,
                                         inMultiLineComment := true } false ys := by
    intro ys
    rw [stripLoop_append_slash pre _ _ _ (Or.inl rfl) hslash hm, hs]
    simp [stripLoop, stripStep, StripState.init]
  refine ⟨?_, ?_, ?_⟩
  · have happ : pre ++ [47, 42] ++ renderComment items ++ [42, 47] ++ post
        = pre ++ 47 :: 42 :: (renderComment items ++ 42 :: 47 :: post) := by simp
    unfold StripJSONCComments
    rw [happ, hopen, stripLoop_comment_items (42 :: 47 :: post) items _ 0 rfl rfl hitems hdepth]
    have hend : stripStep
          { StripState.init with result := StripJSONCComments pre,
                                 inMultiLineComment := true } 42 (some 47)
        = ({ StripState.init with result := StripJSONCComments pre }, true) := by
      simp [stripStep, StripState.init]
    have hst : ({ ({ StripState.init with result := StripJSONCComments pre,
                                          inMultiLineComment := true } : StripState) with
          inMultiLineCommentDepth := 0 } : StripState)
        = { StripState.init with result := StripJSONCComments pre,
                                 inMultiLineComment := true } := rfl
    rw [hst]
    simp only [stripLoop, Bool.false_eq_true, if_false, if_true, List.head?_cons, hend]
    rw [stripLoop_from_outside]
    rfl
  · have := commentDepth_count items 0 0 hdepth
    omega
  · intro unclosed depth ha hd
    have happ : pre ++ [47, 42] ++ renderComment unclosed
        = pre ++ 47 :: 42 :: (renderComment unclosed ++ []) := by simp
    have hrun := stripLoop_comment_items [] unclosed
      { StripState.init with result := StripJSONCComments pre, inMultiLineComment := true }
      depth rfl rfl ha hd
    unfold StripJSONCComments
    rw [happ, hopen, hrun]
    exact ⟨rfl, rfl⟩

set_option maxRecDepth 1000000 in
/-- C24 at the comment `/*a/*b*/"*/` with one nested opener (k = 1), which ends at its second
closer, between `[1,` and `2]`. -/
theorem stripJSONCComments_block_comment_witness :
    StripJSONCComments (lit "[1," ++ [47, 42]
        ++ renderComment [.byte 97, .opener, .byte 98, .closer, .byte 34] ++ [42, 47]
        ++ lit "2]")
      = StripJSONCComments (lit "[1,") ++ StripJSONCComments (lit "2]") ∧
    StripJSONCComments (lit "[1,/*a/*b*/\"*/2]") = lit "[1,2]" ∧
    StripJSONCComments (lit "[1,/*a/*b*/2]") = lit "[1," :=
  ⟨(stripJSONCComments_block_comment (lit "[1,") (lit "2]")
      [.byte 97, .opener, .byte 98, .closer, .byte 34] (by decide) (by decide) (by decide)
      (by decide)).1,
   by decide, by decide⟩

/-! ## Stripping twice -/

/-- An iteration writes nothing or the byte it is at. -/
theorem stripStep_result (st : StripState) (c : Byte) (nx : Option Byte) :
    (stripStep st c nx).1.result = st.result ∨
      (stripStep st c nx).1.result = st.result ++ [c] := by
  unfold stripStep
  simp only [StripState.WriteByte]
  repeat' split
  all_goals simp

/-- The output of the loop is what was in the buffer followed by a subsequence of the
content. -/
theorem stripLoop_sublist (xs : List Byte) :
    ∀ (st : StripState) (sk : Bool),
      ∃ out : List Byte, (stripLoop st sk xs).result = st.result ++ out ∧ out.Sublist xs := by
  induction xs with
  | nil => intro st sk; exact ⟨[], by simp [stripLoop], List.Sublist.refl _⟩
  | cons c xs ih =>
    intro st sk
    cases sk with
    | true =>
      obtain ⟨out, h1, h2⟩ := ih st false
      exact ⟨out, by simpa [stripLoop] using h1, h2.cons c⟩
    | false =>
      obtain ⟨out, h1, h2⟩ := ih (stripStep st c xs.head?).1 (stripStep st c xs.head?).2
      simp only [stripLoop, Bool.false_eq_true, if_false]
      rcases stripStep_result st c xs.head? with h | h
      · exact ⟨out, by rw [h1, h], h2.cons c⟩
      · exact ⟨c :: out, by rw [h1, h]; simp, h2.cons₂ c⟩

/-- A state is its own copy with an empty buffer, put behind its buffer. -/
theorem StripState.eq_prefix (st : StripState) :
    st = { ({ st with result := [] } : StripState) with
            result := st.result ++ ({ st with result := [] } : StripState).result } := by
  cases st; simp

/-- The output of the loop is what was in the buffer followed by its output from an empty
buffer. -/
theorem stripLoop_result_empty (xs : List Byte) (st : StripState) (sk : Bool) :
    (stripLoop st sk xs).result
      = st.result ++ (stripLoop { st with result := [] } sk xs).result := by
  have := stripLoop_result_prefix st.result xs { st with result := [] } sk
  rw [← StripState.eq_prefix st] at this
  rw [this]

/-- Outside every string and comment, the first byte of the output is the first byte of a
content that does not start with `/`. -/
theorem stripLoop_head (xs : List Byte) (st : StripState)
    (h1 : st.inSingleLineComment = false) (h2 : st.inMultiLineComment = false)
    (hr : st.result = []) (hx : xs.head? ≠ some 47) :
    (stripLoop st false xs).result.head? = xs.head? := by
  cases xs with
  | nil => simp [stripLoop, hr]
  | cons d xs =>
    have hd : d ≠ 47 := fun h => hx (by simp [h])
    have hstep := stripStep_text st d xs.head? h1 h2 (Or.inr (Or.inr (Or.inl hd)))
    simp only [stripLoop, Bool.false_eq_true, if_false]
    rw [stripLoop_result_empty, hstep]
    simp [hr]

/-- The core of idempotence: the output that the loop produces from a state `st` is copied
byte for byte, and shows no comment opener outside a string, when it is scanned from a state
`st2` that is outside every comment and has the string flags of `st`. -/
theorem stripLoop_output_clean (xs : List Byte) :
    ∀ (st : StripState) (sk : Bool) (st2 : StripState), st.result = [] →
      (st.inSingleLineComment = true → st.inString = false ∧ st.escaped = false) →
      (st.inMultiLineComment = true → st.inString = false ∧ st.escaped = false) →
      st2.inSingleLineComment = false → st2.inMultiLineComment = false →
      st2.inString = st.inString → st2.escaped = st.escaped →
      (stripLoop st2 false (stripLoop st sk xs).result).result
          = st2.result ++ (stripLoop st sk xs).result ∧
        hasCommentOpener st.inString st.escaped (stripLoop st sk xs).result = false := by
  induction xs with
  | nil =>
    intro st sk st2 hr _ _ _ _ _ _
    simp [stripLoop, hr, hasCommentOpener]
  | cons c xs ih =>
    intro st sk st2 hr i1 i2 r1 r2 r3 r4
    cases sk with
    | true =>
      simp only [stripLoop, if_true]
      exact ih st false st2 hr i1 i2 r1 r2 r3 r4
    | false =>
      simp only [stripLoop, Bool.false_eq_true, if_false]
      -- an iteration of the first pass that writes nothing
      have quiet : ∀ (s1 : StripState) (k : Bool),
          s1.result = [] → s1.inString = st.inString → s1.escaped = st.escaped →
          (s1.inSingleLineComment = true → s1.inString = false ∧ s1.escaped = false) →
          (s1.inMultiLineComment = true → s1.inString = false ∧ s1.escaped = false) →
          (stripLoop st2 false (stripLoop s1 k xs).result).result
            = st2.result ++ (stripLoop s1 k xs).result ∧
          hasCommentOpener st.inString st.escaped (stripLoop s1 k xs).result = false := by
        intro s1 k q1 q2 q3 q4 q5
        have := ih s1 k st2 q1 q4 q5 r1 r2 (by rw [r3, q2]) (by rw [r4, q3])
        rw [q2, q3] at this
        exact this
      -- an iteration of the first pass that writes its byte
      have loud : ∀ (s1 : StripState),
          s1.result = [c] → s1.inString = (st.afterText c).inString →
          s1.escaped = (st.afterText c).escaped →
          (s1.inSingleLineComment = true → s1.inString = false ∧ s1.escaped = false) →
          (s1.inMultiLineComment = true → s1.inString = false ∧ s1.escaped = false) →
          (st.escaped = true ∨ st.inString = true ∨ c ≠ 47
            ∨ ((stripLoop { s1 with result := [] } false xs).result.head? ≠ some 47 ∧
               (stripLoop { s1 with result := [] } false xs).result.head? ≠ some 42)) →
          (stripLoop st2 false (stripLoop s1 false xs).result).result
            = st2.result ++ (stripLoop s1 false xs).result ∧
          hasCommentOpener st.inString st.escaped (stripLoop s1 false xs).result = false := by
        intro s1 q1 q2 q3 q4 q5 hw
        have hnext := ih { s1 with result := [] } false (st2.afterText c) rfl q4 q5 r1 r2
          (by simp only [StripState.afterText, r3, r4, q2])
          (by simp only [StripState.afterText, r3, r4, q3])
        have hy : (stripLoop s1 false xs).result
            = c :: (stripLoop { s1 with result := [] } false xs).result := by
          rw [stripLoop_result_empty, q1]; rfl
        have hw2 : st2.escaped = true ∨ st2.inString = true ∨ c ≠ 47
            ∨ ((stripLoop { s1 with result := [] } false xs).result.head? ≠ some 47 ∧
               (stripLoop { s1 with result := [] } false xs).result.head? ≠ some 42) := by
          rw [r3, r4]; exact hw
        have hstep2 : stripStep st2 c (stripLoop { s1 with result := [] } false xs).result.head?
            = (st2.afterText c, false) := stripStep_text st2 c _ r1 r2 hw2
        rw [hy]
        generalize (stripLoop { s1 with result := [] } false xs).result = y at hnext hw hstep2
        constructor
        · simp only [stripLoop, Bool.false_eq_true, if_false, hstep2]
          rw [hnext.1]
          simp [StripState.afterText]
        · have hflags := hnext.2
          simp only [q2, q3, StripState.afterText] at hflags
          simp only [hasCommentOpener, hflags, Bool.or_false]
          rcases hw with h | h | h | h
          · simp [h]
          · simp [h]
          · simp [h]
          · cases hh : y.head? with
            | none => simp
            | some d =>
              rw [hh] at h
              have d1 : d ≠ 47 := fun e => h.1 (by rw [e])
              have d2 : d ≠ 42 := fun e => h.2 (by rw [e])
              simp [d1, d2]
      by_cases hs : st.inSingleLineComment = true
      · obtain ⟨s3, s4⟩ := i1 hs
        by_cases hc : c = 10
        · have hstep : stripStep st c xs.head?
              = ({ st with inSingleLineComment := false }.WriteByte c, false) := by
            simp [stripStep, hs, hc]
          rw [hstep]
          refine loud _ (by simp [StripState.WriteByte, hr])
            (by simp [StripState.WriteByte, StripState.afterText, s3, s4, hc])
            (by simp [StripState.WriteByte, StripState.afterText, s3, s4])
            (by intro h; simp [StripState.WriteByte] at h)
            (by intro _; exact ⟨s3, s4⟩)
            (Or.inr (Or.inr (Or.inl (by rw [hc]; decide))))
        · have hstep : stripStep st c xs.head? = (st, false) := by
            simp [stripStep, hs, hc]
          rw [hstep]
          exact quiet st false hr rfl rfl i1 i2
      · have hs' : st.inSingleLineComment = false := by simpa using hs
        by_cases hm : st.inMultiLineComment = true
        · obtain ⟨s3, s4⟩ := i2 hm
          by_cases o : c = 47 ∧ xs.head? = some 42
          · have hstep : stripStep st c xs.head?
                = ({ st with inMultiLineCommentDepth := st.inMultiLineCommentDepth + 1 },
                   true) := by
              simp [stripStep, hs', hm, o]
            rw [hstep]
            exact quiet _ true hr rfl rfl (fun h => absurd h hs) (fun _ => ⟨s3, s4⟩)
          · by_cases cl : c = 42 ∧ xs.head? = some 47
            · by_cases hdep : st.inMultiLineCommentDepth > 0
              · have hstep : stripStep st c xs.head?
                    = ({ st with inMultiLineCommentDepth := st.inMultiLineCommentDepth - 1 },
                       true) := by
                  unfold stripStep
                  rw [if_neg hs, if_pos hm, if_neg o, if_pos cl, if_pos hdep]
                rw [hstep]
                exact quiet _ true hr rfl rfl (fun h => absurd h hs) (fun _ => ⟨s3, s4⟩)
              · have hstep : stripStep st c xs.head?
                    = ({ st with inMultiLineComment := false }, true) := by
                  unfold stripStep
                  rw [if_neg hs, if_pos hm, if_neg o, if_pos cl, if_neg hdep]
                rw [hstep]
                exact quiet _ true hr rfl rfl (fun h => absurd h hs) (fun _ => ⟨s3, s4⟩)
            · have hstep : stripStep st c xs.head? = (st, false) := by
                unfold stripStep
                rw [if_neg hs, if_pos hm, if_neg o, if_neg cl]
              rw [hstep]
              exact quiet st false hr rfl rfl i1 i2
        · have hm' : st.inMultiLineComment = false := by simpa using hm
          by_cases hw : st.escaped = true ∨ st.inString = true ∨ c ≠ 47
              ∨ (xs.head? ≠ some 47 ∧ xs.head? ≠ some 42)
          · obtain ⟨s1, hs1⟩ : ∃ s1 : StripState, s1 = st.afterText c := ⟨_, rfl⟩
            have hstep : stripStep st c xs.head? = (s1, false) := by
              rw [hs1]; exact stripStep_text st c xs.head? hs' hm' hw
            rw [hstep]
            refine loud s1 (by rw [hs1]; simp [StripState.afterText, hr]) (by rw [hs1])
              (by rw [hs1])
              (fun h => absurd (by rw [hs1] at h; exact h) hs)
              (fun h => absurd (by rw [hs1] at h; exact h) hm) ?_
            rcases hw with h | h | h | h
            · exact Or.inl h
            · exact Or.inr (Or.inl h)
            · exact Or.inr (Or.inr (Or.inl h))
            · by_cases he : st.escaped = true
              · exact Or.inl he
              · by_cases hstr : st.inString = true
                · exact Or.inr (Or.inl hstr)
                · refine Or.inr (Or.inr (Or.inr ?_))
                  rw [stripLoop_head xs { s1 with result := [] } (by rw [hs1]; exact hs')
                    (by rw [hs1]; exact hm') rfl h.1]
                  exact h
          · simp only [not_or, not_and_or, not_not, ne_eq, Bool.not_eq_true] at hw
            obtain ⟨w1, w2, w3, w4⟩ := hw
            have hq : c ≠ 34 := by rw [w3]; decide
            rcases w4 with w4 | w4
            · have hstep : stripStep st c xs.head?
                  = ({ st with inSingleLineComment := true }, true) := by
                simp [stripStep, hs', hm', w1, w2, w3, w4]
              rw [hstep]
              exact quiet _ true hr rfl rfl (fun _ => ⟨w2, w1⟩) (fun h => absurd h hm)
            · have hstep : stripStep st c xs.head?
                  = ({ st with inMultiLineComment := true }, true) := by
                simp [stripStep, hs', hm', w1, w2, w3, w4]
              rw [hstep]
              exact quiet _ true hr rfl rfl (fun h => absurd h hs) (fun _ => ⟨w2, w1⟩)

/-- C26. For every byte sequence `x`: stripping the output of `StripJSONCComments` again
changes nothing; the output holds no `//` and no `/*` outside a string literal (strings run
from a `"` to the next `"` that no backslash escapes); the output is a subsequence of `x`;
and it is not longer than `x`. -/
theorem stripJSONCComments_idempotent (x : List Byte) :
    StripJSONCComments (StripJSONCComments x) = StripJSONCComments x ∧
    hasCommentOpener false false (StripJSONCComments x) = false ∧
    (StripJSONCComments x).Sublist x ∧
    (StripJSONCComments x).length ≤ x.length := by
  have hclean := stripLoop_output_clean x StripState.init false StripState.init rfl
    (fun h => by cases h) (fun h => by cases h) rfl rfl rfl rfl
  obtain ⟨out, h1, h2⟩ := stripLoop_sublist x StripState.init false
  have hout : StripJSONCComments x = out := by
    unfold StripJSONCComments
    rw [h1]
    rfl
  refine ⟨?_, hclean.2, by rw [hout]; exact h2, by rw [hout]; exact h2.length_le⟩
  unfold StripJSONCComments
  rw [hclean.1]
  rfl

set_option maxRecDepth 1000000 in
/-- C26 at a text with a line comment, a block comment and a string that holds `//`: the
output, and the output of stripping it again. -/
theorem stripJSONCComments_idempotent_witness :
    StripJSONCComments (lit "[1, /* x */ \"a//b\"] // end") = lit "[1,  \"a//b\"] " ∧
    StripJSONCComments (lit "[1,  \"a//b\"] ") = lit "[1,  \"a//b\"] " ∧
    StripJSONCComments (StripJSONCComments (lit "[1, /* x */ \"a//b\"] // end"))
      = StripJSONCComments (lit "[1, /* x */ \"a//b\"] // end") :=
  ⟨by decide, by decide,
   (stripJSONCComments_idempotent (lit "[1, /* x */ \"a//b\"] // end")).1⟩

end FfmpegOverIp
